import Mathlib

/-!
# Validation-probing engine (`src/server/validationTester.js`)

A shallow embedding of the engine: JSON values, the test-case catalog, the
per-field probe loop (`testFieldValidation`), the keyword heuristic
(`isValidationError`) and the orchestrator (`testEndpointValidation`),
followed by theorems about them.

Conventions of the embedding:

* JavaScript `undefined` is `none` of an `Option`; JavaScript `null` is
  `JSONValue.null` (or `none` for the nullable status code).
* A JSON number is kept as the text `JSON.stringify` prints for it (`"0"`,
  `"-1"`, `"3.14"`): the engine never computes with body values, it only tests
  them for truthiness, asks their `typeof` and serialises them.  Numbers are
  finite: a literal beyond the range of a double is outside the embedding.
* A request body is a JSON object, as the signature of the engine says: a list
  of members with their keys in the order `Object.keys` gives.
* The network and the progress callback are the environment: the network
  answers the n-th request sent, the callback may throw on the n-th event it
  is handed.  Both are arbitrary functions, so every theorem holds for every
  behaviour of the target endpoint and of the callback.
-/

namespace ValidationTester

/-! ## JSON values -/

/-- A JSON value as `JSON.parse` produces it. -/
inductive JSONValue where
  | null
  | bool (b : Bool)
  | num (text : String)
  | str (s : String)
  | arr (items : List JSONValue)
  | obj (members : List (String × JSONValue))
  deriving Repr, Inhabited

/-- A JSON object: its own enumerable properties in key order. -/
abbrev JSObject := List (String × JSONValue)

/-- The JavaScript `typeof` operator; `none` stands for `undefined`. -/
def typeofJS : Option JSONValue → String
  | none => "undefined"
  | some (.bool _) => "boolean"
  | some (.num _) => "number"
  | some (.str _) => "string"
  | some .null => "object"
  | some (.arr _) => "object"
  | some (.obj _) => "object"

/-- JavaScript truthiness of a JSON value (`!v` is its negation): `null`,
`false`, the number zero and the empty string are falsy. -/
def truthy : JSONValue → Bool
  | .null => false
  | .bool b => b
  | .num t => t != "0"
  | .str s => s != ""
  | .arr _ => true
  | .obj _ => true

/-- A hexadecimal digit, lower case, as `JSON.stringify` writes it. -/
def hexDigit (n : Nat) : Char :=
  if n < 10 then Char.ofNat (48 + n) else Char.ofNat (87 + n)

/-- One character of a string inside a JSON string literal (ECMAScript
`QuoteJSONString`). -/
def quoteChar (c : Char) : List Char :=
  if c = '"' then ['\\', '"']
  else if c = '\\' then ['\\', '\\']
  else if c = '\x08' then ['\\', 'b']
  else if c = '\x0c' then ['\\', 'f']
  else if c = '\n' then ['\\', 'n']
  else if c = '\r' then ['\\', 'r']
  else if c = '\t' then ['\\', 't']
  else if c.toNat < 32 then
    ['\\', 'u', '0', '0', hexDigit (c.toNat / 16), hexDigit (c.toNat % 16)]
  else [c]

/-- A string as a JSON string literal. -/
def quoteJSONString (s : String) : List Char :=
  '"' :: (s.data.flatMap quoteChar ++ ['"'])

/-- Comma-separated concatenation. -/
def joinComma : List (List Char) → List Char
  | [] => []
  | [x] => x
  | x :: y :: rest => x ++ ',' :: joinComma (y :: rest)

mutual
/-- The characters of `JSON.stringify(v)` (no indentation). -/
def stringifyChars : JSONValue → List Char
  | .null => "null".data
  | .bool true => "true".data
  | .bool false => "false".data
  | .num t => t.data
  | .str s => quoteJSONString s
  | .arr items => '[' :: (joinComma (stringifyItems items) ++ [']'])
  | .obj members => Char.ofNat 123 :: (joinComma (stringifyMembers members) ++ [Char.ofNat 125])
/-- The serialised elements of an array. -/
def stringifyItems : List JSONValue → List (List Char)
  | [] => []
  | v :: rest => stringifyChars v :: stringifyItems rest
/-- The serialised members of an object. -/
def stringifyMembers : List (String × JSONValue) → List (List Char)
  | [] => []
  | (k, v) :: rest => (quoteJSONString k ++ ':' :: stringifyChars v) :: stringifyMembers rest
end

/-- The text of `JSON.stringify(v)`. -/
def stringify (v : JSONValue) : String := String.mk (stringifyChars v)

/-! ## The keyword heuristic -/

/-- The method `String.prototype.toLowerCase` on the letters that matter here:
`A`..`Z` become `a`..`z`, every other character is kept.  (ECMAScript also
lowers letters outside ASCII; every keyword below is made of ASCII lower-case
letters and blanks only.) -/
def toLowerCase (s : List Char) : List Char := s.map Char.toLower

/-- Whether `kw` is an initial segment of `s`. -/
def startsWith : List Char → List Char → Bool
  | _, [] => true
  | [], _ :: _ => false
  | c :: s, k :: kw => c == k && startsWith s kw

/-- The method `String.prototype.includes`: `kw` occurs in `s` as a contiguous
run of characters. -/
def includes : List Char → List Char → Bool
  | [], kw => startsWith [] kw
  | c :: s, kw => startsWith (c :: s) kw || includes s kw

/-- The list `validationKeywords` of `isValidationError`. -/
def validationKeywords : List String :=
  [ "validation", "invalid", "required", "bad request", "unprocessable",
    "constraint", "format", "pattern", "type error", "must be", "should be",
    "expected" ]

/-- The list `serverErrorKeywords` of `isValidationError`. -/
def serverErrorKeywords : List String :=
  [ "internal server error", "server error", "database error",
    "connection error", "timeout", "service unavailable" ]

/-- The local `responseStr` of `isValidationError`: a string is lowered as it
is, any other value is serialised with `JSON.stringify` first. -/
def responseStr : JSONValue → List Char
  | .str s => toLowerCase s.data
  | v => toLowerCase (stringifyChars v)

/-- The function `isValidationError(response)`. -/
def isValidationError (response : JSONValue) : Bool :=
  if !truthy response then false
  else if serverErrorKeywords.any (fun keyword => includes (responseStr response) keyword.data) then
    false
  else validationKeywords.any (fun keyword => includes (responseStr response) keyword.data)

/-- Lines 95-108 of `testFieldValidation`: the `handled` flag of a completed
probe, from its status code (`none` when null or undefined) and its body. -/
def handled (statusCode : Option Int) (responseBody : JSONValue) : Bool :=
  match statusCode with
  | none => false
  | some s =>
    if s ≥ 400 ∧ s < 500 then true
    else if s ≥ 200 ∧ s < 300 then isValidationError responseBody
    else if s ≥ 500 then false
    else false

/-! ## Object properties -/

/-- The call `Object.keys(o)`. -/
def keys {α : Type} (o : List (String × α)) : List String := o.map Prod.fst

/-- The property read `o[k]`; `none` is `undefined`. -/
def getProp {α : Type} (o : List (String × α)) (k : String) : Option α :=
  match o with
  | [] => none
  | (k1, v) :: rest => if k1 = k then some v else getProp rest k

/-- The assignment `o[k] = v` on an object made by `JSON.parse` or by an object
literal.  An own property keeps its place and takes the new value (the case of
every assignment to a request body in a run, where `k` ranges over the keys of
the body).  A name that is not an own property is added at the end, except
`__proto__`: that assignment reaches the setter inherited from
`Object.prototype` and adds no property. -/
def setProp {α : Type} (o : List (String × α)) (k : String) (v : α) : List (String × α) :=
  match o with
  | [] => if k = "__proto__" then [] else [(k, v)]
  | (k1, v1) :: rest => if k1 = k then (k1, v) :: rest else (k1, v1) :: setProp rest k v

/-- The statement `delete o[k]`. -/
def deleteProp {α : Type} (o : List (String × α)) (k : String) : List (String × α) :=
  o.filter (fun m => m.1 != k)

mutual
/-- The copy `JSON.parse(JSON.stringify(v))` of a JSON value: a fresh value with
the same structure, sharing nothing with `v`. -/
def jsonCopy : JSONValue → JSONValue
  | .null => .null
  | .bool b => .bool b
  | .num t => .num t
  | .str s => .str s
  | .arr items => .arr (jsonCopyItems items)
  | .obj members => .obj (jsonCopyMembers members)
/-- The copy of the elements of an array. -/
def jsonCopyItems : List JSONValue → List JSONValue
  | [] => []
  | v :: rest => jsonCopy v :: jsonCopyItems rest
/-- The copy of the members of an object. -/
def jsonCopyMembers : List (String × JSONValue) → List (String × JSONValue)
  | [] => []
  | (k, v) :: rest => (k, jsonCopy v) :: jsonCopyMembers rest
end

/-! ## The test-case catalog -/

/-- One entry of `testCases`; the value `none` is `undefined`, the marker of the
case that removes the field. -/
structure TestCase where
  name : String
  value : Option JSONValue
  deriving Repr, Inhabited

/-- The twelve literal entries of `testCases` (lines 9-22). -/
def baseTestCases : List TestCase :=
  [ ⟨"null", some .null⟩,
    ⟨"undefined", none⟩,
    ⟨"empty string", some (.str "")⟩,
    ⟨"number (0)", some (.num "0")⟩,
    ⟨"number (negative)", some (.num "-1")⟩,
    ⟨"number (large)", some (.num "999999999")⟩,
    ⟨"boolean (true)", some (.bool true)⟩,
    ⟨"boolean (false)", some (.bool false)⟩,
    ⟨"array", some (.arr [])⟩,
    ⟨"object", some (.obj [])⟩,
    ⟨"string (special chars)", some (.str "!@#$%^&*()")⟩,
    ⟨"string (very long)", some (.str (String.mk (List.replicate 10000 'a')))⟩ ]

/-- The entries pushed after the literal ones, by `typeof originalValue`
(lines 24-41). -/
def typeSpecificTestCases (originalValue : Option JSONValue) : List TestCase :=
  if typeofJS originalValue = "string" then
    [ ⟨"number as string", some (.str "123")⟩,
      ⟨"boolean as string", some (.str "true")⟩ ]
  else if typeofJS originalValue = "number" then
    [ ⟨"string", some (.str "test")⟩,
      ⟨"float", some (.num "3.14")⟩ ]
  else if typeofJS originalValue = "boolean" then
    [ ⟨"string", some (.str "test")⟩,
      ⟨"number (1)", some (.num "1")⟩,
      ⟨"number (0)", some (.num "0")⟩ ]
  else []

/-- The array `testCases` of `testFieldValidation` once the type-specific
entries are pushed. -/
def testCases (originalValue : Option JSONValue) : List TestCase :=
  baseTestCases ++ typeSpecificTestCases originalValue

/-- Lines 48-56: the request body of one test case, a copy of `baseBody` with
the field removed (value `undefined`) or replaced. -/
def testBody (baseBody : JSObject) (fieldName : String) (value : Option JSONValue) : JSObject :=
  match value with
  | none => deleteProp (jsonCopyMembers baseBody) fieldName
  | some v => setProp (jsonCopyMembers baseBody) fieldName v

/-! ## The environment: network and progress callback -/

/-- The argument `method`: a string, or a value that has no `toUpperCase`
method (calling it throws a `TypeError` with the given message). -/
inductive Method where
  | str (s : String)
  | other (typeError : String)
  deriving Repr, Inhabited

/-- One request `makeHttpRequest` hands to `client.request`, as it goes out
when it is written: `method` is the method on the request line, and the bytes
sent are `JSON.stringify(body)`. -/
structure Request where
  endpoint : String
  method : String
  authorization : Option String
  body : JSObject
  deriving Repr, Inhabited

/-- How the promise of `makeHttpRequest` settles: resolved with the status
code and the parsed (or raw) body, or rejected with an error message. -/
inductive ProbeOutcome where
  | completed (statusCode : Option Int) (response : JSONValue)
  | transportError (message : String)
  deriving Repr, Inhabited

/-- The world outside the engine. -/
structure World where
  /-- The message of the error `new URL(endpoint)` throws, if it throws. -/
  urlError : String → Option String
  /-- The value of `method.toUpperCase()` for a string `method`. -/
  toUpperCase : String → String
  /-- The message of the error `client.request(options, ...)` throws before
  anything is written, if it throws, for a URL, a method and an `Authorization`
  header: the method is not an HTTP token, or the value of the header holds a
  character that is not allowed.  The body enters the options only through
  the number `Content-Length`. -/
  requestError : String → String → Option String → Option String
  /-- What happens to the n-th request sent (counting from 0). -/
  respond : Nat → Request → ProbeOutcome
  /-- The call `JSON.parse(requestBody)` on a body given as text: the object
  the text denotes, or the message of the `SyntaxError` thrown. -/
  jsonParse : String → Except String JSObject
  /-- The value of `new Date().toISOString()` at the end of the run. -/
  timestamp : String

/-- One record of `results` in `testFieldValidation`. -/
structure TestResult where
  testCase : String
  value : Option JSONValue
  requestBody : JSObject
  statusCode : Option Int
  response : JSONValue
  error : Option String
  handled : Bool
  deriving Repr, Inhabited

/-- The record stored in `fieldResults[fieldName]` when the field was tested
(lines 347-355). -/
structure FieldReport where
  originalValue : Option JSONValue
  originalType : String
  testResults : List TestResult
  handledCount : Nat
  totalTests : Nat
  properlyValidated : Bool
  validationScore : String
  deriving Repr, Inhabited

/-- An entry of `fieldResults`: the full record, or the record of the `catch`
branch (lines 375-378), whose `properlyValidated` is `false`. -/
inductive FieldResult where
  | full (report : FieldReport)
  | failed (error : String)
  deriving Repr, Inhabited

/-- The field `properlyValidated` of an entry of `fieldResults`. -/
def FieldResult.properlyValidated : FieldResult → Bool
  | .full report => report.properlyValidated
  | .failed _ => false

/-- The object `summary.baseline`. -/
structure Baseline where
  statusCode : Option Int
  response : JSONValue
  error : Option String
  deriving Repr, Inhabited

/-- The object `summary`; `baseline` is `none` until the baseline probe has
settled. -/
structure Summary where
  totalFields : Nat
  properlyValidated : Nat
  notValidated : Nat
  errors : List String
  baseline : Option Baseline
  deriving Repr, Inhabited

/-- The objects handed to the progress callback, and those the hosting layer
writes to its stream after the run. -/
inductive Event where
  | start (endpoint : String) (totalFields : Nat)
  | testResult (fieldName : String) (testName : String) (testValue : Option JSONValue)
      (statusCode : Option Int) (handled : Bool) (requestBody : JSObject) (response : JSONValue)
  | fieldComplete (fieldName : String) (handledCount : Nat) (totalTests : Nat)
      (isProperlyValidated : Bool) (fieldResult : FieldResult)
  | summary (summary : Summary) (fieldResults : List (String × FieldResult))
  | finalSummary (summary : Summary) (fieldResults : List (String × FieldResult))
  | complete
  | error (message : String)
  deriving Repr, Inhabited

/-- A progress callback: handed its n-th event (counting from 0) it returns
normally (`none`) or throws an error with a message. -/
abbrev Sink := Nat → Event → Option String

/-- What a run has done to the world so far: the requests sent and the events
handed to the progress callback, oldest first. -/
structure RunState where
  sent : List Request
  events : List Event
  deriving Repr, Inhabited

/-- The state before anything has happened. -/
def RunState.initial : RunState := ⟨[], []⟩

/-- One call `progressCallback(event)`: the event is recorded, and the message
of the error the callback throws, if any, is returned. -/
def callSink (sink : Sink) (event : Event) (st : RunState) : Option String × RunState :=
  (sink st.events.length event, { st with events := st.events ++ [event] })

/-- The statement `if (progressCallback) { progressCallback(event) }`. -/
def emit (progressCallback : Option Sink) (event : Event) (st : RunState) :
    Option String × RunState :=
  match progressCallback with
  | none => (none, st)
  | some sink => callSink sink event st

/-- Lines 166-168: the `Authorization` header, set when `authToken` is truthy. -/
def authorizationHeader (authToken : Option String) : Option String :=
  match authToken with
  | some token => if token = "" then none else some ("Bearer " ++ token)
  | none => none

/-- The method on the request line for the option `method.toUpperCase()` (line
158): `client.request` sends `GET` when the option is the empty string. -/
def requestMethod (w : World) (m : String) : String :=
  if w.toUpperCase m = "" then "GET" else w.toUpperCase m

/-- The function `makeHttpRequest`: everything that throws in the `try` block
(lines 147-213) before the request is written, `new URL(endpoint)`,
`method.toUpperCase()` or `client.request(options, ...)`, rejects with
`Invalid endpoint URL: ...` (line 215); otherwise the request is sent and the
network decides. -/
def makeHttpRequest (w : World) (endpoint : String) (body : JSObject)
    (authToken : Option String) (method : Method) (st : RunState) : ProbeOutcome × RunState :=
  match w.urlError endpoint with
  | some message => (.transportError ("Invalid endpoint URL: " ++ message), st)
  | none =>
    match method with
    | .other typeError => (.transportError ("Invalid endpoint URL: " ++ typeError), st)
    | .str m =>
      match w.requestError endpoint (requestMethod w m) (authorizationHeader authToken) with
      | some message => (.transportError ("Invalid endpoint URL: " ++ message), st)
      | none =>
        let request : Request :=
          ⟨endpoint, requestMethod w m, authorizationHeader authToken, body⟩
        (w.respond st.sent.length request, { st with sent := st.sent ++ [request] })

/-- Whether `makeHttpRequest` gets as far as writing a request: `new URL`,
`method.toUpperCase()` and `client.request` all return. -/
def canSend (w : World) (endpoint : String) (authToken : Option String) (method : Method) :
    Bool :=
  match method with
  | .str m =>
    (w.urlError endpoint).isNone &&
      (w.requestError endpoint (requestMethod w m) (authorizationHeader authToken)).isNone
  | .other _ => false

/-- The requests that reach the network when `makeHttpRequest` is called with
each of `bodies` in turn: one for each body, or none at all when the call
throws before writing. -/
def requestsSent (w : World) (endpoint : String) (authToken : Option String) (method : Method)
    (bodies : List JSObject) : List Request :=
  match method with
  | .str m =>
    if canSend w endpoint authToken (.str m) then
      bodies.map (fun body =>
        ⟨endpoint, requestMethod w m, authorizationHeader authToken, body⟩)
    else []
  | .other _ => []

/-! ## `testFieldValidation` -/

/-- Line 77: `isValidationError(statusCode, responseBody)`.  The function has
one parameter, `response`, which receives the status code. -/
def eventHandled (statusCode : Option Int) : Bool :=
  match statusCode with
  | none => false
  | some s => isValidationError (.num (toString s))

/-- The record pushed by the `catch` branch (lines 126-134). -/
def errorResult (testCase : TestCase) (requestBody : JSObject) (errorMessage : String) :
    TestResult :=
  { testCase := testCase.name, value := testCase.value, requestBody := requestBody,
    statusCode := none, response := .null, error := some errorMessage, handled := false }

/-- The record pushed at the end of the `try` block (lines 110-118). -/
def completedResult (testCase : TestCase) (requestBody : JSObject) (statusCode : Option Int)
    (responseBody : JSONValue) : TestResult :=
  { testCase := testCase.name, value := testCase.value, requestBody := requestBody,
    statusCode := statusCode, response := responseBody, error := none,
    handled := handled statusCode responseBody }

/-- One turn of the loop of `testFieldValidation` (lines 45-136): build the
request body, probe, report to the callback, classify, and record.  An error
thrown anywhere in the `try` block, by the probe or by the callback, ends in
the `catch` branch. -/
def runTestCase (w : World) (endpoint : String) (baseBody : JSObject) (fieldName : String)
    (authToken : Option String) (method : Method) (progressCallback : Option Sink)
    (testCase : TestCase) (st : RunState) : TestResult × RunState :=
  let body := testBody baseBody fieldName testCase.value
  match makeHttpRequest w endpoint body authToken method st with
  | (.transportError message, st1) => (errorResult testCase body message, st1)
  | (.completed statusCode responseBody, st1) =>
    match emit progressCallback (.testResult fieldName testCase.name testCase.value statusCode
        (eventHandled statusCode) body responseBody) st1 with
    | (some message, st2) => (errorResult testCase body message, st2)
    | (none, st2) => (completedResult testCase body statusCode responseBody, st2)

/-- The loop `for (const testCase of testCases)`. -/
def runTestCases (w : World) (endpoint : String) (baseBody : JSObject) (fieldName : String)
    (authToken : Option String) (method : Method) (progressCallback : Option Sink) :
    List TestCase → RunState → List TestResult × RunState
  | [], st => ([], st)
  | testCase :: rest, st =>
    let (result, st1) :=
      runTestCase w endpoint baseBody fieldName authToken method progressCallback testCase st
    let (results, st2) :=
      runTestCases w endpoint baseBody fieldName authToken method progressCallback rest st1
    (result :: results, st2)

/-- The function `testFieldValidation`. -/
def testFieldValidation (w : World) (endpoint : String) (baseBody : JSObject)
    (fieldName : String) (originalValue : Option JSONValue) (authToken : Option String)
    (method : Method) (progressCallback : Option Sink) (st : RunState) :
    List TestResult × RunState :=
  runTestCases w endpoint baseBody fieldName authToken method progressCallback
    (testCases originalValue) st

/-! ## `testEndpointValidation` -/

/-- The argument `requestBody`: JSON text, or an object already parsed. -/
inductive RequestBody where
  | text (s : String)
  | object (o : JSObject)
  deriving Repr, Inhabited

/-- The value `testEndpointValidation` resolves with. -/
structure RunResult where
  endpoint : String
  summary : Summary
  fieldResults : List (String × FieldResult)
  timestamp : String
  deriving Repr, Inhabited

/-- The test `handledCount / totalTests > 0.7` (line 345).  Both operands are
small whole numbers, so the quotient is compared exactly; `0 / 0` is `NaN`,
which is not greater than anything. -/
def isProperlyValidated (handledCount totalTests : Nat) : Bool :=
  decide (10 * handledCount > 7 * totalTests)

/-- The text `(handledCount / totalTests * 100).toFixed(1) + '%'` (line 354):
the percentage rounded to one decimal, halves upwards. -/
def validationScore (handledCount totalTests : Nat) : String :=
  if totalTests = 0 then "NaN%"
  else
    let tenths := (2000 * handledCount + totalTests) / (2 * totalTests)
    toString (tenths / 10) ++ "." ++ toString (tenths % 10) ++ "%"

/-- The record of lines 347-355 for the results of one field. -/
def fieldReport (originalValue : Option JSONValue) (results : List TestResult) : FieldReport :=
  let handledCount := (results.filter (fun r => r.handled)).length
  let totalTests := results.length
  { originalValue := originalValue, originalType := typeofJS originalValue,
    testResults := results, handledCount := handledCount, totalTests := totalTests,
    properlyValidated := isProperlyValidated handledCount totalTests,
    validationScore := validationScore handledCount totalTests }

/-- The two accumulators of the run, `fieldResults` and `summary`. -/
structure Accumulator where
  fieldResults : List (String × FieldResult)
  summary : Summary
  deriving Repr, Inhabited

/-- One turn of the loop over `fields` (lines 325-381).  The counters of the
summary are updated before the `field-complete` event is handed to the
callback; an error thrown by the callback ends in the `catch` branch, which
overwrites the entry of the field and records the message. -/
def runField (w : World) (endpoint : String) (body : JSObject) (authToken : Option String)
    (method : Method) (progressCallback : Option Sink) (fieldName : String)
    (acc : Accumulator) (st : RunState) : Accumulator × RunState :=
  let (results, st1) := testFieldValidation w endpoint body fieldName (getProp body fieldName)
    authToken method progressCallback st
  let report := fieldReport (getProp body fieldName) results
  let fieldResults1 := setProp acc.fieldResults fieldName (.full report)
  let summary1 : Summary :=
    if report.properlyValidated then
      { acc.summary with properlyValidated := acc.summary.properlyValidated + 1 }
    else { acc.summary with notValidated := acc.summary.notValidated + 1 }
  match emit progressCallback (.fieldComplete fieldName report.handledCount report.totalTests
      report.properlyValidated (.full report)) st1 with
  | (none, st2) => (⟨fieldResults1, summary1⟩, st2)
  | (some message, st2) =>
    (⟨setProp fieldResults1 fieldName (.failed message),
      { summary1 with
        errors := summary1.errors ++ ["Field " ++ fieldName ++ " test failed: " ++ message] }⟩,
     st2)

/-- The loop `for (const fieldName of fields)`. -/
def runFields (w : World) (endpoint : String) (body : JSObject) (authToken : Option String)
    (method : Method) (progressCallback : Option Sink) :
    List String → Accumulator → RunState → Accumulator × RunState
  | [], acc, st => (acc, st)
  | fieldName :: rest, acc, st =>
    let (acc1, st1) := runField w endpoint body authToken method progressCallback fieldName acc st
    runFields w endpoint body authToken method progressCallback rest acc1 st1

/-- The baseline probe (lines 296-321): its outcome is stored in
`summary.baseline`; a failure is also recorded in `summary.errors`. -/
def runBaseline (w : World) (endpoint : String) (body : JSObject) (authToken : Option String)
    (method : Method) (summary : Summary) (st : RunState) : Summary × RunState :=
  match makeHttpRequest w endpoint body authToken method st with
  | (.completed statusCode responseBody, st1) =>
    ({ summary with baseline := some ⟨statusCode, responseBody, none⟩ }, st1)
  | (.transportError message, st1) =>
    ({ summary with
        baseline := some ⟨none, .null, some message⟩,
        errors := summary.errors ++ ["Baseline test failed: " ++ message] }, st1)

/-- The part of `testEndpointValidation` after the body is parsed.  An error
thrown by the callback on the `start` or the `summary` event is caught by
nothing: the run fails with its message. -/
def runParsed (w : World) (endpoint : String) (body : JSObject) (authToken : Option String)
    (method : Method) (progressCallback : Option Sink) (st : RunState) :
    Except String RunResult × RunState :=
  let fields := keys body
  let summary0 : Summary :=
    { totalFields := fields.length, properlyValidated := 0, notValidated := 0, errors := [],
      baseline := none }
  match emit progressCallback (.start endpoint fields.length) st with
  | (some message, st1) => (.error message, st1)
  | (none, st1) =>
    let (summary1, st2) := runBaseline w endpoint body authToken method summary0 st1
    let (acc, st3) :=
      runFields w endpoint body authToken method progressCallback fields ⟨[], summary1⟩ st2
    match emit progressCallback (.summary acc.summary acc.fieldResults) st3 with
    | (some message, st4) => (.error message, st4)
    | (none, st4) =>
      (.ok { endpoint := endpoint, summary := acc.summary, fieldResults := acc.fieldResults,
             timestamp := w.timestamp }, st4)

/-- Line 272: a body given as text is parsed, an object is taken as it is. -/
def parseRequestBody (w : World) : RequestBody → Except String JSObject
  | .text s => w.jsonParse s
  | .object body => .ok body

/-- The function `testEndpointValidation`: what the returned promise settles
with, and what the run has done to the world. -/
def testEndpointValidation (w : World) (endpoint : String) (requestBody : RequestBody)
    (authToken : Option String) (method : Method) (progressCallback : Option Sink)
    (st : RunState) : Except String RunResult × RunState :=
  match parseRequestBody w requestBody with
  | .error message => (.error message, st)
  | .ok body => runParsed w endpoint body authToken method progressCallback st

/-! ## The standalone host (`src/server/index.js`) -/

/-- The callback `sendProgress` of the host: it writes the event to the
response stream with `res.write` and returns. -/
def sendProgress : Sink := fun _ _ => none

/-- What the handler of `POST /api/test-validation` answers. -/
inductive HandlerResponse where
  | badRequest
  | stream (events : List Event)
  | json (results : RunResult)
  | serverError (message : String)
  deriving Repr, Inhabited

/-- The streaming branch of the handler (lines 25-61): the events written to
the response, in order.  After a run that resolves the host writes
`final-summary` and `complete`; after a run that fails it writes `error`. -/
def streamTestValidation (w : World) (endpoint : String) (requestBody : RequestBody)
    (authToken : Option String) (method : Method) : List Event :=
  match testEndpointValidation w endpoint requestBody authToken method (some sendProgress)
      RunState.initial with
  | (.ok finalResults, st) =>
    st.events ++ [.finalSummary finalResults.summary finalResults.fieldResults, .complete]
  | (.error message, st) => st.events ++ [.error message]

/-- The test `!requestBody` of line 18: among the bodies of the embedding only
the empty string is falsy. -/
def requestBodyMissing : RequestBody → Bool
  | .text s => s == ""
  | .object _ => false

/-- The handler of `POST /api/test-validation` (lines 14-83). -/
def handleTestValidation (w : World) (endpoint : String) (requestBody : RequestBody)
    (authToken : Option String) (method : Method) (stream : Bool) : HandlerResponse :=
  if endpoint = "" ∨ requestBodyMissing requestBody = true then .badRequest
  else if stream then .stream (streamTestValidation w endpoint requestBody authToken method)
  else
    match (testEndpointValidation w endpoint requestBody authToken method none
        RunState.initial).1 with
    | .ok results => .json results
    | .error message => .serverError message

/-! ## The Electron host (`src/electron/main.js`) -/

/-- The streaming branch of the handler in `electron/main.js` (lines 42-76).
The call of line 57 has four arguments, `testEndpointValidation(endpoint,
requestBody, authToken, sendProgress)`: the callback arrives in the parameter
`method`, whose `toUpperCase` is not a function, and `progressCallback` keeps
its default `null`.  After the run the host writes `final-summary` and
`complete`, or `error`, as the standalone host does. -/
def electronStreamTestValidation (w : World) (endpoint : String) (requestBody : RequestBody)
    (authToken : Option String) : List Event :=
  match testEndpointValidation w endpoint requestBody authToken
      (.other "method.toUpperCase is not a function") none RunState.initial with
  | (.ok finalResults, st) =>
    st.events ++ [.finalSummary finalResults.summary finalResults.fieldResults, .complete]
  | (.error message, st) => st.events ++ [.error message]

/-- The handler of `POST /api/test-validation` in `electron/main.js` (lines
31-90).  The request names no method; without streaming the engine is called
with three arguments (line 83), so `method` is its default `'POST'`. -/
def electronHandleTestValidation (w : World) (endpoint : String) (requestBody : RequestBody)
    (authToken : Option String) (stream : Bool) : HandlerResponse :=
  if endpoint = "" ∨ requestBodyMissing requestBody = true then .badRequest
  else if stream then .stream (electronStreamTestValidation w endpoint requestBody authToken)
  else
    match (testEndpointValidation w endpoint requestBody authToken (.str "POST") none
        RunState.initial).1 with
    | .ok results => .json results
    | .error message => .serverError message

/-! ## The consumer of the stream (`src/client/src/App.js`) -/

/-- A row of `field.testResults` as the client keeps it (lines 192-199); the
fields compared or counted later. -/
structure ClientRow where
  testCase : String
  statusCode : Option Int
  handled : Bool
  deriving Repr, Inhabited

/-- Lines 187-204 of `App.js`: a `test-result` event adds a row to its field
unless a row with the same `testCase` and `statusCode` is there already. -/
def clientAddTestResult (rows : List ClientRow) (testName : String) (statusCode : Option Int)
    (handled : Bool) : List ClientRow :=
  if rows.any (fun t => t.testCase == testName && t.statusCode == statusCode) then rows
  else rows ++ [⟨testName, statusCode, handled⟩]

/-- Lines 263-281 and 299-313 of `App.js`: a `summary` or `final-summary` event
keeps the rows of a field that has streamed rows; a field without any takes
the test results of the record of the server, if the event has one. -/
def clientMergeFieldResults (fieldName : String) (rows : List ClientRow)
    (fieldResults : List (String × FieldResult)) : List ClientRow :=
  match getProp fieldResults fieldName with
  | none => rows
  | some (.full report) =>
    if rows.isEmpty then report.testResults.map (fun r => ⟨r.testCase, r.statusCode, r.handled⟩)
    else rows
  | some (.failed _) => if rows.isEmpty then [] else rows

/-- The rows the client holds for one field after the events of a stream. -/
def clientTestResults (fieldName : String) (events : List Event) : List ClientRow :=
  events.foldl
    (fun rows event =>
      match event with
      | .testResult name testName _ statusCode handled _ _ =>
        if name = fieldName then clientAddTestResult rows testName statusCode handled else rows
      | .summary _ fieldResults => clientMergeFieldResults fieldName rows fieldResults
      | .finalSummary _ fieldResults => clientMergeFieldResults fieldName rows fieldResults
      | _ => rows)
    []

/-! ## Sample worlds -/

/-- A target that answers every request with the same status code and body. -/
def worldAlways (statusCode : Int) (response : JSONValue) : World :=
  { urlError := fun _ => none,
    toUpperCase := fun m => String.mk (m.data.map Char.toUpper),
    requestError := fun _ _ _ => none,
    respond := fun _ _ => .completed (some statusCode) response,
    jsonParse := fun _ => .error "Unexpected end of JSON input",
    timestamp := "2024-01-01T00:00:00.000Z" }

/-- A target that cannot be reached. -/
def worldUnreachable : World :=
  { urlError := fun _ => none,
    toUpperCase := fun m => String.mk (m.data.map Char.toUpper),
    requestError := fun _ _ _ => none,
    respond := fun _ _ => .transportError "Connection refused - endpoint is not reachable",
    jsonParse := fun _ => .error "Unexpected end of JSON input",
    timestamp := "2024-01-01T00:00:00.000Z" }

/-- The body of the end-to-end scenarios. -/
def ageBody : JSObject := [("age", .num "30")]

/-- A target that answers every request with 400, behind a `client.request`
that refuses a method holding a blank, as it refuses every method that is not
an HTTP token. -/
def worldRefusingBlankInMethod : World :=
  { urlError := fun _ => none,
    toUpperCase := fun m => String.mk (m.data.map Char.toUpper),
    requestError := fun _ method _ =>
      if method.data.contains ' ' then
        some ("Method must be a valid HTTP token [" ++ String.singleton (Char.ofNat 34) ++
          method ++ String.singleton (Char.ofNat 34) ++ "]")
      else none,
    respond := fun _ _ => .completed (some 400) (.obj [("error", .str "invalid age")]),
    jsonParse := fun _ => .error "Unexpected end of JSON input",
    timestamp := "2024-01-01T00:00:00.000Z" }

/-- A body with two fields. -/
def profileBody : JSObject := [("age", .num "30"), ("active", .bool true)]

/-- A callback that throws on every `test-result` event. -/
def sinkFailingOnTestResult : Sink := fun _ event =>
  match event with
  | .testResult .. => some "sink failed"
  | _ => none

/-- A callback that throws on every `field-complete` event. -/
def sinkFailingOnFieldComplete : Sink := fun _ event =>
  match event with
  | .fieldComplete .. => some "sink failed"
  | _ => none

/-- Whether an event is a `test-result` event of the given field. -/
def isTestResultOf (fieldName : String) : Event → Bool
  | .testResult name _ _ _ _ _ _ => name == fieldName
  | _ => false

/-- The name and the value of the test case a `test-result` event reports. -/
def testCaseOfEvent : Event → Option (String × Option JSONValue)
  | .testResult _ testName testValue _ _ _ _ => some (testName, testValue)
  | _ => none

/-- A body with one boolean field. -/
def activeBody : JSObject := [("active", .bool true)]

/-- The body `JSON.parse` makes of a text whose only member is named
`__proto__`, with the value 30: the name is an own property of the object. -/
def protoBody : JSObject := [("__proto__", .num "30")]

/-! ## Facts about the helpers -/

theorem startsWith_iff (s kw : List Char) : startsWith s kw = true ↔ kw <+: s := by
  induction s generalizing kw with
  | nil => cases kw <;> simp [startsWith]
  | cons c s ih =>
    cases kw with
    | nil => simp [startsWith]
    | cons k kw =>
      simp only [startsWith, Bool.and_eq_true, beq_iff_eq, ih, List.cons_prefix_cons]
      constructor <;> rintro ⟨h1, h2⟩ <;> exact ⟨h1.symm, h2⟩

/-- The function `includes` decides the relation "is a contiguous sublist of". -/
theorem includes_iff (s kw : List Char) : includes s kw = true ↔ kw <:+: s := by
  induction s with
  | nil => simp [includes, startsWith_iff]
  | cons c s ih => simp [includes, startsWith_iff, ih, List.infix_cons_iff]

theorem any_includes_iff (keywords : List String) (text : List Char) :
    keywords.any (fun keyword => includes text keyword.data) = true ↔
      ∃ keyword ∈ keywords, keyword.data <:+: text := by
  simp [List.any_eq_true, includes_iff]

mutual
theorem jsonCopy_eq : ∀ v : JSONValue, jsonCopy v = v
  | .null => rfl
  | .bool _ => rfl
  | .num _ => rfl
  | .str _ => rfl
  | .arr items => by rw [jsonCopy, jsonCopyItems_eq items]
  | .obj members => by rw [jsonCopy, jsonCopyMembers_eq members]
theorem jsonCopyItems_eq : ∀ l : List JSONValue, jsonCopyItems l = l
  | [] => rfl
  | v :: rest => by rw [jsonCopyItems, jsonCopy_eq v, jsonCopyItems_eq rest]
theorem jsonCopyMembers_eq : ∀ l : List (String × JSONValue), jsonCopyMembers l = l
  | [] => rfl
  | (k, v) :: rest => by rw [jsonCopyMembers, jsonCopy_eq v, jsonCopyMembers_eq rest]
end

/-- A falsy body is no validation error, and its text holds no keyword. -/
theorem responseStr_of_falsy (response : JSONValue) (h : truthy response = false) :
    ∀ keyword ∈ validationKeywords, ¬ keyword.data <:+: responseStr response := by
  have key : validationKeywords.any
      (fun keyword => includes (responseStr response) keyword.data) = false := by
    cases response with
    | null => decide
    | bool b => cases b <;> decide
    | num t =>
      have ht : t = "0" := by simpa [truthy] using h
      subst ht; decide
    | str t =>
      have ht : t = "" := by simpa [truthy] using h
      subst ht; decide
    | arr _ => simp [truthy] at h
    | obj _ => simp [truthy] at h
  intro keyword hk hin
  have := (any_includes_iff validationKeywords (responseStr response)).2 ⟨keyword, hk, hin⟩
  rw [key] at this
  exact Bool.false_ne_true this

/-! ## Every record carries the classification of its own status and body -/

theorem runTestCase_handled (w : World) (endpoint : String) (baseBody : JSObject)
    (fieldName : String) (authToken : Option String) (method : Method)
    (progressCallback : Option Sink) (testCase : TestCase) (st : RunState) :
    let r := (runTestCase w endpoint baseBody fieldName authToken method progressCallback
      testCase st).1
    r.handled = handled r.statusCode r.response := by
  simp only [runTestCase]
  split
  · simp [errorResult, handled]
  · split <;> simp [completedResult, errorResult, handled]

/-- A probe that fails is recorded by the `catch` branch. -/
theorem runTestCase_of_transportError (w : World) (endpoint : String) (baseBody : JSObject)
    (fieldName : String) (authToken : Option String) (method : Method)
    (progressCallback : Option Sink) (testCase : TestCase) (st st1 : RunState)
    (message : String)
    (hprobe : makeHttpRequest w endpoint (testBody baseBody fieldName testCase.value)
      authToken method st = (.transportError message, st1)) :
    runTestCase w endpoint baseBody fieldName authToken method progressCallback testCase st =
      (errorResult testCase (testBody baseBody fieldName testCase.value) message, st1) := by
  simp only [runTestCase, hprobe]

/-- A probe that completes is recorded with its status code and body when no
callback is given or the callback returns normally; when the callback throws,
the `catch` branch records the message of the callback. -/
theorem runTestCase_of_completed (w : World) (endpoint : String) (baseBody : JSObject)
    (fieldName : String) (authToken : Option String) (method : Method)
    (progressCallback : Option Sink) (testCase : TestCase) (st st1 : RunState)
    (statusCode : Option Int) (responseBody : JSONValue)
    (hprobe : makeHttpRequest w endpoint (testBody baseBody fieldName testCase.value)
      authToken method st = (.completed statusCode responseBody, st1)) :
    (runTestCase w endpoint baseBody fieldName authToken method progressCallback testCase
      st).1 =
      match (emit progressCallback (.testResult fieldName testCase.name testCase.value
          statusCode (eventHandled statusCode) (testBody baseBody fieldName testCase.value)
          responseBody) st1).1 with
      | none => completedResult testCase (testBody baseBody fieldName testCase.value)
          statusCode responseBody
      | some message => errorResult testCase (testBody baseBody fieldName testCase.value)
          message := by
  simp only [runTestCase, hprobe]
  split <;> next hcall => simp [hcall]

theorem runTestCases_handled (w : World) (endpoint : String) (baseBody : JSObject)
    (fieldName : String) (authToken : Option String) (method : Method)
    (progressCallback : Option Sink) (cases : List TestCase) (st : RunState) :
    ∀ r ∈ (runTestCases w endpoint baseBody fieldName authToken method progressCallback
      cases st).1, r.handled = handled r.statusCode r.response := by
  induction cases generalizing st with
  | nil => simp [runTestCases]
  | cons testCase rest ih =>
    intro r hr
    simp only [runTestCases, List.mem_cons] at hr
    rcases hr with rfl | hr
    · exact runTestCase_handled w endpoint baseBody fieldName authToken method
        progressCallback testCase st
    · exact ih _ r hr

theorem testFieldValidation_handled (w : World) (endpoint : String) (baseBody : JSObject)
    (fieldName : String) (originalValue : Option JSONValue) (authToken : Option String)
    (method : Method) (progressCallback : Option Sink) (st : RunState) :
    ∀ r ∈ (testFieldValidation w endpoint baseBody fieldName originalValue authToken method
      progressCallback st).1, r.handled = handled r.statusCode r.response :=
  runTestCases_handled w endpoint baseBody fieldName authToken method progressCallback _ st

/-! ## The decision table on the records (C2, C3, C5) -/

/-- The first row of the decision table on the records: in the results of
`testFieldValidation`, for any target, callback and body, a record whose
status code `s` satisfies `400 ≤ s < 500` has `handled = true`, whatever its
response body is. -/
theorem client_error_status_is_handled (w : World) (endpoint : String) (baseBody : JSObject)
    (fieldName : String) (originalValue : Option JSONValue) (authToken : Option String)
    (method : Method) (progressCallback : Option Sink) (st : RunState)
    (r : TestResult) (s : Int)
    (hr : r ∈ (testFieldValidation w endpoint baseBody fieldName originalValue authToken method
      progressCallback st).1)
    (hs : r.statusCode = some s) (hlo : 400 ≤ s) (hhi : s < 500) :
    r.handled = true := by
  rw [testFieldValidation_handled w endpoint baseBody fieldName originalValue authToken method
    progressCallback st r hr, hs]
  simp [handled, hlo, hhi]

/-- C2: a record whose status code is 500 or more has `handled = false`,
whatever its response body is. -/
theorem server_error_status_is_not_handled (w : World) (endpoint : String)
    (baseBody : JSObject) (fieldName : String) (originalValue : Option JSONValue)
    (authToken : Option String) (method : Method) (progressCallback : Option Sink)
    (st : RunState) (r : TestResult) (s : Int)
    (hr : r ∈ (testFieldValidation w endpoint baseBody fieldName originalValue authToken method
      progressCallback st).1)
    (hs : r.statusCode = some s) (hlo : 500 ≤ s) :
    r.handled = false := by
  rw [testFieldValidation_handled w endpoint baseBody fieldName originalValue authToken method
    progressCallback st r hr, hs]
  have h1 : ¬ s < 500 := by omega
  have h2 : ¬ s < 300 := by omega
  simp [handled, h1, h2]

/-- C3: a record with a 2xx status code whose body, serialised and lowered,
contains one of the six server-fault phrases has `handled = false`, whatever
else the text contains. -/
theorem fault_phrase_in_success_is_not_handled (w : World) (endpoint : String)
    (baseBody : JSObject) (fieldName : String) (originalValue : Option JSONValue)
    (authToken : Option String) (method : Method) (progressCallback : Option Sink)
    (st : RunState) (r : TestResult) (s : Int)
    (hr : r ∈ (testFieldValidation w endpoint baseBody fieldName originalValue authToken method
      progressCallback st).1)
    (hs : r.statusCode = some s) (hlo : 200 ≤ s) (hhi : s < 300)
    (hfault : ∃ phrase ∈ ["internal server error", "server error", "database error",
      "connection error", "timeout", "service unavailable"],
      String.data phrase <:+: responseStr r.response) :
    r.handled = false := by
  rw [testFieldValidation_handled w endpoint baseBody fieldName originalValue authToken method
    progressCallback st r hr, hs]
  have h1 : ¬ 400 ≤ s := by omega
  have hany := (any_includes_iff serverErrorKeywords (responseStr r.response)).2 hfault
  simp [handled, h1, hlo, hhi, isValidationError, hany]

/-- The keyword rule on the records: a record with a 2xx status code whose
body, serialised and lowered, contains none of the six server-fault phrases has
`handled = true` exactly when that text contains one of the twelve validation
phrases. -/
theorem validation_phrase_in_success_iff_handled (w : World) (endpoint : String)
    (baseBody : JSObject) (fieldName : String) (originalValue : Option JSONValue)
    (authToken : Option String) (method : Method) (progressCallback : Option Sink)
    (st : RunState) (r : TestResult) (s : Int)
    (hr : r ∈ (testFieldValidation w endpoint baseBody fieldName originalValue authToken method
      progressCallback st).1)
    (hs : r.statusCode = some s) (hlo : 200 ≤ s) (hhi : s < 300)
    (hnofault : ∀ phrase ∈ ["internal server error", "server error", "database error",
      "connection error", "timeout", "service unavailable"],
      ¬ String.data phrase <:+: responseStr r.response) :
    r.handled = true ↔
      ∃ phrase ∈ ["validation", "invalid", "required", "bad request", "unprocessable",
        "constraint", "format", "pattern", "type error", "must be", "should be", "expected"],
        String.data phrase <:+: responseStr r.response := by
  rw [testFieldValidation_handled w endpoint baseBody fieldName originalValue authToken method
    progressCallback st r hr, hs]
  have h1 : ¬ 400 ≤ s := by omega
  have hany : serverErrorKeywords.any
      (fun keyword => includes (responseStr r.response) keyword.data) = false := by
    rw [Bool.eq_false_iff]
    intro h
    obtain ⟨phrase, hp, hin⟩ := (any_includes_iff _ _).1 h
    exact hnofault phrase hp hin
  by_cases ht : truthy r.response = true
  · simp only [handled, h1, hlo, hhi, isValidationError, ht, hany, false_and, and_self,
      ite_true, ite_false, Bool.not_true, Bool.false_eq_true, ge_iff_le]
    exact any_includes_iff validationKeywords (responseStr r.response)
  · have hf : truthy r.response = false := by simpa using ht
    have hnone := responseStr_of_falsy r.response hf
    simp only [handled, h1, hlo, hhi, isValidationError, hf, false_and, and_self,
      ite_true, ite_false, Bool.not_false, Bool.false_eq_true, ge_iff_le, false_iff]
    rintro ⟨phrase, hp, hin⟩
    exact hnone phrase hp hin

/-- C5: a record whose status code is absent, below 200, or from 300 to 399
has `handled = false`, whatever its response body is. -/
theorem other_status_is_not_handled (w : World) (endpoint : String)
    (baseBody : JSObject) (fieldName : String) (originalValue : Option JSONValue)
    (authToken : Option String) (method : Method) (progressCallback : Option Sink)
    (st : RunState) (r : TestResult)
    (hr : r ∈ (testFieldValidation w endpoint baseBody fieldName originalValue authToken method
      progressCallback st).1)
    (hs : r.statusCode = none ∨ ∃ s, r.statusCode = some s ∧ (s < 200 ∨ (300 ≤ s ∧ s < 400))) :
    r.handled = false := by
  rw [testFieldValidation_handled w endpoint baseBody fieldName originalValue authToken method
    progressCallback st r hr]
  rcases hs with hs | ⟨s, hs, hrange⟩
  · simp [handled, hs]
  · have h1 : ¬ (400 ≤ s ∧ s < 500) := by omega
    have h2 : ¬ (200 ≤ s ∧ s < 300) := by omega
    have h3 : ¬ 500 ≤ s := by omega
    simp [handled, hs, h1, h2, h3]

/-! ### The decision table at sample responses -/

/-- A 404 whose body is a server-fault phrase is handled. -/
theorem client_error_status_is_handled_witness :
    completedResult ⟨"null", some .null⟩ [("age", .null)] (some 404) (.str "internal server error")
      ∈ (testFieldValidation (worldAlways 404 (.str "internal server error")) "http://localhost/api"
          ageBody "age" (some (.num "30")) none (.str "POST") none RunState.initial).1
    ∧ (completedResult ⟨"null", some .null⟩ [("age", .null)] (some 404)
        (.str "internal server error")).handled = true :=
  ⟨List.mem_cons_self _ _,
   client_error_status_is_handled (worldAlways 404 (.str "internal server error"))
    "http://localhost/api" ageBody "age" (some (.num "30")) none (.str "POST") none
    RunState.initial _ 404 (List.mem_cons_self _ _) rfl (by decide) (by decide)⟩

/-- A 500 whose body says `invalid` is not handled. -/
theorem server_error_status_is_not_handled_witness :
    completedResult ⟨"null", some .null⟩ [("age", .null)] (some 500) (.str "invalid")
      ∈ (testFieldValidation (worldAlways 500 (.str "invalid")) "http://localhost/api"
          ageBody "age" (some (.num "30")) none (.str "POST") none RunState.initial).1
    ∧ (completedResult ⟨"null", some .null⟩ [("age", .null)] (some 500)
        (.str "invalid")).handled = false :=
  ⟨List.mem_cons_self _ _,
   server_error_status_is_not_handled (worldAlways 500 (.str "invalid"))
    "http://localhost/api" ageBody "age" (some (.num "30")) none (.str "POST") none
    RunState.initial _ 500 (List.mem_cons_self _ _) rfl (by decide)⟩

/-- The body `Invalid timeout value` of a 200 holds a fault phrase and a validation phrase, and is not handled. -/
theorem fault_phrase_in_success_is_not_handled_witness :
    completedResult ⟨"null", some .null⟩ [("age", .null)] (some 200) (.str "Invalid timeout value")
      ∈ (testFieldValidation (worldAlways 200 (.str "Invalid timeout value"))
          "http://localhost/api" ageBody "age" (some (.num "30")) none (.str "POST") none
          RunState.initial).1
    ∧ "timeout".data <:+: responseStr (.str "Invalid timeout value")
    ∧ "invalid".data <:+: responseStr (.str "Invalid timeout value")
    ∧ (completedResult ⟨"null", some .null⟩ [("age", .null)] (some 200)
        (.str "Invalid timeout value")).handled = false :=
  ⟨List.mem_cons_self _ _, by decide, by decide,
   fault_phrase_in_success_is_not_handled (worldAlways 200 (.str "Invalid timeout value"))
    "http://localhost/api" ageBody "age" (some (.num "30")) none (.str "POST") none
    RunState.initial _ 200 (List.mem_cons_self _ _) rfl (by decide) (by decide)
    ⟨"timeout", by decide, by decide⟩⟩

/-- A 200 whose body has the key `Format`: no fault phrase, and handled exactly when a validation phrase occurs. -/
theorem validation_phrase_in_success_iff_handled_witness :
    completedResult ⟨"null", some .null⟩ [("age", .null)] (some 200)
        (.obj [("Format", .str "json")])
      ∈ (testFieldValidation (worldAlways 200 (.obj [("Format", .str "json")]))
          "http://localhost/api" ageBody "age" (some (.num "30")) none (.str "POST") none
          RunState.initial).1
    ∧ (∀ phrase ∈ ["internal server error", "server error", "database error",
        "connection error", "timeout", "service unavailable"],
        ¬ String.data phrase <:+: responseStr (.obj [("Format", .str "json")]))
    ∧ ((completedResult ⟨"null", some .null⟩ [("age", .null)] (some 200)
        (.obj [("Format", .str "json")])).handled = true ↔
      ∃ phrase ∈ ["validation", "invalid", "required", "bad request", "unprocessable",
        "constraint", "format", "pattern", "type error", "must be", "should be", "expected"],
        String.data phrase <:+: responseStr (.obj [("Format", .str "json")])) :=
  ⟨List.mem_cons_self _ _, by decide,
   validation_phrase_in_success_iff_handled (worldAlways 200 (.obj [("Format", .str "json")]))
    "http://localhost/api" ageBody "age" (some (.num "30")) none (.str "POST") none
    RunState.initial _ 200 (List.mem_cons_self _ _) rfl (by decide) (by decide) (by decide)⟩

/-- A 302 whose body says `invalid input` is not handled. -/
theorem other_status_is_not_handled_witness :
    completedResult ⟨"null", some .null⟩ [("age", .null)] (some 302) (.str "invalid input")
      ∈ (testFieldValidation (worldAlways 302 (.str "invalid input")) "http://localhost/api"
          ageBody "age" (some (.num "30")) none (.str "POST") none RunState.initial).1
    ∧ (completedResult ⟨"null", some .null⟩ [("age", .null)] (some 302)
        (.str "invalid input")).handled = false :=
  ⟨List.mem_cons_self _ _,
   other_status_is_not_handled (worldAlways 302 (.str "invalid input"))
    "http://localhost/api" ageBody "age" (some (.num "30")) none (.str "POST") none
    RunState.initial _ (List.mem_cons_self _ _)
    (Or.inr ⟨302, rfl, Or.inr ⟨by decide, by decide⟩⟩)⟩

/-! ## The catalog (C6-C8) -/

/-- C6: whatever the original value, the first twelve test cases are, in this
order: null, the removed field, the empty string, 0, -1, 999999999, true,
false, the empty array, the empty object, the string of special characters,
and a string of 10000 characters that are all `a`. -/
theorem first_twelve_test_cases (originalValue : Option JSONValue) :
    ∃ long : String, long.length = 10000 ∧ (∀ c ∈ long.data, c = 'a') ∧
      ((testCases originalValue).take 12).map TestCase.value =
        [ some .null, none, some (.str ""), some (.num "0"), some (.num "-1"),
          some (.num "999999999"), some (.bool true), some (.bool false), some (.arr []),
          some (.obj []), some (.str "!@#$%^&*()"), some (.str long) ] := by
  refine ⟨String.mk (List.replicate 10000 'a'), ?_, ?_, rfl⟩
  · exact List.length_replicate 10000 'a'
  · intro c hc
    exact List.eq_of_mem_replicate hc

/-- C7: the first twelve test cases are the literal ones whatever the original
value, and the cases after them are `'123'`, `'true'` for a string, `'test'`,
`3.14` for a number, `'test'`, `1`, `0` for a boolean, and none for any
other original value. -/
theorem type_specific_test_cases (originalValue : Option JSONValue) :
    (testCases originalValue).take 12 = baseTestCases ∧
    ((testCases originalValue).drop 12).map TestCase.value =
      match originalValue with
      | some (.str _) => [some (.str "123"), some (.str "true")]
      | some (.num _) => [some (.str "test"), some (.num "3.14")]
      | some (.bool _) => [some (.str "test"), some (.num "1"), some (.num "0")]
      | _ => [] := by
  refine ⟨rfl, ?_⟩
  have hdrop : (testCases originalValue).drop 12 = typeSpecificTestCases originalValue := rfl
  rw [hdrop]
  rcases originalValue with _ | v
  · rfl
  · cases v <;> rfl

/-- The size of the catalog, by the type of the original value. -/
theorem testCases_length (originalValue : Option JSONValue) :
    (testCases originalValue).length = 12 +
      match originalValue with
      | some (.str _) => 2
      | some (.num _) => 2
      | some (.bool _) => 3
      | _ => 0 := by
  rcases originalValue with _ | v
  · rfl
  · cases v <;> rfl

/-! ## Facts about properties of objects -/

theorem getProp_setProp_ne {α : Type} (o : List (String × α)) (f k : String) (v : α)
    (h : k ≠ f) : getProp (setProp o f v) k = getProp o k := by
  induction o with
  | nil =>
    simp only [setProp]
    split <;> simp [getProp, Ne.symm h]
  | cons m rest ih =>
    obtain ⟨k1, v1⟩ := m
    by_cases hk : k1 = f
    · subst hk
      simp [setProp, getProp, Ne.symm h]
    · by_cases hk1 : k1 = k
      · subst hk1
        simp [setProp, getProp, hk]
      · simp [setProp, getProp, hk, hk1, ih]

theorem getProp_setProp_self {α : Type} (o : List (String × α)) (f : String) (v : α)
    (h : f ∈ keys o) : getProp (setProp o f v) f = some v := by
  induction o with
  | nil => simp [keys] at h
  | cons m rest ih =>
    obtain ⟨k1, v1⟩ := m
    by_cases hk : k1 = f
    · simp [setProp, getProp, hk]
    · have hrest : f ∈ keys rest := by
        simp only [keys, List.map_cons, List.mem_cons] at h
        rcases h with h | h
        · exact absurd h.symm hk
        · exact h
      simp [setProp, getProp, hk, ih hrest]

theorem getProp_deleteProp_ne {α : Type} (o : List (String × α)) (f k : String)
    (h : k ≠ f) : getProp (deleteProp o f) k = getProp o k := by
  induction o with
  | nil => simp [deleteProp, getProp]
  | cons m rest ih =>
    obtain ⟨k1, v1⟩ := m
    have ih1 : getProp (List.filter (fun m => m.1 != f) rest) k = getProp rest k := ih
    by_cases hk : k1 = f
    · have hb : (k1 != f) = false := by simp [hk]
      have hne : ¬ k1 = k := fun e => h (e ▸ hk)
      simp only [deleteProp, List.filter_cons, hb, getProp, hne, if_false]
      exact ih1
    · have hb : (k1 != f) = true := by simp [hk]
      simp only [deleteProp, List.filter_cons, hb, getProp, if_true, ih1]

theorem mem_keys_setProp_ne {α : Type} (o : List (String × α)) (f k : String) (v : α)
    (h : k ≠ f) : k ∈ keys (setProp o f v) ↔ k ∈ keys o := by
  induction o with
  | nil =>
    simp only [setProp]
    split <;> simp [keys, h]
  | cons m rest ih =>
    obtain ⟨k1, v1⟩ := m
    have ih1 : k ∈ List.map Prod.fst (setProp rest f v) ↔ k ∈ List.map Prod.fst rest := ih
    by_cases hk : k1 = f
    · simp [setProp, keys, hk]
    · simp only [setProp, keys, hk, if_false, List.map_cons, List.mem_cons, ih1]

/-- Assigning to an own property changes neither the keys nor their order. -/
theorem keys_setProp_of_mem {α : Type} (o : List (String × α)) (f : String) (v : α)
    (h : f ∈ keys o) : keys (setProp o f v) = keys o := by
  induction o with
  | nil => simp [keys] at h
  | cons m rest ih =>
    obtain ⟨k1, v1⟩ := m
    by_cases hk : k1 = f
    · simp [setProp, keys, hk]
    · have hrest : f ∈ keys rest := by
        simp only [keys, List.map_cons, List.mem_cons] at h
        rcases h with h | h
        · exact absurd h.symm hk
        · exact h
      have ih1 : List.map Prod.fst (setProp rest f v) = List.map Prod.fst rest := ih hrest
      simp [setProp, keys, hk, ih1]

theorem mem_keys_deleteProp {α : Type} (o : List (String × α)) (f k : String) :
    k ∈ keys (deleteProp o f) ↔ k ∈ keys o ∧ k ≠ f := by
  simp only [keys, deleteProp, List.mem_map, List.mem_filter, bne_iff_ne, ne_eq]
  constructor
  · rintro ⟨m, ⟨hm, hne⟩, rfl⟩
    exact ⟨⟨m, hm, rfl⟩, hne⟩
  · rintro ⟨⟨m, hm, rfl⟩, hne⟩
    exact ⟨m, ⟨hm, hne⟩, rfl⟩

theorem mem_keys_iff_getProp {α : Type} (o : List (String × α)) (k : String) :
    k ∈ keys o ↔ getProp o k ≠ none := by
  induction o with
  | nil => simp [keys, getProp]
  | cons m rest ih =>
    obtain ⟨k1, v1⟩ := m
    have ih1 : k ∈ List.map Prod.fst rest ↔ getProp rest k ≠ none := ih
    by_cases hk : k1 = k
    · simp [keys, getProp, hk]
    · simp [keys, getProp, hk, ih1, Ne.symm hk]

theorem mem_setProp {α : Type} (o : List (String × α)) (f : String) (v : α)
    (m : String × α) (h : m ∈ setProp o f v) : m ∈ o ∨ m = (f, v) := by
  induction o with
  | nil =>
    simp only [setProp] at h
    split at h
    · simp at h
    · exact Or.inr (by simpa using h)
  | cons m1 rest ih =>
    obtain ⟨k1, v1⟩ := m1
    by_cases hk : k1 = f
    · subst hk
      simp only [setProp, if_true, List.mem_cons] at h
      rcases h with h | h
      · exact Or.inr h
      · exact Or.inl (List.mem_cons_of_mem _ h)
    · simp only [setProp, hk, if_false, List.mem_cons] at h
      rcases h with h | h
      · exact Or.inl (h ▸ List.mem_cons_self _ _)
      · rcases ih h with h | h
        · exact Or.inl (List.mem_cons_of_mem _ h)
        · exact Or.inr h

/-! ## Facts about the loop over the test cases -/

/-- Handing an event to the callback sends nothing. -/
theorem emit_sent (progressCallback : Option Sink) (event : Event) (st : RunState) :
    (emit progressCallback event st).2.sent = st.sent := by
  cases progressCallback <;> rfl

theorem emit_sent_of_eq {progressCallback : Option Sink} {event : Event} {st st1 : RunState}
    {thrown : Option String} (h : emit progressCallback event st = (thrown, st1)) :
    st1.sent = st.sent := by
  have hsent := emit_sent progressCallback event st
  rw [h] at hsent
  exact hsent

theorem testBody_frame (baseBody : JSObject) (f : String) (value : Option JSONValue)
    (k : String) (h : k ≠ f) :
    getProp (testBody baseBody f value) k = getProp baseBody k ∧
      (k ∈ keys (testBody baseBody f value) ↔ k ∈ keys baseBody) := by
  cases value with
  | none =>
    simp only [testBody, jsonCopyMembers_eq]
    exact ⟨getProp_deleteProp_ne baseBody f k h, by simp [mem_keys_deleteProp, h]⟩
  | some v =>
    simp only [testBody, jsonCopyMembers_eq]
    exact ⟨getProp_setProp_ne baseBody f k v h, mem_keys_setProp_ne baseBody f k v h⟩

theorem runTestCase_requestBody (w : World) (endpoint : String) (baseBody : JSObject)
    (fieldName : String) (authToken : Option String) (method : Method)
    (progressCallback : Option Sink) (testCase : TestCase) (st : RunState) :
    let r := (runTestCase w endpoint baseBody fieldName authToken method progressCallback
      testCase st).1
    r.requestBody = testBody baseBody fieldName r.value := by
  simp only [runTestCase]
  split
  · simp [errorResult]
  · split <;> simp [completedResult, errorResult]

theorem runTestCases_requestBody (w : World) (endpoint : String) (baseBody : JSObject)
    (fieldName : String) (authToken : Option String) (method : Method)
    (progressCallback : Option Sink) (cases : List TestCase) (st : RunState) :
    ∀ r ∈ (runTestCases w endpoint baseBody fieldName authToken method progressCallback
      cases st).1, r.requestBody = testBody baseBody fieldName r.value := by
  induction cases generalizing st with
  | nil => simp [runTestCases]
  | cons testCase rest ih =>
    intro r hr
    simp only [runTestCases, List.mem_cons] at hr
    rcases hr with rfl | hr
    · exact runTestCase_requestBody w endpoint baseBody fieldName authToken method
        progressCallback testCase st
    · exact ih _ r hr

theorem runTestCases_length (w : World) (endpoint : String) (baseBody : JSObject)
    (fieldName : String) (authToken : Option String) (method : Method)
    (progressCallback : Option Sink) (cases : List TestCase) (st : RunState) :
    (runTestCases w endpoint baseBody fieldName authToken method progressCallback
      cases st).1.length = cases.length := by
  induction cases generalizing st with
  | nil => simp [runTestCases]
  | cons testCase rest ih => simp [runTestCases, ih]

/-- What `makeHttpRequest` adds to the requests sent: nothing, or one request
with the body it was given. -/
theorem makeHttpRequest_sent (w : World) (endpoint : String) (body : JSObject)
    (authToken : Option String) (method : Method) (st : RunState) :
    ∀ request ∈ (makeHttpRequest w endpoint body authToken method st).2.sent,
      request ∈ st.sent ∨ request.body = body := by
  intro request hreq
  simp only [makeHttpRequest] at hreq
  split at hreq
  · exact Or.inl hreq
  · split at hreq
    · exact Or.inl hreq
    · split at hreq
      · exact Or.inl hreq
      · simp only [List.mem_append, List.mem_singleton] at hreq
        rcases hreq with h | h
        · exact Or.inl h
        · exact Or.inr (by rw [h])

theorem runTestCase_sent (w : World) (endpoint : String) (baseBody : JSObject)
    (fieldName : String) (authToken : Option String) (method : Method)
    (progressCallback : Option Sink) (testCase : TestCase) (st : RunState) :
    ∀ request ∈ (runTestCase w endpoint baseBody fieldName authToken method progressCallback
      testCase st).2.sent,
      request ∈ st.sent ∨ request.body = testBody baseBody fieldName testCase.value := by
  intro request hreq
  have key := makeHttpRequest_sent w endpoint (testBody baseBody fieldName testCase.value)
    authToken method st request
  simp only [runTestCase] at hreq
  split at hreq
  · next message st1 heq => exact key (by rw [heq]; exact hreq)
  · next statusCode responseBody st1 heq =>
    split at hreq <;> next hcall =>
      have hsent := emit_sent_of_eq hcall
      exact key (by rw [heq]; simpa [hsent] using hreq)

theorem runTestCases_sent (w : World) (endpoint : String) (baseBody : JSObject)
    (fieldName : String) (authToken : Option String) (method : Method)
    (progressCallback : Option Sink) (cases : List TestCase) (st : RunState) :
    ∀ request ∈ (runTestCases w endpoint baseBody fieldName authToken method progressCallback
      cases st).2.sent,
      request ∈ st.sent ∨
        ∃ testCase ∈ cases, request.body = testBody baseBody fieldName testCase.value := by
  induction cases generalizing st with
  | nil => intro request hreq; exact Or.inl hreq
  | cons testCase rest ih =>
    intro request hreq
    simp only [runTestCases] at hreq
    rcases ih _ request hreq with h | ⟨tc, htc, h⟩
    · rcases runTestCase_sent w endpoint baseBody fieldName authToken method progressCallback
        testCase st request h with h | h
      · exact Or.inl h
      · exact Or.inr ⟨testCase, List.mem_cons_self _ _, h⟩
    · exact Or.inr ⟨tc, List.mem_cons_of_mem _ htc, h⟩

/-! ## Facts about the loop over the fields -/


/-- The entry a turn of the field loop leaves for its field: the full record of
the results of `testFieldValidation`, or the record of the `catch` branch. -/
theorem runField_fieldResults (w : World) (endpoint : String) (body : JSObject)
    (authToken : Option String) (method : Method) (progressCallback : Option Sink)
    (fieldName : String) (acc : Accumulator) (st : RunState) :
    ∀ entry ∈ (runField w endpoint body authToken method progressCallback fieldName acc
      st).1.fieldResults,
      entry ∈ acc.fieldResults ∨ (∃ message, entry = (fieldName, FieldResult.failed message)) ∨
        entry = (fieldName, FieldResult.full (fieldReport (getProp body fieldName)
          (testFieldValidation w endpoint body fieldName (getProp body fieldName) authToken
            method progressCallback st).1)) := by
  intro entry hentry
  simp only [runField] at hentry
  split at hentry
  · rcases mem_setProp _ _ _ _ hentry with h | h
    · exact Or.inl h
    · exact Or.inr (Or.inr h)
  · next message st2 hcall =>
    rcases mem_setProp _ _ _ _ hentry with h | h
    · rcases mem_setProp _ _ _ _ h with h | h
      · exact Or.inl h
      · exact Or.inr (Or.inr h)
    · exact Or.inr (Or.inl ⟨message, h⟩)

theorem runFields_fieldResults (w : World) (endpoint : String) (body : JSObject)
    (authToken : Option String) (method : Method) (progressCallback : Option Sink)
    (fields : List String) (acc : Accumulator) (st : RunState) :
    ∀ entry ∈ (runFields w endpoint body authToken method progressCallback fields acc
      st).1.fieldResults,
      entry ∈ acc.fieldResults ∨ ∃ fieldName ∈ fields,
        (∃ message, entry = (fieldName, FieldResult.failed message)) ∨
        ∃ st1, entry = (fieldName, FieldResult.full (fieldReport (getProp body fieldName)
          (testFieldValidation w endpoint body fieldName (getProp body fieldName) authToken
            method progressCallback st1).1)) := by
  induction fields generalizing acc st with
  | nil => intro entry hentry; exact Or.inl hentry
  | cons fieldName rest ih =>
    intro entry hentry
    simp only [runFields] at hentry
    rcases ih _ _ entry hentry with h | ⟨f, hf, h⟩
    · rcases runField_fieldResults w endpoint body authToken method progressCallback
        fieldName acc st entry h with h | h | h
      · exact Or.inl h
      · exact Or.inr ⟨fieldName, List.mem_cons_self _ _, Or.inl h⟩
      · exact Or.inr ⟨fieldName, List.mem_cons_self _ _, Or.inr ⟨st, h⟩⟩
    · exact Or.inr ⟨f, List.mem_cons_of_mem _ hf, h⟩

theorem runField_sent (w : World) (endpoint : String) (body : JSObject)
    (authToken : Option String) (method : Method) (progressCallback : Option Sink)
    (fieldName : String) (acc : Accumulator) (st : RunState) :
    (runField w endpoint body authToken method progressCallback fieldName acc st).2.sent =
      (testFieldValidation w endpoint body fieldName (getProp body fieldName) authToken method
        progressCallback st).2.sent := by
  simp only [runField]
  split <;> next hcall => exact emit_sent_of_eq hcall

theorem runFields_sent (w : World) (endpoint : String) (body : JSObject)
    (authToken : Option String) (method : Method) (progressCallback : Option Sink)
    (fields : List String) (acc : Accumulator) (st : RunState) :
    ∀ request ∈ (runFields w endpoint body authToken method progressCallback fields acc
      st).2.sent,
      request ∈ st.sent ∨ ∃ fieldName ∈ fields, ∃ testCase ∈ testCases (getProp body fieldName),
        request.body = testBody body fieldName testCase.value := by
  induction fields generalizing acc st with
  | nil => intro request hreq; exact Or.inl hreq
  | cons fieldName rest ih =>
    intro request hreq
    simp only [runFields] at hreq
    rcases ih _ _ request hreq with h | ⟨f, hf, h⟩
    · rw [runField_sent] at h
      rcases runTestCases_sent w endpoint body fieldName authToken method progressCallback
        _ st request h with h | h
      · exact Or.inl h
      · exact Or.inr ⟨fieldName, List.mem_cons_self _ _, h⟩
    · exact Or.inr ⟨f, List.mem_cons_of_mem _ hf, h⟩

/-! ## Facts about a whole run -/

theorem runBaseline_sent (w : World) (endpoint : String) (body : JSObject)
    (authToken : Option String) (method : Method) (summary : Summary) (st : RunState) :
    (runBaseline w endpoint body authToken method summary st).2.sent =
      (makeHttpRequest w endpoint body authToken method st).2.sent := by
  simp only [runBaseline]
  split <;> next heq => rw [heq]

/-- The entries of `fieldResults` in the value a run resolves with. -/
theorem runParsed_fieldResults (w : World) (endpoint : String) (body : JSObject)
    (authToken : Option String) (method : Method) (progressCallback : Option Sink)
    (st : RunState) (rr : RunResult)
    (hrun : (runParsed w endpoint body authToken method progressCallback st).1 = .ok rr) :
    ∀ entry ∈ rr.fieldResults, ∃ fieldName ∈ keys body,
      (∃ message, entry = (fieldName, FieldResult.failed message)) ∨
      ∃ st1, entry = (fieldName, FieldResult.full (fieldReport (getProp body fieldName)
        (testFieldValidation w endpoint body fieldName (getProp body fieldName) authToken
          method progressCallback st1).1)) := by
  intro entry hentry
  simp only [runParsed] at hrun
  split at hrun
  · simp at hrun
  · split at hrun
    · simp at hrun
    · simp only [Except.ok.injEq] at hrun
      subst hrun
      rcases runFields_fieldResults w endpoint body authToken method progressCallback
        (keys body) _ _ entry hentry with h | h
      · simp at h
      · exact h

/-- The requests a run sends: the baseline, and the mutated bodies. -/
theorem runParsed_sent (w : World) (endpoint : String) (body : JSObject)
    (authToken : Option String) (method : Method) (progressCallback : Option Sink)
    (st : RunState) :
    ∀ request ∈ (runParsed w endpoint body authToken method progressCallback st).2.sent,
      request ∈ st.sent ∨ request.body = body ∨
        ∃ fieldName ∈ keys body, ∃ testCase ∈ testCases (getProp body fieldName),
          request.body = testBody body fieldName testCase.value := by
  intro request hreq
  simp only [runParsed] at hreq
  split at hreq
  · next message st1 heq =>
    exact Or.inl (by rw [← emit_sent_of_eq heq]; exact hreq)
  · next st1 heq =>
    have h1 : st1.sent = st.sent := emit_sent_of_eq heq
    have hfields : request ∈ (runFields w endpoint body authToken method progressCallback
        (keys body)
        ⟨[], (runBaseline w endpoint body authToken method
          { totalFields := (keys body).length, properlyValidated := 0, notValidated := 0,
            errors := [], baseline := none } st1).1⟩
        (runBaseline w endpoint body authToken method
          { totalFields := (keys body).length, properlyValidated := 0, notValidated := 0,
            errors := [], baseline := none } st1).2).2.sent := by
      split at hreq <;> next hcall => rw [← emit_sent_of_eq hcall]; exact hreq
    rcases runFields_sent w endpoint body authToken method progressCallback (keys body)
      _ _ request hfields with h | h
    · rw [runBaseline_sent] at h
      rcases makeHttpRequest_sent w endpoint body authToken method st1 request h with h | h
      · exact Or.inl (h1 ▸ h)
      · exact Or.inr (Or.inl h)
    · exact Or.inr (Or.inr h)

theorem requestsSent_append (w : World) (endpoint : String) (authToken : Option String)
    (method : Method) (xs ys : List JSObject) :
    requestsSent w endpoint authToken method (xs ++ ys) =
      requestsSent w endpoint authToken method xs ++
        requestsSent w endpoint authToken method ys := by
  cases method with
  | other typeError => simp [requestsSent]
  | str m =>
    simp only [requestsSent]
    split <;> simp

theorem makeHttpRequest_sent_eq (w : World) (endpoint : String) (body : JSObject)
    (authToken : Option String) (method : Method) (st : RunState) :
    (makeHttpRequest w endpoint body authToken method st).2.sent =
      st.sent ++ requestsSent w endpoint authToken method [body] := by
  cases method with
  | other typeError =>
    simp only [makeHttpRequest, requestsSent]
    split <;> simp
  | str m =>
    simp only [makeHttpRequest, requestsSent, canSend]
    split
    · simp_all
    · split <;> simp_all

theorem runTestCase_sent_eq (w : World) (endpoint : String) (baseBody : JSObject)
    (fieldName : String) (authToken : Option String) (method : Method)
    (progressCallback : Option Sink) (testCase : TestCase) (st : RunState) :
    (runTestCase w endpoint baseBody fieldName authToken method progressCallback
      testCase st).2.sent =
      st.sent ++ requestsSent w endpoint authToken method
        [testBody baseBody fieldName testCase.value] := by
  rw [← makeHttpRequest_sent_eq]
  simp only [runTestCase]
  split
  · next heq => rw [heq]
  · next heq =>
    rw [heq]
    split <;> next hcall => exact emit_sent_of_eq hcall

/-- The loop over the test cases sends one request per case, in order. -/
theorem runTestCases_sent_eq (w : World) (endpoint : String) (baseBody : JSObject)
    (fieldName : String) (authToken : Option String) (method : Method)
    (progressCallback : Option Sink) (cases : List TestCase) (st : RunState) :
    (runTestCases w endpoint baseBody fieldName authToken method progressCallback
      cases st).2.sent =
      st.sent ++ requestsSent w endpoint authToken method
        (cases.map (fun testCase => testBody baseBody fieldName testCase.value)) := by
  induction cases generalizing st with
  | nil => simp [runTestCases, requestsSent]; split <;> rfl
  | cons testCase rest ih =>
    simp only [runTestCases, ih, runTestCase_sent_eq, List.map_cons, List.append_assoc]
    rw [← requestsSent_append]
    rfl

/-- The loop over the fields sends the requests of each field in turn. -/
theorem runFields_sent_eq (w : World) (endpoint : String) (body : JSObject)
    (authToken : Option String) (method : Method) (progressCallback : Option Sink)
    (fields : List String) (acc : Accumulator) (st : RunState) :
    (runFields w endpoint body authToken method progressCallback fields acc st).2.sent =
      st.sent ++ requestsSent w endpoint authToken method
        (fields.flatMap (fun fieldName => (testCases (getProp body fieldName)).map
          (fun testCase => testBody body fieldName testCase.value))) := by
  induction fields generalizing acc st with
  | nil => simp [runFields, requestsSent]; split <;> rfl
  | cons fieldName rest ih =>
    simp only [runFields, ih, runField_sent, testFieldValidation, runTestCases_sent_eq,
      List.flatMap_cons, List.append_assoc, requestsSent_append]

/-- The requests of a run whose `start` event is accepted: the baseline, then
for each key of the body, in order, one request per test case, in order. -/
theorem runParsed_sent_eq (w : World) (endpoint : String) (body : JSObject)
    (authToken : Option String) (method : Method) (progressCallback : Option Sink)
    (st : RunState)
    (hstart : (emit progressCallback (.start endpoint (keys body).length) st).1 = none) :
    (runParsed w endpoint body authToken method progressCallback st).2.sent =
      st.sent ++ requestsSent w endpoint authToken method
        (body :: (keys body).flatMap (fun fieldName => (testCases (getProp body fieldName)).map
          (fun testCase => testBody body fieldName testCase.value))) := by
  simp only [runParsed]
  split
  · next message st1 heq => rw [heq] at hstart; simp at hstart
  · next st1 heq =>
    have h1 : st1.sent = st.sent := emit_sent_of_eq heq
    split <;> next hcall =>
      rw [emit_sent_of_eq hcall, runFields_sent_eq, runBaseline_sent, makeHttpRequest_sent_eq,
        h1, List.append_assoc, ← requestsSent_append]
      rfl

/-! ## Totals and mutation isolation (C8-C10) -/

theorem fieldReport_counts (originalValue : Option JSONValue) (results : List TestResult) :
    (fieldReport originalValue results).originalValue = originalValue ∧
    (fieldReport originalValue results).totalTests = results.length ∧
    (fieldReport originalValue results).handledCount ≤ results.length :=
  ⟨rfl, rfl, List.length_filter_le _ _⟩

/-- C8: in the value a run resolves with, every full field record has
`totalTests = 12 + extra`, where `extra` is 2 for a string or a number
original value, 3 for a boolean and 0 otherwise, the original value being the
value of the field in the parsed body; and `handledCount ≤ totalTests`.  This
holds for every target and every progress callback.  (The record the `catch`
branch writes has neither count.) -/
theorem total_tests_and_handled_count (w : World) (endpoint : String)
    (requestBody : RequestBody) (authToken : Option String) (method : Method)
    (progressCallback : Option Sink) (st : RunState) (rr : RunResult) (fieldName : String)
    (report : FieldReport)
    (hrun : (testEndpointValidation w endpoint requestBody authToken method progressCallback
      st).1 = .ok rr)
    (hentry : (fieldName, FieldResult.full report) ∈ rr.fieldResults) :
    (∃ body, parseRequestBody w requestBody = .ok body ∧
      report.originalValue = getProp body fieldName) ∧
    report.totalTests = 12 +
      (match report.originalValue with
        | some (.str _) => 2
        | some (.num _) => 2
        | some (.bool _) => 3
        | _ => 0) ∧
    report.handledCount ≤ report.totalTests := by
  simp only [testEndpointValidation] at hrun
  split at hrun
  · simp at hrun
  · next body hbody =>
    obtain ⟨f, _, h | ⟨st1, h⟩⟩ :=
      runParsed_fieldResults w endpoint body authToken method progressCallback st rr hrun _ hentry
    · obtain ⟨message, h⟩ := h
      simp at h
    · simp only [Prod.mk.injEq, FieldResult.full.injEq] at h
      obtain ⟨rfl, rfl⟩ := h
      have hlen : (testFieldValidation w endpoint body fieldName (getProp body fieldName)
          authToken method progressCallback st1).1.length =
          (testCases (getProp body fieldName)).length :=
        runTestCases_length w endpoint body fieldName authToken method progressCallback _ st1
      obtain ⟨h1, h2, h3⟩ := fieldReport_counts (getProp body fieldName)
        (testFieldValidation w endpoint body fieldName (getProp body fieldName) authToken
          method progressCallback st1).1
      refine ⟨⟨body, hbody, h1⟩, ?_, ?_⟩
      · rw [h2, hlen, h1]
        rcases getProp body fieldName with _ | v
        · rfl
        · cases v <;> rfl
      · rw [h2]; exact h3

/-- C9: every request a run sends carries the original body itself (the
baseline) or the body built for one test case of one key `fieldName` of the
original body; in the latter, every other key has the value it has in the
original body, and is a key of the request exactly when it is a key of the
original.  The comparison is with the original body for every field and test
case of the run, whatever was sent before. -/
theorem mutation_isolation (w : World) (endpoint : String) (requestBody : RequestBody)
    (body : JSObject) (authToken : Option String) (method : Method)
    (progressCallback : Option Sink) (st : RunState) (request : Request)
    (hbody : parseRequestBody w requestBody = .ok body)
    (hsent : request ∈ (testEndpointValidation w endpoint requestBody authToken method
      progressCallback st).2.sent)
    (hnew : request ∉ st.sent) :
    request.body = body ∨
      ∃ fieldName ∈ keys body, ∃ testCase ∈ testCases (getProp body fieldName),
        request.body = testBody body fieldName testCase.value ∧
        ∀ k, k ≠ fieldName →
          getProp request.body k = getProp body k ∧ (k ∈ keys request.body ↔ k ∈ keys body) := by
  have hsent1 : request ∈ (runParsed w endpoint body authToken method progressCallback
      st).2.sent := by
    simpa only [testEndpointValidation, hbody] using hsent
  rcases runParsed_sent w endpoint body authToken method progressCallback st request hsent1
    with h | h | ⟨f, hf, tc, htc, h⟩
  · exact absurd h hnew
  · exact Or.inl h
  · refine Or.inr ⟨f, hf, tc, htc, h, ?_⟩
    intro k hk
    rw [h]
    exact testBody_frame body f tc.value k hk

theorem runTestCase_value (w : World) (endpoint : String) (baseBody : JSObject)
    (fieldName : String) (authToken : Option String) (method : Method)
    (progressCallback : Option Sink) (testCase : TestCase) (st : RunState) :
    (runTestCase w endpoint baseBody fieldName authToken method progressCallback
      testCase st).1.value = testCase.value := by
  simp only [runTestCase]
  split
  · simp [errorResult]
  · split <;> simp [completedResult, errorResult]

theorem runTestCases_values (w : World) (endpoint : String) (baseBody : JSObject)
    (fieldName : String) (authToken : Option String) (method : Method)
    (progressCallback : Option Sink) (cases : List TestCase) (st : RunState) :
    (runTestCases w endpoint baseBody fieldName authToken method progressCallback
      cases st).1.map TestResult.value = cases.map TestCase.value := by
  induction cases generalizing st with
  | nil => simp [runTestCases]
  | cons testCase rest ih => simp [runTestCases, ih, runTestCase_value]

theorem testBody_absent (baseBody : JSObject) (f : String) :
    f ∉ keys (testBody baseBody f none) := by
  simp [testBody, mem_keys_deleteProp]

theorem testBody_value (baseBody : JSObject) (f : String) (v : JSONValue)
    (h : f ∈ keys baseBody) : getProp (testBody baseBody f (some v)) f = some v := by
  simp only [testBody, jsonCopyMembers_eq]
  exact getProp_setProp_self baseBody f v h

/-- C10: for a field `fieldName` of the body, the records of
`testFieldValidation` carry the values of the catalog in order; the request
body of a record whose value is `undefined` (the removed field) has no key
`fieldName`; the request body of a record with any other value has the key
`fieldName` with exactly that value; so the request bodies of the `null` case
and of the removed-field case differ. -/
theorem absent_case_differs_from_null_case (w : World) (endpoint : String)
    (baseBody : JSObject) (fieldName : String) (originalValue : Option JSONValue)
    (authToken : Option String) (method : Method) (progressCallback : Option Sink)
    (st : RunState) (hfield : fieldName ∈ keys baseBody) :
    (testFieldValidation w endpoint baseBody fieldName originalValue authToken method
      progressCallback st).1.map TestResult.value =
      (testCases originalValue).map TestCase.value ∧
    (∀ r ∈ (testFieldValidation w endpoint baseBody fieldName originalValue authToken method
      progressCallback st).1, r.value = none → fieldName ∉ keys r.requestBody) ∧
    (∀ r ∈ (testFieldValidation w endpoint baseBody fieldName originalValue authToken method
      progressCallback st).1, ∀ v, r.value = some v →
        getProp r.requestBody fieldName = some v) ∧
    (∀ r1 ∈ (testFieldValidation w endpoint baseBody fieldName originalValue authToken method
      progressCallback st).1,
      ∀ r2 ∈ (testFieldValidation w endpoint baseBody fieldName originalValue authToken method
        progressCallback st).1,
      r1.value = some .null → r2.value = none → r1.requestBody ≠ r2.requestBody) := by
  have hbody : ∀ r ∈ (testFieldValidation w endpoint baseBody fieldName originalValue authToken
      method progressCallback st).1, r.requestBody = testBody baseBody fieldName r.value :=
    runTestCases_requestBody w endpoint baseBody fieldName authToken method progressCallback _ st
  have habsent : ∀ r ∈ (testFieldValidation w endpoint baseBody fieldName originalValue
      authToken method progressCallback st).1,
      r.value = none → fieldName ∉ keys r.requestBody := by
    intro r hr hv
    rw [hbody r hr, hv]
    exact testBody_absent baseBody fieldName
  have hvalue : ∀ r ∈ (testFieldValidation w endpoint baseBody fieldName originalValue
      authToken method progressCallback st).1, ∀ v, r.value = some v →
      getProp r.requestBody fieldName = some v := by
    intro r hr v hv
    rw [hbody r hr, hv]
    exact testBody_value baseBody fieldName v hfield
  refine ⟨runTestCases_values w endpoint baseBody fieldName authToken method progressCallback
    _ st, habsent, hvalue, ?_⟩
  intro r1 hr1 r2 hr2 h1 h2 heq
  have hin : fieldName ∈ keys r1.requestBody := by
    rw [mem_keys_iff_getProp, hvalue r1 hr1 _ h1]
    simp
  rw [heq] at hin
  exact habsent r2 hr2 h2 hin

/-! ### Sample runs -/

/-- A run over `profileBody`: the record of the boolean field `active` counts
fifteen tests. -/
theorem total_tests_and_handled_count_witness :
    ∃ (rr : RunResult) (report : FieldReport),
      (testEndpointValidation (worldAlways 400 (.str "invalid")) "http://localhost/api"
        (.object profileBody) none (.str "POST") none RunState.initial).1 = .ok rr ∧
      ("active", FieldResult.full report) ∈ rr.fieldResults ∧
      report.originalValue = some (.bool true) ∧
      report.totalTests = 12 + 3 ∧ report.handledCount ≤ report.totalTests := by
  refine ⟨_, _, rfl, List.mem_cons_of_mem _ (List.mem_cons_self _ _), rfl, ?_⟩
  have h := total_tests_and_handled_count (worldAlways 400 (.str "invalid"))
    "http://localhost/api" (.object profileBody) none (.str "POST") none RunState.initial
    _ "active" _ rfl (List.mem_cons_of_mem _ (List.mem_cons_self _ _))
  exact ⟨h.2.1, h.2.2⟩

/-- In a run over `profileBody`, the request of the second field with the field
removed is sent. -/
theorem sampleRequest_sent :
    (⟨"http://localhost/api", "POST", none, [("age", .num "30")]⟩ : Request) ∈
      (testEndpointValidation (worldAlways 200 (.obj [("ok", .bool true)]))
        "http://localhost/api" (.object profileBody) none (.str "POST") none
        RunState.initial).2.sent := by
  have h := runParsed_sent_eq (worldAlways 200 (.obj [("ok", .bool true)]))
    "http://localhost/api" profileBody none (.str "POST") none RunState.initial rfl
  have h2 : (testEndpointValidation (worldAlways 200 (.obj [("ok", .bool true)]))
        "http://localhost/api" (.object profileBody) none (.str "POST") none
        RunState.initial).2.sent = _ := h
  rw [h2]
  have h3 : ∀ bodies, requestsSent (worldAlways 200 (.obj [("ok", .bool true)]))
      "http://localhost/api" none (.str "POST") bodies =
      bodies.map (fun body => ⟨"http://localhost/api", "POST", none, body⟩) := fun _ => rfl
  rw [h3]
  refine List.mem_append_right _ (List.mem_map.2 ⟨[("age", .num "30")], ?_, rfl⟩)
  refine List.mem_cons_of_mem _ (List.mem_flatMap.2 ⟨"active", ?_, ?_⟩)
  · exact List.mem_cons_of_mem _ (List.mem_cons_self _ _)
  · exact List.mem_map.2 ⟨⟨"undefined", none⟩,
      List.mem_cons_of_mem _ (List.mem_cons_self _ _), rfl⟩

/-- The request that removes the second field, `active`, keeps `age` as it is
in the original body. -/
theorem mutation_isolation_witness :
    (⟨"http://localhost/api", "POST", none, [("age", .num "30")]⟩ : Request) ∈
      (testEndpointValidation (worldAlways 200 (.obj [("ok", .bool true)]))
        "http://localhost/api" (.object profileBody) none (.str "POST") none
        RunState.initial).2.sent ∧
    ([("age", .num "30")] = profileBody ∨
      ∃ fieldName ∈ keys profileBody, ∃ testCase ∈ testCases (getProp profileBody fieldName),
        [("age", .num "30")] = testBody profileBody fieldName testCase.value ∧
        ∀ k, k ≠ fieldName →
          getProp [("age", JSONValue.num "30")] k = getProp profileBody k ∧
            (k ∈ keys [("age", JSONValue.num "30")] ↔ k ∈ keys profileBody)) :=
  ⟨sampleRequest_sent,
   mutation_isolation (worldAlways 200 (.obj [("ok", .bool true)]))
    "http://localhost/api" (.object profileBody) profileBody none (.str "POST") none
    RunState.initial ⟨"http://localhost/api", "POST", none, [("age", .num "30")]⟩
    rfl sampleRequest_sent (by simp [RunState.initial])⟩

/-- Over `ageBody`, the request bodies of the `null` case and of the
removed-field case of `age` differ. -/
theorem absent_case_differs_from_null_case_witness :
    "age" ∈ keys ageBody ∧
    ∀ r1 ∈ (testFieldValidation (worldAlways 400 (.str "invalid")) "http://localhost/api"
        ageBody "age" (some (.num "30")) none (.str "POST") none RunState.initial).1,
      ∀ r2 ∈ (testFieldValidation (worldAlways 400 (.str "invalid")) "http://localhost/api"
        ageBody "age" (some (.num "30")) none (.str "POST") none RunState.initial).1,
      r1.value = some .null → r2.value = none → r1.requestBody ≠ r2.requestBody :=
  ⟨List.mem_cons_self _ _,
   (absent_case_differs_from_null_case (worldAlways 400 (.str "invalid"))
    "http://localhost/api" ageBody "age" (some (.num "30")) none (.str "POST") none
    RunState.initial (List.mem_cons_self _ _)).2.2.2⟩

/-! ## Threshold and counts (C11, C12) -/

/-- A full entry of the value a run resolves with is the record of the results
of `testFieldValidation` for that field of the parsed body. -/
theorem full_entry_of_run (w : World) (endpoint : String) (requestBody : RequestBody)
    (authToken : Option String) (method : Method) (progressCallback : Option Sink)
    (st : RunState) (rr : RunResult) (fieldName : String) (report : FieldReport)
    (hrun : (testEndpointValidation w endpoint requestBody authToken method progressCallback
      st).1 = .ok rr)
    (hentry : (fieldName, FieldResult.full report) ∈ rr.fieldResults) :
    ∃ body st1, parseRequestBody w requestBody = .ok body ∧ fieldName ∈ keys body ∧
      report = fieldReport (getProp body fieldName)
        (testFieldValidation w endpoint body fieldName (getProp body fieldName) authToken
          method progressCallback st1).1 := by
  simp only [testEndpointValidation] at hrun
  split at hrun
  · simp at hrun
  · next body hbody =>
    obtain ⟨f, hf, h | ⟨st1, h⟩⟩ :=
      runParsed_fieldResults w endpoint body authToken method progressCallback st rr hrun _ hentry
    · obtain ⟨message, h⟩ := h
      simp at h
    · simp only [Prod.mk.injEq, FieldResult.full.injEq] at h
      obtain ⟨rfl, rfl⟩ := h
      exact ⟨body, st1, hbody, hf, rfl⟩

/-- The catalog is never empty. -/
theorem testCases_length_pos (originalValue : Option JSONValue) :
    0 < (testCases originalValue).length := by
  have h := testCases_length originalValue
  omega

/-- C11: in the value a run resolves with, every full field record has at least
one test, and its `properlyValidated` is true exactly when
`handledCount / totalTests` exceeds 7/10, that is when
`10 * handledCount > 7 * totalTests`; a ratio of exactly 7/10 is not properly
validated. -/
theorem properly_validated_iff_above_threshold (w : World) (endpoint : String)
    (requestBody : RequestBody) (authToken : Option String) (method : Method)
    (progressCallback : Option Sink) (st : RunState) (rr : RunResult) (fieldName : String)
    (report : FieldReport)
    (hrun : (testEndpointValidation w endpoint requestBody authToken method progressCallback
      st).1 = .ok rr)
    (hentry : (fieldName, FieldResult.full report) ∈ rr.fieldResults) :
    0 < report.totalTests ∧
    (report.properlyValidated = true ↔
      (report.handledCount : ℚ) / (report.totalTests : ℚ) > 7 / 10) ∧
    (report.properlyValidated = true ↔ 10 * report.handledCount > 7 * report.totalTests) ∧
    ((report.handledCount : ℚ) / (report.totalTests : ℚ) = 7 / 10 →
      report.properlyValidated = false) := by
  obtain ⟨body, st1, _, _, rfl⟩ := full_entry_of_run w endpoint requestBody authToken method
    progressCallback st rr fieldName report hrun hentry
  have hpos : 0 < (fieldReport (getProp body fieldName)
      (testFieldValidation w endpoint body fieldName (getProp body fieldName) authToken
        method progressCallback st1).1).totalTests := by
    show 0 < (testFieldValidation w endpoint body fieldName (getProp body fieldName) authToken
        method progressCallback st1).1.length
    rw [testFieldValidation, runTestCases_length]
    exact testCases_length_pos _
  have hpv : (fieldReport (getProp body fieldName)
      (testFieldValidation w endpoint body fieldName (getProp body fieldName) authToken
        method progressCallback st1).1).properlyValidated =
      isProperlyValidated
        (fieldReport (getProp body fieldName)
          (testFieldValidation w endpoint body fieldName (getProp body fieldName) authToken
            method progressCallback st1).1).handledCount
        (fieldReport (getProp body fieldName)
          (testFieldValidation w endpoint body fieldName (getProp body fieldName) authToken
            method progressCallback st1).1).totalTests := rfl
  generalize fieldReport (getProp body fieldName)
      (testFieldValidation w endpoint body fieldName (getProp body fieldName) authToken
        method progressCallback st1).1 = rep at hpos hpv
  have hq : (0 : ℚ) < (rep.totalTests : ℚ) := by exact_mod_cast hpos
  have hnat : rep.properlyValidated = true ↔ 10 * rep.handledCount > 7 * rep.totalTests := by
    rw [hpv, isProperlyValidated, decide_eq_true_iff]
  have hrat : (rep.handledCount : ℚ) / (rep.totalTests : ℚ) > 7 / 10 ↔
      10 * rep.handledCount > 7 * rep.totalTests := by
    rw [gt_iff_lt, lt_div_iff₀ hq]
    constructor
    · intro h
      have h2 : (7 : ℚ) * (rep.totalTests : ℚ) < 10 * (rep.handledCount : ℚ) := by linarith
      exact_mod_cast h2
    · intro h
      have h2 : (7 : ℚ) * (rep.totalTests : ℚ) < 10 * (rep.handledCount : ℚ) := by
        exact_mod_cast h
      linarith
  refine ⟨hpos, hnat.trans hrat.symm, hnat, ?_⟩
  intro heq
  have hnot : ¬ (rep.handledCount : ℚ) / (rep.totalTests : ℚ) > 7 / 10 := by
    rw [heq]; exact lt_irrefl _
  have : ¬ rep.properlyValidated = true := fun h => hnot ((hnat.trans hrat.symm).1 h)
  simpa using this

/-- C12: in the value a run resolves with, every full field record has
`handledCount` equal to the number of its test results whose `handled` flag is
true, and `totalTests` equal to the number of its test results. -/
theorem counts_match_test_results (w : World) (endpoint : String)
    (requestBody : RequestBody) (authToken : Option String) (method : Method)
    (progressCallback : Option Sink) (st : RunState) (rr : RunResult) (fieldName : String)
    (report : FieldReport)
    (hrun : (testEndpointValidation w endpoint requestBody authToken method progressCallback
      st).1 = .ok rr)
    (hentry : (fieldName, FieldResult.full report) ∈ rr.fieldResults) :
    report.handledCount = report.testResults.countP (fun r => r.handled) ∧
    report.totalTests = report.testResults.length := by
  obtain ⟨body, st1, _, _, rfl⟩ := full_entry_of_run w endpoint requestBody authToken method
    progressCallback st rr fieldName report hrun hentry
  refine ⟨?_, rfl⟩
  simp only [fieldReport, List.countP_eq_length_filter]

/-- Seven handled tests out of ten are not enough. -/
theorem isProperlyValidated_at_threshold : isProperlyValidated 7 10 = false := by decide

/-- A run over `profileBody` against a target that always answers 400: the
boolean field has fifteen handled tests out of fifteen. -/
theorem properly_validated_iff_above_threshold_witness :
    ∃ (rr : RunResult) (report : FieldReport),
      (testEndpointValidation (worldAlways 400 (.str "invalid")) "http://localhost/api"
        (.object profileBody) none (.str "POST") none RunState.initial).1 = .ok rr ∧
      ("active", FieldResult.full report) ∈ rr.fieldResults ∧
      report.handledCount = 15 ∧ report.totalTests = 15 ∧
      (report.properlyValidated = true ↔
        10 * report.handledCount > 7 * report.totalTests) := by
  refine ⟨_, _, rfl, List.mem_cons_of_mem _ (List.mem_cons_self _ _), rfl, rfl, ?_⟩
  exact (properly_validated_iff_above_threshold (worldAlways 400 (.str "invalid"))
    "http://localhost/api" (.object profileBody) none (.str "POST") none RunState.initial
    _ "active" _ rfl (List.mem_cons_of_mem _ (List.mem_cons_self _ _))).2.2.1

/-- A run over `ageBody` against a target that always answers 200. -/
theorem counts_match_test_results_witness :
    ∃ (rr : RunResult) (report : FieldReport),
      (testEndpointValidation (worldAlways 200 (.obj [("ok", .bool true)]))
        "http://localhost/api" (.object ageBody) none (.str "POST") none
        RunState.initial).1 = .ok rr ∧
      ("age", FieldResult.full report) ∈ rr.fieldResults ∧
      report.handledCount = report.testResults.countP (fun r => r.handled) ∧
      report.totalTests = report.testResults.length := by
  refine ⟨_, _, rfl, List.mem_cons_self _ _, ?_⟩
  exact counts_match_test_results (worldAlways 200 (.obj [("ok", .bool true)]))
    "http://localhost/api" (.object ageBody) none (.str "POST") none RunState.initial
    _ "age" _ rfl (List.mem_cons_self _ _)

/-! ## The counters of the summary (C13) -/

/-- One turn of the loop over the fields keeps `totalFields` and `baseline` and
adds one to one of the two counters, whether or not the callback throws. -/
theorem runField_summary (w : World) (endpoint : String) (body : JSObject)
    (authToken : Option String) (method : Method) (progressCallback : Option Sink)
    (fieldName : String) (acc : Accumulator) (st : RunState) :
    (runField w endpoint body authToken method progressCallback fieldName acc
      st).1.summary.totalFields = acc.summary.totalFields ∧
    (runField w endpoint body authToken method progressCallback fieldName acc
      st).1.summary.baseline = acc.summary.baseline ∧
    (runField w endpoint body authToken method progressCallback fieldName acc
      st).1.summary.properlyValidated +
      (runField w endpoint body authToken method progressCallback fieldName acc
        st).1.summary.notValidated =
      acc.summary.properlyValidated + acc.summary.notValidated + 1 := by
  simp only [runField]
  split <;> (split <;> simp <;> omega)

/-- The loop over the fields adds one to a counter for each field. -/
theorem runFields_summary (w : World) (endpoint : String) (body : JSObject)
    (authToken : Option String) (method : Method) (progressCallback : Option Sink)
    (fields : List String) (acc : Accumulator) (st : RunState) :
    (runFields w endpoint body authToken method progressCallback fields acc
      st).1.summary.totalFields = acc.summary.totalFields ∧
    (runFields w endpoint body authToken method progressCallback fields acc
      st).1.summary.baseline = acc.summary.baseline ∧
    (runFields w endpoint body authToken method progressCallback fields acc
      st).1.summary.properlyValidated +
      (runFields w endpoint body authToken method progressCallback fields acc
        st).1.summary.notValidated =
      acc.summary.properlyValidated + acc.summary.notValidated + fields.length := by
  induction fields generalizing acc st with
  | nil => simp [runFields]
  | cons fieldName rest ih =>
    simp only [runFields, List.length_cons]
    obtain ⟨h1, h2, h3⟩ := runField_summary w endpoint body authToken method progressCallback
      fieldName acc st
    obtain ⟨i1, i2, i3⟩ := ih
      (runField w endpoint body authToken method progressCallback fieldName acc st).1
      (runField w endpoint body authToken method progressCallback fieldName acc st).2
    refine ⟨i1.trans h1, i2.trans h2, ?_⟩
    omega

/-- The baseline probe changes no counter. -/
theorem runBaseline_summary (w : World) (endpoint : String) (body : JSObject)
    (authToken : Option String) (method : Method) (summary : Summary) (st : RunState) :
    (runBaseline w endpoint body authToken method summary st).1.totalFields =
      summary.totalFields ∧
    (runBaseline w endpoint body authToken method summary st).1.properlyValidated =
      summary.properlyValidated ∧
    (runBaseline w endpoint body authToken method summary st).1.notValidated =
      summary.notValidated := by
  simp only [runBaseline]
  split <;> simp

/-- The summary and the entries of a run that resolves are those the loop over
the keys of the body leaves, started after the baseline probe. -/
theorem runParsed_ok (w : World) (endpoint : String) (body : JSObject)
    (authToken : Option String) (method : Method) (progressCallback : Option Sink)
    (st : RunState) (rr : RunResult)
    (hrun : (runParsed w endpoint body authToken method progressCallback st).1 = .ok rr) :
    ∃ st1, emit progressCallback (.start endpoint (keys body).length) st = (none, st1) ∧
      rr.summary = (runFields w endpoint body authToken method progressCallback (keys body)
        ⟨[], (runBaseline w endpoint body authToken method
          { totalFields := (keys body).length, properlyValidated := 0, notValidated := 0,
            errors := [], baseline := none } st1).1⟩
        (runBaseline w endpoint body authToken method
          { totalFields := (keys body).length, properlyValidated := 0, notValidated := 0,
            errors := [], baseline := none } st1).2).1.summary ∧
      rr.fieldResults = (runFields w endpoint body authToken method progressCallback (keys body)
        ⟨[], (runBaseline w endpoint body authToken method
          { totalFields := (keys body).length, properlyValidated := 0, notValidated := 0,
            errors := [], baseline := none } st1).1⟩
        (runBaseline w endpoint body authToken method
          { totalFields := (keys body).length, properlyValidated := 0, notValidated := 0,
            errors := [], baseline := none } st1).2).1.fieldResults := by
  simp only [runParsed] at hrun
  split at hrun
  · simp at hrun
  · next st1 hstart =>
    split at hrun
    · simp at hrun
    · simp only [Except.ok.injEq] at hrun
      subst hrun
      exact ⟨st1, hstart, rfl, rfl⟩

/-- C13: in the value a run resolves with, `summary.totalFields` is the number of
keys of the parsed body, and `summary.properlyValidated + summary.notValidated`
is at most `summary.totalFields`; the two are in fact equal in every run that
resolves, since each turn of the loop over the fields increments one of the
two counters before anything in it can throw. -/
theorem summary_counts (w : World) (endpoint : String) (requestBody : RequestBody)
    (body : JSObject) (authToken : Option String) (method : Method)
    (progressCallback : Option Sink) (st : RunState) (rr : RunResult)
    (hbody : parseRequestBody w requestBody = .ok body)
    (hrun : (testEndpointValidation w endpoint requestBody authToken method progressCallback
      st).1 = .ok rr) :
    rr.summary.totalFields = (keys body).length ∧
    rr.summary.properlyValidated + rr.summary.notValidated ≤ rr.summary.totalFields ∧
    rr.summary.properlyValidated + rr.summary.notValidated = rr.summary.totalFields := by
  simp only [testEndpointValidation, hbody] at hrun
  obtain ⟨st1, _, hsum, _⟩ := runParsed_ok w endpoint body authToken method progressCallback
    st rr hrun
  obtain ⟨h1, _, h3⟩ := runFields_summary w endpoint body authToken method progressCallback
    (keys body)
    ⟨[], (runBaseline w endpoint body authToken method
      { totalFields := (keys body).length, properlyValidated := 0, notValidated := 0,
        errors := [], baseline := none } st1).1⟩
    (runBaseline w endpoint body authToken method
      { totalFields := (keys body).length, properlyValidated := 0, notValidated := 0,
        errors := [], baseline := none } st1).2
  obtain ⟨b1, b2, b3⟩ := runBaseline_summary w endpoint body authToken method
    { totalFields := (keys body).length, properlyValidated := 0, notValidated := 0,
      errors := [], baseline := none } st1
  rw [← hsum] at h1 h3
  simp only at h1 h3 b1 b2 b3
  rw [b1] at h1
  rw [b2, b3] at h3
  refine ⟨h1, ?_, ?_⟩ <;> omega

/-- A run over `profileBody`: two fields, two counted. -/
theorem summary_counts_witness :
    ∃ rr : RunResult,
      (testEndpointValidation (worldAlways 400 (.str "invalid")) "http://localhost/api"
        (.object profileBody) none (.str "POST") none RunState.initial).1 = .ok rr ∧
      rr.summary.totalFields = (keys profileBody).length ∧
      rr.summary.properlyValidated + rr.summary.notValidated ≤ rr.summary.totalFields ∧
      rr.summary.properlyValidated + rr.summary.notValidated = rr.summary.totalFields :=
  ⟨_, rfl, summary_counts (worldAlways 400 (.str "invalid")) "http://localhost/api"
    (.object profileBody) profileBody none (.str "POST") none RunState.initial _ rfl rfl⟩

/-! ## Errors of test cases, and one record per case (C14, C15) -/

/-- C14, as stated, fails: the probe of the `null` case completes with status
400, the callback throws on the `test-result` event, and the record of the
case has a non-null `error` (the message of the callback). -/
theorem error_recorded_for_completed_probe :
    (makeHttpRequest (worldAlways 400 (.str "invalid")) "http://localhost/api"
      (testBody ageBody "age" (some .null)) none (.str "POST") RunState.initial).1 =
      .completed (some 400) (.str "invalid") ∧
    (runTestCase (worldAlways 400 (.str "invalid")) "http://localhost/api" ageBody "age" none
      (.str "POST") (some sinkFailingOnTestResult) ⟨"null", some .null⟩
      RunState.initial).1.error = some "sink failed" :=
  ⟨rfl, rfl⟩

/-- C14, amended: the record of a test case has a non-null `error` exactly when
its probe was rejected, or its probe completed and the progress callback threw
on the `test-result` event of the case; and whenever `error` is non-null,
`handled` is false and `statusCode` and `response` are null. -/
theorem error_iff_probe_failed_or_sink_threw (w : World) (endpoint : String)
    (baseBody : JSObject) (fieldName : String) (authToken : Option String) (method : Method)
    (progressCallback : Option Sink) (testCase : TestCase) (st : RunState) :
    ((runTestCase w endpoint baseBody fieldName authToken method progressCallback testCase
        st).1.error ≠ none ↔
      (∃ message, (makeHttpRequest w endpoint (testBody baseBody fieldName testCase.value)
          authToken method st).1 = .transportError message) ∨
      (∃ statusCode responseBody,
        (makeHttpRequest w endpoint (testBody baseBody fieldName testCase.value)
          authToken method st).1 = .completed statusCode responseBody ∧
        (emit progressCallback (.testResult fieldName testCase.name testCase.value statusCode
          (eventHandled statusCode) (testBody baseBody fieldName testCase.value) responseBody)
          (makeHttpRequest w endpoint (testBody baseBody fieldName testCase.value)
            authToken method st).2).1 ≠ none)) ∧
    ((runTestCase w endpoint baseBody fieldName authToken method progressCallback testCase
        st).1.error ≠ none →
      (runTestCase w endpoint baseBody fieldName authToken method progressCallback testCase
        st).1.handled = false ∧
      (runTestCase w endpoint baseBody fieldName authToken method progressCallback testCase
        st).1.statusCode = none ∧
      (runTestCase w endpoint baseBody fieldName authToken method progressCallback testCase
        st).1.response = .null) := by
  simp only [runTestCase]
  rcases hprobe : makeHttpRequest w endpoint (testBody baseBody fieldName testCase.value)
    authToken method st with ⟨outcome, st1⟩
  cases outcome with
  | transportError message => simp [errorResult]
  | completed statusCode responseBody =>
    rcases hcall : emit progressCallback (.testResult fieldName testCase.name testCase.value
      statusCode (eventHandled statusCode) (testBody baseBody fieldName testCase.value)
      responseBody) st1 with ⟨thrown, st2⟩
    cases thrown with
    | none => simp [completedResult, hcall]
    | some message =>
      simp only [errorResult, hcall, ne_eq, reduceCtorEq, not_false_eq_true, false_or,
        ProbeOutcome.completed.injEq, true_iff, and_self, implies_true, and_true]
      exact Or.inr ⟨statusCode, responseBody, ⟨rfl, rfl⟩, by simp [hcall]⟩

/-- A record carries the name of its test case. -/
theorem runTestCase_testCase (w : World) (endpoint : String) (baseBody : JSObject)
    (fieldName : String) (authToken : Option String) (method : Method)
    (progressCallback : Option Sink) (testCase : TestCase) (st : RunState) :
    (runTestCase w endpoint baseBody fieldName authToken method progressCallback
      testCase st).1.testCase = testCase.name := by
  simp only [runTestCase]
  split
  · simp [errorResult]
  · split <;> simp [completedResult, errorResult]

/-- The records carry the names and values of the cases, in order. -/
theorem runTestCases_names_values (w : World) (endpoint : String) (baseBody : JSObject)
    (fieldName : String) (authToken : Option String) (method : Method)
    (progressCallback : Option Sink) (cases : List TestCase) (st : RunState) :
    (runTestCases w endpoint baseBody fieldName authToken method progressCallback
      cases st).1.map (fun r => (r.testCase, r.value)) =
      cases.map (fun testCase => (testCase.name, testCase.value)) := by
  induction cases generalizing st with
  | nil => simp [runTestCases]
  | cons testCase rest ih => simp [runTestCases, ih, runTestCase_value, runTestCase_testCase]

/-- C15: whatever the target and the callback do, the results of
`testFieldValidation` are one record per catalog case, in catalog order, each
with the name and the value of its case and the request body built for it.
When a request can be written (the endpoint is a URL, the method is a string,
and `client.request` accepts the method and the header) the requests sent are
exactly one per catalog case, in order, each with the body built for its case;
otherwise every probe is rejected before anything is written and nothing is
sent. -/
theorem one_result_per_catalog_case (w : World) (endpoint : String) (baseBody : JSObject)
    (fieldName : String) (originalValue : Option JSONValue) (authToken : Option String)
    (method : Method) (progressCallback : Option Sink) (st : RunState) :
    (testFieldValidation w endpoint baseBody fieldName originalValue authToken method
      progressCallback st).1.map (fun r => (r.testCase, r.value)) =
      (testCases originalValue).map (fun testCase => (testCase.name, testCase.value)) ∧
    (∀ r ∈ (testFieldValidation w endpoint baseBody fieldName originalValue authToken method
      progressCallback st).1, r.requestBody = testBody baseBody fieldName r.value) ∧
    (∀ m, method = .str m → canSend w endpoint authToken method = true →
      (testFieldValidation w endpoint baseBody fieldName originalValue authToken method
        progressCallback st).2.sent =
        st.sent ++ (testCases originalValue).map (fun testCase =>
          (⟨endpoint, requestMethod w m, authorizationHeader authToken,
            testBody baseBody fieldName testCase.value⟩ : Request))) ∧
    (canSend w endpoint authToken method = false →
      (testFieldValidation w endpoint baseBody fieldName originalValue authToken method
        progressCallback st).2.sent = st.sent) := by
  refine ⟨runTestCases_names_values w endpoint baseBody fieldName authToken method
    progressCallback _ st,
    runTestCases_requestBody w endpoint baseBody fieldName authToken method progressCallback
      _ st, ?_, ?_⟩
  · intro m hmethod hcan
    subst hmethod
    rw [testFieldValidation, runTestCases_sent_eq]
    simp [requestsSent, hcan]
  · intro hcan
    rw [testFieldValidation, runTestCases_sent_eq]
    cases method with
    | other typeError => simp [requestsSent]
    | str m => simp [requestsSent, hcan]

/-- The catalog of the field `age` against a target that always answers 400:
a request can be written, and fourteen are. -/
theorem one_result_per_catalog_case_sample :
    canSend (worldAlways 400 (.str "invalid")) "http://localhost/api" none (.str "POST") =
      true ∧
    (testFieldValidation (worldAlways 400 (.str "invalid")) "http://localhost/api" ageBody
      "age" (some (.num "30")) none (.str "POST") none RunState.initial).2.sent.length = 14 ∧
    (testFieldValidation (worldAlways 400 (.str "invalid")) "http://localhost/api" ageBody
      "age" (some (.num "30")) none (.str "POST") none RunState.initial).2.sent.map
        (fun request => request.method) = List.replicate 14 "POST" :=
  ⟨rfl, rfl, rfl⟩

/-! ## Where the progress events and the counters depart from the records (C16, C17, C19) -/

/-- C16 fails on the code: against a target that cannot be reached, a run over
`ageBody` with the callback of the host hands the callback no `test-result`
event of the field `age`, while the record of the field counts fourteen tests.
The `catch` branch of `testFieldValidation` records the case and emits
nothing. -/
theorem no_event_for_rejected_probe :
    (testEndpointValidation worldUnreachable "http://localhost/api" (.object ageBody) none
      (.str "POST") (some sendProgress) RunState.initial).2.events.countP
        (isTestResultOf "age") = 0 ∧
    ∃ (rr : RunResult) (report : FieldReport),
      (testEndpointValidation worldUnreachable "http://localhost/api" (.object ageBody) none
        (.str "POST") (some sendProgress) RunState.initial).1 = .ok rr ∧
      rr.fieldResults = [("age", FieldResult.full report)] ∧ report.totalTests = 14 :=
  ⟨rfl, _, _, rfl, rfl, rfl⟩

/-- C17 fails on the code: the target answers 400; the record of the `null` case
has `handled = true`, the `test-result` event of the same case carries
`handled = false`. -/
theorem event_flag_differs_from_record_flag :
    (runTestCase (worldAlways 400 (.str "invalid")) "http://localhost/api" ageBody "age" none
      (.str "POST") (some sendProgress) ⟨"null", some .null⟩ RunState.initial).1.handled
        = true ∧
    (runTestCase (worldAlways 400 (.str "invalid")) "http://localhost/api" ageBody "age" none
      (.str "POST") (some sendProgress) ⟨"null", some .null⟩ RunState.initial).2.events =
      [.testResult "age" "null" (some .null) (some 400) false [("age", .null)]
        (.str "invalid")] :=
  ⟨rfl, rfl⟩

/-- C19 fails on the code: the target answers 400 and the callback throws on the
`field-complete` event; the run resolves, the entry of `age` is the record of
the `catch` branch and the message is appended to `summary.errors`, but the
field has been counted in `summary.properlyValidated`. -/
theorem failed_field_is_counted :
    ∃ rr : RunResult,
      (testEndpointValidation (worldAlways 400 (.str "invalid")) "http://localhost/api"
        (.object ageBody) none (.str "POST") (some sinkFailingOnFieldComplete)
        RunState.initial).1 = .ok rr ∧
      rr.fieldResults = [("age", FieldResult.failed "sink failed")] ∧
      rr.summary.errors = ["Field age test failed: sink failed"] ∧
      rr.summary.totalFields = 1 ∧
      rr.summary.properlyValidated = 1 ∧ rr.summary.notValidated = 0 :=
  ⟨_, rfl, rfl, by decide, rfl, rfl, rfl⟩

/-- For a status code from 400 to 499 the flag computed at line 77 is `false`:
the text of the number holds no validation phrase. -/
theorem eventHandled_of_client_error (s : Int) (hlo : 400 ≤ s) (hhi : s < 500) :
    eventHandled (some s) = false := by
  interval_cases s <;> rfl

/-! ## A failed baseline (C18) -/

/-- A callback that never throws accepts every event. -/
theorem emit_of_neverThrows (progressCallback : Option Sink)
    (hsink : ∀ sink, progressCallback = some sink → ∀ n event, sink n event = none)
    (event : Event) (st : RunState) :
    (emit progressCallback event st).1 = none := by
  cases progressCallback with
  | none => rfl
  | some sink => simp [emit, callSink, hsink sink rfl]

/-- The outcome of a probe depends on the state only through the requests
already sent. -/
theorem makeHttpRequest_outcome_congr (w : World) (endpoint : String) (body : JSObject)
    (authToken : Option String) (method : Method) (st st1 : RunState)
    (h : st1.sent = st.sent) :
    (makeHttpRequest w endpoint body authToken method st1).1 =
      (makeHttpRequest w endpoint body authToken method st).1 := by
  simp only [makeHttpRequest]
  split
  · rfl
  · split
    · rfl
    · split
      · rfl
      · simp [h]

/-- Assigning to a name other than `__proto__` makes it readable. -/
theorem getProp_setProp_self_of_ne {α : Type} (o : List (String × α)) (f : String) (v : α)
    (h : f ≠ "__proto__") : getProp (setProp o f v) f = some v := by
  induction o with
  | nil => simp [setProp, getProp, h]
  | cons m rest ih =>
    obtain ⟨k1, v1⟩ := m
    by_cases hk : k1 = f <;> simp [setProp, getProp, hk, ih]

/-- One turn of the loop over the fields whose `field-complete` event is
accepted: the entry of the field is the full record, and no error is added. -/
theorem runField_of_accepted (w : World) (endpoint : String) (body : JSObject)
    (authToken : Option String) (method : Method) (progressCallback : Option Sink)
    (fieldName : String) (acc : Accumulator) (st : RunState)
    (haccept : (emit progressCallback
      (.fieldComplete fieldName
        (fieldReport (getProp body fieldName) (testFieldValidation w endpoint body fieldName
          (getProp body fieldName) authToken method progressCallback st).1).handledCount
        (fieldReport (getProp body fieldName) (testFieldValidation w endpoint body fieldName
          (getProp body fieldName) authToken method progressCallback st).1).totalTests
        (fieldReport (getProp body fieldName) (testFieldValidation w endpoint body fieldName
          (getProp body fieldName) authToken method progressCallback st).1).properlyValidated
        (.full (fieldReport (getProp body fieldName) (testFieldValidation w endpoint body
          fieldName (getProp body fieldName) authToken method progressCallback st).1)))
      (testFieldValidation w endpoint body fieldName (getProp body fieldName) authToken method
        progressCallback st).2).1 = none) :
    (runField w endpoint body authToken method progressCallback fieldName acc
      st).1.fieldResults =
      setProp acc.fieldResults fieldName (.full (fieldReport (getProp body fieldName)
        (testFieldValidation w endpoint body fieldName (getProp body fieldName) authToken
          method progressCallback st).1)) ∧
    (runField w endpoint body authToken method progressCallback fieldName acc
      st).1.summary.errors = acc.summary.errors := by
  simp only [runField]
  split
  · constructor
    · rfl
    · split <;> rfl
  · next message st2 hcall =>
    rw [hcall] at haccept
    simp at haccept

/-- With a callback that never throws, the loop over the fields adds no error,
and leaves a full record for every field it processes whose name is not
`__proto__`. -/
theorem runFields_of_neverThrows (w : World) (endpoint : String) (body : JSObject)
    (authToken : Option String) (method : Method) (progressCallback : Option Sink)
    (hsink : ∀ sink, progressCallback = some sink → ∀ n event, sink n event = none)
    (fields : List String) (acc : Accumulator) (st : RunState) :
    (runFields w endpoint body authToken method progressCallback fields acc
      st).1.summary.errors = acc.summary.errors ∧
    ∀ f, ((f ∈ fields ∧ f ≠ "__proto__") ∨
        ∃ st1, getProp acc.fieldResults f = some (.full (fieldReport (getProp body f)
          (testFieldValidation w endpoint body f (getProp body f) authToken method
            progressCallback st1).1))) →
      ∃ st1, getProp (runFields w endpoint body authToken method progressCallback fields acc
        st).1.fieldResults f = some (.full (fieldReport (getProp body f)
          (testFieldValidation w endpoint body f (getProp body f) authToken method
            progressCallback st1).1)) := by
  induction fields generalizing acc st with
  | nil =>
    refine ⟨rfl, ?_⟩
    intro f hf
    rcases hf with ⟨hmem, _⟩ | h
    · simp at hmem
    · exact h
  | cons g rest ih =>
    obtain ⟨hfr, herr⟩ := runField_of_accepted w endpoint body authToken method
      progressCallback g acc st (emit_of_neverThrows progressCallback hsink _ _)
    obtain ⟨ih1, ih2⟩ := ih
      (runField w endpoint body authToken method progressCallback g acc st).1
      (runField w endpoint body authToken method progressCallback g acc st).2
    simp only [runFields]
    refine ⟨ih1.trans herr, ?_⟩
    intro f hf
    apply ih2
    by_cases hfg : f = g
    · subst hfg
      rcases hf with ⟨_, hne⟩ | ⟨st1, h⟩
      · exact Or.inr ⟨st, by rw [hfr]; exact getProp_setProp_self_of_ne _ _ _ hne⟩
      · have hkey : f ∈ keys acc.fieldResults := by
          rw [mem_keys_iff_getProp, h]; simp
        exact Or.inr ⟨st, by rw [hfr]; exact getProp_setProp_self _ _ _ hkey⟩
    · rcases hf with ⟨hmem, hne⟩ | ⟨st1, h⟩
      · have hrest : f ∈ rest := by
          rcases List.mem_cons.1 hmem with h | h
          · exact absurd h hfg
          · exact h
        exact Or.inl ⟨hrest, hne⟩
      · exact Or.inr ⟨st1, by rw [hfr, getProp_setProp_ne _ _ _ _ hfg]; exact h⟩

/-- C18, as stated, fails: the baseline probe is rejected, the callback throws
on the `field-complete` event, and the field `age` gets the record of the
`catch` branch, not a full record. -/
theorem baseline_failure_and_failed_field :
    (makeHttpRequest worldUnreachable "http://localhost/api" ageBody none (.str "POST")
      RunState.initial).1 = .transportError "Connection refused - endpoint is not reachable" ∧
    ∃ rr : RunResult,
      (testEndpointValidation worldUnreachable "http://localhost/api" (.object ageBody) none
        (.str "POST") (some sinkFailingOnFieldComplete) RunState.initial).1 = .ok rr ∧
      getProp rr.fieldResults "age" = some (FieldResult.failed "sink failed") :=
  ⟨rfl, _, rfl, rfl⟩

/-- C18, amended: in a run with no progress callback or with one that never
throws, whose baseline probe is rejected with message `e`, the run resolves,
`summary.baseline` is `{statusCode: null, response: null, error: e}`,
`summary.errors` is exactly the one entry `Baseline test failed: e`, and every
key of the body other than `__proto__` has a full record in `fieldResults`,
for the value of the key in the body, whose test results are the whole
catalog in order. -/
theorem baseline_failure_does_not_abort (w : World) (endpoint : String)
    (requestBody : RequestBody) (body : JSObject) (authToken : Option String)
    (method : Method) (progressCallback : Option Sink) (st : RunState) (e : String)
    (hbody : parseRequestBody w requestBody = .ok body)
    (hsink : ∀ sink, progressCallback = some sink → ∀ n event, sink n event = none)
    (hbaseline : (makeHttpRequest w endpoint body authToken method st).1 = .transportError e) :
    ∃ rr : RunResult,
      (testEndpointValidation w endpoint requestBody authToken method progressCallback
        st).1 = .ok rr ∧
      rr.summary.baseline = some ⟨none, .null, some e⟩ ∧
      rr.summary.errors = ["Baseline test failed: " ++ e] ∧
      ∀ f ∈ keys body, f ≠ "__proto__" →
        ∃ report : FieldReport, getProp rr.fieldResults f = some (.full report) ∧
          report.originalValue = getProp body f ∧
          report.testResults.map (fun r => (r.testCase, r.value)) =
            (testCases (getProp body f)).map (fun testCase =>
              (testCase.name, testCase.value)) := by
  simp only [testEndpointValidation, hbody, runParsed]
  rcases hstart : emit progressCallback (.start endpoint (keys body).length) st
    with ⟨thrown, st1⟩
  have hthrown : thrown = none := by
    have := emit_of_neverThrows progressCallback hsink (.start endpoint (keys body).length) st
    rw [hstart] at this
    exact this
  subst hthrown
  have hsent : st1.sent = st.sent := emit_sent_of_eq hstart
  have hprobe : (makeHttpRequest w endpoint body authToken method st1).1 =
      .transportError e := by
    rw [makeHttpRequest_outcome_congr w endpoint body authToken method st st1 hsent]
    exact hbaseline
  simp only
  rcases hb : runBaseline w endpoint body authToken method
    { totalFields := (keys body).length, properlyValidated := 0, notValidated := 0,
      errors := [], baseline := none } st1 with ⟨summary1, st2⟩
  have hsummary1 : summary1.baseline = some ⟨none, .null, some e⟩ ∧
      summary1.errors = ["Baseline test failed: " ++ e] := by
    simp only [runBaseline] at hb
    rcases hm : makeHttpRequest w endpoint body authToken method st1 with ⟨outcome, st3⟩
    rw [hm] at hprobe hb
    simp only at hprobe
    subst hprobe
    simp only [Prod.mk.injEq] at hb
    obtain ⟨rfl, _⟩ := hb
    simp
  obtain ⟨herrors, hfull⟩ := runFields_of_neverThrows w endpoint body authToken method
    progressCallback hsink (keys body) ⟨[], summary1⟩ st2
  obtain ⟨_, hbase, _⟩ := runFields_summary w endpoint body authToken method progressCallback
    (keys body) ⟨[], summary1⟩ st2
  rcases hfin : emit progressCallback
    (.summary
      (runFields w endpoint body authToken method progressCallback (keys body)
        ⟨[], summary1⟩ st2).1.summary
      (runFields w endpoint body authToken method progressCallback (keys body)
        ⟨[], summary1⟩ st2).1.fieldResults)
    (runFields w endpoint body authToken method progressCallback (keys body)
      ⟨[], summary1⟩ st2).2 with ⟨thrown, st4⟩
  have hthrown : thrown = none := by
    have := emit_of_neverThrows progressCallback hsink
      (.summary
        (runFields w endpoint body authToken method progressCallback (keys body)
          ⟨[], summary1⟩ st2).1.summary
        (runFields w endpoint body authToken method progressCallback (keys body)
          ⟨[], summary1⟩ st2).1.fieldResults)
      (runFields w endpoint body authToken method progressCallback (keys body)
        ⟨[], summary1⟩ st2).2
    rw [hfin] at this
    exact this
  subst hthrown
  refine ⟨_, rfl, ?_, ?_, ?_⟩
  · exact hbase.trans hsummary1.1
  · exact herrors.trans hsummary1.2
  · intro f hf hne
    obtain ⟨st5, h⟩ := hfull f (Or.inl ⟨hf, hne⟩)
    refine ⟨_, h, rfl, ?_⟩
    exact runTestCases_names_values w endpoint body f authToken method progressCallback _ st5

/-- A run over `profileBody` against a target that cannot be reached, with the
callback of the host. -/
theorem baseline_failure_does_not_abort_witness :
    (makeHttpRequest worldUnreachable "http://localhost/api" profileBody none (.str "POST")
      RunState.initial).1 = .transportError "Connection refused - endpoint is not reachable" ∧
    ∃ rr : RunResult,
      (testEndpointValidation worldUnreachable "http://localhost/api" (.object profileBody)
        none (.str "POST") (some sendProgress) RunState.initial).1 = .ok rr ∧
      rr.summary.baseline =
        some ⟨none, .null, some "Connection refused - endpoint is not reachable"⟩ ∧
      rr.summary.errors =
        ["Baseline test failed: " ++ "Connection refused - endpoint is not reachable"] ∧
      ∀ f ∈ keys profileBody, f ≠ "__proto__" →
        ∃ report : FieldReport, getProp rr.fieldResults f = some (.full report) ∧
          report.originalValue = getProp profileBody f ∧
          report.testResults.map (fun r => (r.testCase, r.value)) =
            (testCases (getProp profileBody f)).map (fun testCase =>
              (testCase.name, testCase.value)) :=
  ⟨rfl, baseline_failure_does_not_abort worldUnreachable "http://localhost/api"
    (.object profileBody) profileBody none (.str "POST") (some sendProgress) RunState.initial
    "Connection refused - endpoint is not reachable" rfl
    (fun sink h n event => by cases h; rfl) rfl⟩

/-! ## A body that is not JSON (C20) -/

/-- C20: when the body is a text that `JSON.parse` rejects, the run fails with
the message of the parse error and leaves the world as it was: no event has
been handed to the callback and no request sent.  The streaming branch of the
host then writes exactly one `error` event with that message, and no
`complete` event. -/
theorem invalid_json_fails_before_any_event (w : World) (endpoint : String) (s : String)
    (authToken : Option String) (method : Method) (progressCallback : Option Sink)
    (st : RunState) (message : String) (hparse : w.jsonParse s = .error message) :
    testEndpointValidation w endpoint (.text s) authToken method progressCallback st =
      (.error message, st) ∧
    streamTestValidation w endpoint (.text s) authToken method = [.error message] ∧
    (endpoint ≠ "" → s ≠ "" →
      handleTestValidation w endpoint (.text s) authToken method true =
        .stream [.error message]) := by
  have hrun : ∀ (cb : Option Sink) (st : RunState),
      testEndpointValidation w endpoint (.text s) authToken method cb st =
        (.error message, st) := by
    intro cb st
    simp [testEndpointValidation, parseRequestBody, hparse]
  have hstream : streamTestValidation w endpoint (.text s) authToken method =
      [.error message] := by
    simp [streamTestValidation, hrun, RunState.initial]
  refine ⟨hrun _ _, hstream, ?_⟩
  intro hendpoint hs
  simp [handleTestValidation, requestBodyMissing, hendpoint, hs, hstream]

/-- The text `[1,` is not JSON. -/
theorem invalid_json_fails_before_any_event_witness :
    worldUnreachable.jsonParse "[1," = .error "Unexpected end of JSON input" ∧
    testEndpointValidation worldUnreachable "http://localhost/api" (.text "[1,") none
      (.str "POST") (some sendProgress) RunState.initial =
      (.error "Unexpected end of JSON input", RunState.initial) ∧
    streamTestValidation worldUnreachable "http://localhost/api" (.text "[1,") none
      (.str "POST") = [.error "Unexpected end of JSON input"] :=
  ⟨rfl,
   (invalid_json_fails_before_any_event worldUnreachable "http://localhost/api" "[1,"
    none (.str "POST") (some sendProgress) RunState.initial "Unexpected end of JSON input"
    rfl).1,
   (invalid_json_fails_before_any_event worldUnreachable "http://localhost/api" "[1,"
    none (.str "POST") (some sendProgress) RunState.initial "Unexpected end of JSON input"
    rfl).2.1⟩

/-! ## The threshold on doubles -/

/-- The comparison of line 345 is made on doubles.  For every rounding of the
quotient and of the literal `0.7` that is monotone and has a relative error of
at most `2 ^ -53`, as rounding to the nearest double has, and every count of
tests below `2 ^ 32`, the rounded comparison and the exact one agree. -/
theorem isProperlyValidated_eq_rounded (fl : ℚ → ℚ) (hmono : Monotone fl)
    (herr : ∀ x : ℚ, 0 ≤ x → |fl x - x| ≤ x / 2 ^ 53) (handledCount totalTests : ℕ)
    (hpos : 0 < totalTests) (hsmall : totalTests ≤ 2 ^ 32) :
    isProperlyValidated handledCount totalTests = true ↔
      fl ((handledCount : ℚ) / (totalTests : ℚ)) > fl (7 / 10) := by
  have htq : (0 : ℚ) < (totalTests : ℚ) := by exact_mod_cast hpos
  have hts : (totalTests : ℚ) ≤ 4294967296 := by exact_mod_cast hsmall
  rw [isProperlyValidated, decide_eq_true_iff]
  constructor
  · intro h
    have h1 : 7 * totalTests + 1 ≤ 10 * handledCount := h
    have h2 : (7 : ℚ) * (totalTests : ℚ) + 1 ≤ 10 * (handledCount : ℚ) := by exact_mod_cast h1
    have hx : (7 / 10 + 1 / (10 * 2 ^ 32) : ℚ) ≤ (handledCount : ℚ) / (totalTests : ℚ) := by
      rw [le_div_iff₀ htq]
      norm_num
      linarith
    have hx0 : (0 : ℚ) ≤ (handledCount : ℚ) / (totalTests : ℚ) := by positivity
    have e1 := (abs_le.1 (herr _ hx0)).1
    have e2 := (abs_le.1 (herr (7 / 10) (by norm_num))).2
    have hgap : (7 / 10 : ℚ) + 7 / 10 / 2 ^ 53 <
        (7 / 10 + 1 / (10 * 2 ^ 32)) - (7 / 10 + 1 / (10 * 2 ^ 32)) / 2 ^ 53 := by norm_num
    have hmul : ((7 / 10 + 1 / (10 * 2 ^ 32)) - (7 / 10 + 1 / (10 * 2 ^ 32)) / 2 ^ 53 : ℚ) ≤
        (handledCount : ℚ) / (totalTests : ℚ) -
          (handledCount : ℚ) / (totalTests : ℚ) / 2 ^ 53 := by
      have hc : (0 : ℚ) ≤ 1 - 1 / 2 ^ 53 := by norm_num
      nlinarith [mul_le_mul_of_nonneg_right hx hc]
    linarith
  · intro h
    by_contra hnot
    have h1 : 10 * handledCount ≤ 7 * totalTests := Nat.le_of_not_lt hnot
    have h2 : (10 : ℚ) * (handledCount : ℚ) ≤ 7 * (totalTests : ℚ) := by exact_mod_cast h1
    have hx : (handledCount : ℚ) / (totalTests : ℚ) ≤ 7 / 10 := by
      rw [div_le_iff₀ htq]
      linarith
    exact absurd h (not_lt.2 (hmono hx))

/-! ## The threshold as a whole-number cutoff (C26) -/

/-- The number of test cases of a field is 12, 14 or 15. -/
theorem testCases_length_cases (originalValue : Option JSONValue) :
    (testCases originalValue).length = 12 ∨ (testCases originalValue).length = 14 ∨
      (testCases originalValue).length = 15 := by
  rcases originalValue with _ | v
  · exact Or.inl rfl
  · cases v
    · exact Or.inl rfl
    · exact Or.inr (Or.inr rfl)
    · exact Or.inr (Or.inl rfl)
    · exact Or.inr (Or.inl rfl)
    · exact Or.inl rfl
    · exact Or.inl rfl

/-- C26: in the value a run resolves with, every full field record has 12, 14
or 15 tests, so `totalTests` is positive; its ratio `handledCount / totalTests`
is never exactly 0.7; and `properlyValidated` holds exactly from 9 handled
cases of 12, from 10 of 14, and from 11 of 15. -/
theorem threshold_is_integer_cutoff (w : World) (endpoint : String)
    (requestBody : RequestBody) (authToken : Option String) (method : Method)
    (progressCallback : Option Sink) (st : RunState) (rr : RunResult) (fieldName : String)
    (report : FieldReport)
    (hrun : (testEndpointValidation w endpoint requestBody authToken method progressCallback
      st).1 = .ok rr)
    (hentry : (fieldName, FieldResult.full report) ∈ rr.fieldResults) :
    (report.totalTests = 12 ∨ report.totalTests = 14 ∨ report.totalTests = 15) ∧
    (report.handledCount : ℚ) / (report.totalTests : ℚ) ≠ 7 / 10 ∧
    (report.totalTests = 12 → (report.properlyValidated = true ↔ 9 ≤ report.handledCount)) ∧
    (report.totalTests = 14 → (report.properlyValidated = true ↔ 10 ≤ report.handledCount)) ∧
    (report.totalTests = 15 → (report.properlyValidated = true ↔ 11 ≤ report.handledCount)) ∧
    12 ≤ report.totalTests ∧ 0 < report.totalTests := by
  obtain ⟨body, st1, _, _, rfl⟩ := full_entry_of_run w endpoint requestBody authToken method
    progressCallback st rr fieldName report hrun hentry
  have htotal : (fieldReport (getProp body fieldName)
      (testFieldValidation w endpoint body fieldName (getProp body fieldName) authToken
        method progressCallback st1).1).totalTests =
      (testCases (getProp body fieldName)).length := by
    show (testFieldValidation w endpoint body fieldName (getProp body fieldName) authToken
        method progressCallback st1).1.length = _
    rw [testFieldValidation, runTestCases_length]
  have hpv : (fieldReport (getProp body fieldName)
      (testFieldValidation w endpoint body fieldName (getProp body fieldName) authToken
        method progressCallback st1).1).properlyValidated =
      isProperlyValidated
        (fieldReport (getProp body fieldName)
          (testFieldValidation w endpoint body fieldName (getProp body fieldName) authToken
            method progressCallback st1).1).handledCount
        (fieldReport (getProp body fieldName)
          (testFieldValidation w endpoint body fieldName (getProp body fieldName) authToken
            method progressCallback st1).1).totalTests := rfl
  have hcases := testCases_length_cases (getProp body fieldName)
  rw [← htotal] at hcases
  generalize fieldReport (getProp body fieldName)
      (testFieldValidation w endpoint body fieldName (getProp body fieldName) authToken
        method progressCallback st1).1 = rep at hcases hpv
  have hnat : rep.properlyValidated = true ↔ 10 * rep.handledCount > 7 * rep.totalTests := by
    rw [hpv, isProperlyValidated, decide_eq_true_iff]
  have hpos : 0 < rep.totalTests := by omega
  have hq : (rep.totalTests : ℚ) ≠ 0 := by exact_mod_cast hpos.ne'
  refine ⟨hcases, ?_, ?_, ?_, ?_, by omega, hpos⟩
  · intro heq
    rw [div_eq_div_iff hq (by norm_num)] at heq
    have h2 : rep.handledCount * 10 = 7 * rep.totalTests := by exact_mod_cast heq
    omega
  · intro h; rw [hnat]; omega
  · intro h; rw [hnat]; omega
  · intro h; rw [hnat]; omega

/-- The cutoff of a number field, at the run against a target that always
answers 400. -/
theorem threshold_is_integer_cutoff_witness :
    ∃ rr report,
      (testEndpointValidation (worldAlways 400 (.obj [("error", .str "invalid age")])) "http://target/api"
        (.object ageBody) none (.str "POST") none RunState.initial).1 = .ok rr ∧
      ("age", FieldResult.full report) ∈ rr.fieldResults ∧
      report.totalTests = 14 ∧ (report.properlyValidated = true ↔ 10 ≤ report.handledCount) :=
  ⟨_, _, rfl, List.mem_cons_self _ _, rfl,
    (threshold_is_integer_cutoff (worldAlways 400 (.obj [("error", .str "invalid age")]))
      "http://target/api" (.object ageBody) none (.str "POST") none RunState.initial _ "age" _ rfl
      (List.mem_cons_self _ _)).2.2.2.1 rfl⟩

/-! ## Names of the test cases (C27) -/

/-- The names of the catalog of a field whose original value is a boolean. -/
theorem testCases_names_of_boolean (originalValue : Option JSONValue)
    (h : typeofJS originalValue = "boolean") :
    (testCases originalValue).map (fun tc => tc.name) =
      ["null", "undefined", "empty string", "number (0)", "number (negative)", "number (large)",
        "boolean (true)", "boolean (false)", "array", "object", "string (special chars)",
        "string (very long)", "string", "number (1)", "number (0)"] := by
  simp [testCases, typeSpecificTestCases, h, baseTestCases]

/-- The names of the catalog of a string field are pairwise distinct. -/
theorem testCases_names_nodup_str (s : String) :
    ((testCases (some (.str s))).map (fun tc => tc.name)).Nodup := by
  have h : (testCases (some (.str s))).map (fun tc => tc.name) =
      ["null", "undefined", "empty string", "number (0)", "number (negative)", "number (large)",
        "boolean (true)", "boolean (false)", "array", "object", "string (special chars)",
        "string (very long)", "number as string", "boolean as string"] := rfl
  rw [h]; decide

/-- The names of the catalog of a number field are pairwise distinct. -/
theorem testCases_names_nodup_num (t : String) :
    ((testCases (some (.num t))).map (fun tc => tc.name)).Nodup := by
  have h : (testCases (some (.num t))).map (fun tc => tc.name) =
      ["null", "undefined", "empty string", "number (0)", "number (negative)", "number (large)",
        "boolean (true)", "boolean (false)", "array", "object", "string (special chars)",
        "string (very long)", "string", "float"] := rfl
  rw [h]; decide

/-- The names of the catalog of a field with no type-specific cases are
pairwise distinct. -/
theorem testCases_names_nodup_object (originalValue : Option JSONValue)
    (hs : typeofJS originalValue ≠ "string") (hn : typeofJS originalValue ≠ "number")
    (hb : typeofJS originalValue ≠ "boolean") :
    ((testCases originalValue).map (fun tc => tc.name)).Nodup := by
  have h : (testCases originalValue).map (fun tc => tc.name) =
      ["null", "undefined", "empty string", "number (0)", "number (negative)", "number (large)",
        "boolean (true)", "boolean (false)", "array", "object", "string (special chars)",
        "string (very long)"] := by
    simp [testCases, typeSpecificTestCases, hs, hn, hb, baseTestCases]
  rw [h]; decide

/-- C27: the names of the test cases of a field are pairwise distinct unless
the original value is a boolean; for a boolean the name `number (0)` occurs
exactly twice, at the fourth literal case and at the last pushed case, both
with the value 0, and every other name occurs once; and a client that keeps one
row per test-case name and status code holds 14 rows for the 15 results of a
boolean field whose probes all return the same status. -/
theorem test_case_names_distinct_unless_boolean (originalValue : Option JSONValue) :
    (typeofJS originalValue ≠ "boolean" →
      ((testCases originalValue).map (fun tc => tc.name)).Nodup) ∧
    (typeofJS originalValue = "boolean" →
      (testCases originalValue).length = 15 ∧
      ((testCases originalValue).map (fun tc => tc.name)).count "number (0)" = 2 ∧
      (∀ name ∈ (testCases originalValue).map (fun tc => tc.name), name ≠ "number (0)" →
        ((testCases originalValue).map (fun tc => tc.name)).count name = 1) ∧
      (testCases originalValue)[3]? = some ⟨"number (0)", some (.num "0")⟩ ∧
      (testCases originalValue)[14]? = some ⟨"number (0)", some (.num "0")⟩) ∧
    ((streamTestValidation (worldAlways 400 (.obj [("error", .str "invalid")]))
        "http://localhost/api" (.object activeBody) none (.str "POST")).countP
          (isTestResultOf "active") = 15 ∧
      (clientTestResults "active"
        (streamTestValidation (worldAlways 400 (.obj [("error", .str "invalid")]))
          "http://localhost/api" (.object activeBody) none (.str "POST"))).length = 14) := by
  refine ⟨?_, ?_, ?_⟩
  · intro h
    rcases originalValue with _ | v
    · decide
    · cases v
      · decide
      · exact absurd rfl h
      · exact testCases_names_nodup_num _
      · exact testCases_names_nodup_str _
      · exact testCases_names_nodup_object _ (by simp [typeofJS]) (by simp [typeofJS]) (by simp [typeofJS])
      · exact testCases_names_nodup_object _ (by simp [typeofJS]) (by simp [typeofJS]) (by simp [typeofJS])
  · intro h
    have hnames := testCases_names_of_boolean originalValue h
    have hcases : testCases originalValue = baseTestCases ++
        [⟨"string", some (.str "test")⟩, ⟨"number (1)", some (.num "1")⟩,
          ⟨"number (0)", some (.num "0")⟩] := by
      simp [testCases, typeSpecificTestCases, h]
    rw [hnames]
    refine ⟨by rw [hcases]; rfl, by decide, by decide, by rw [hcases]; rfl, by rw [hcases]; rfl⟩
  · constructor
    · rfl
    · rfl

/-! ## The order of the events in the stream (C21) -/

/-- A probe hands no event to the callback. -/
theorem makeHttpRequest_events (w : World) (endpoint : String) (body : JSObject)
    (authToken : Option String) (method : Method) (st : RunState) :
    (makeHttpRequest w endpoint body authToken method st).2.events = st.events := by
  simp only [makeHttpRequest]
  split
  · rfl
  · split
    · rfl
    · split <;> rfl

/-- One turn of the loop over the test cases hands the callback at most one
event, a `test-result` event of the field and the case. -/
theorem runTestCase_events (w : World) (endpoint : String) (baseBody : JSObject)
    (fieldName : String) (authToken : Option String) (method : Method) (sink : Sink)
    (testCase : TestCase) (st : RunState) :
    ∃ results : List Event,
      (runTestCase w endpoint baseBody fieldName authToken method (some sink) testCase
        st).2.events = st.events ++ results ∧
      (∀ event ∈ results, isTestResultOf fieldName event = true) ∧
      (results.filterMap testCaseOfEvent).Sublist [(testCase.name, testCase.value)] := by
  have hev := makeHttpRequest_events w endpoint (testBody baseBody fieldName testCase.value)
    authToken method st
  simp only [runTestCase]
  split
  · next message st1 heq =>
    rw [heq] at hev
    exact ⟨[], by simpa using hev, by simp, by simp⟩
  · next statusCode responseBody st1 heq =>
    rw [heq] at hev
    simp only at hev
    refine ⟨[.testResult fieldName testCase.name testCase.value statusCode
      (eventHandled statusCode) (testBody baseBody fieldName testCase.value) responseBody],
      ?_, by simp [isTestResultOf], by simp [testCaseOfEvent]⟩
    split <;> next hcall =>
      simp only [emit, callSink, Prod.mk.injEq] at hcall
      rw [← hcall.2, ← hev]

/-- The loop over the test cases hands the callback `test-result` events of the
field only, for cases of the list in the order of the list. -/
theorem runTestCases_events (w : World) (endpoint : String) (baseBody : JSObject)
    (fieldName : String) (authToken : Option String) (method : Method) (sink : Sink)
    (cases : List TestCase) (st : RunState) :
    ∃ results : List Event,
      (runTestCases w endpoint baseBody fieldName authToken method (some sink) cases
        st).2.events = st.events ++ results ∧
      (∀ event ∈ results, isTestResultOf fieldName event = true) ∧
      (results.filterMap testCaseOfEvent).Sublist
        (cases.map (fun testCase => (testCase.name, testCase.value))) := by
  induction cases generalizing st with
  | nil => exact ⟨[], by simp [runTestCases], by simp, by simp⟩
  | cons testCase rest ih =>
    obtain ⟨first, h1, h2, h3⟩ := runTestCase_events w endpoint baseBody fieldName authToken
      method sink testCase st
    obtain ⟨others, h4, h5, h6⟩ := ih (runTestCase w endpoint baseBody fieldName authToken
      method (some sink) testCase st).2
    refine ⟨first ++ others, ?_, ?_, ?_⟩
    · simp only [runTestCases]
      rw [h4, h1, List.append_assoc]
    · intro event hmem
      rcases List.mem_append.1 hmem with h | h
      · exact h2 event h
      · exact h5 event h
    · rw [List.filterMap_append]
      exact List.Sublist.append h3 h6

/-- One turn of the loop over the fields hands the callback the `test-result`
events of the field, then one `field-complete` event of the field. -/
theorem runField_events (w : World) (endpoint : String) (body : JSObject)
    (authToken : Option String) (method : Method) (sink : Sink) (fieldName : String)
    (acc : Accumulator) (st : RunState) :
    ∃ block : List Event,
      (runField w endpoint body authToken method (some sink) fieldName acc st).2.events =
        st.events ++ block ∧
      ∃ results handledCount totalTests properlyValidated fieldResult,
        block = results ++
          [.fieldComplete fieldName handledCount totalTests properlyValidated fieldResult] ∧
        (∀ event ∈ results, isTestResultOf fieldName event = true) ∧
        (results.filterMap testCaseOfEvent).Sublist
          ((testCases (getProp body fieldName)).map
            (fun testCase => (testCase.name, testCase.value))) := by
  obtain ⟨results, h1, h2, h3⟩ := runTestCases_events w endpoint body fieldName authToken
    method sink (testCases (getProp body fieldName)) st
  refine ⟨results ++ [.fieldComplete fieldName
      (fieldReport (getProp body fieldName) (testFieldValidation w endpoint body fieldName
        (getProp body fieldName) authToken method (some sink) st).1).handledCount
      (fieldReport (getProp body fieldName) (testFieldValidation w endpoint body fieldName
        (getProp body fieldName) authToken method (some sink) st).1).totalTests
      (fieldReport (getProp body fieldName) (testFieldValidation w endpoint body fieldName
        (getProp body fieldName) authToken method (some sink) st).1).properlyValidated
      (.full (fieldReport (getProp body fieldName) (testFieldValidation w endpoint body
        fieldName (getProp body fieldName) authToken method (some sink) st).1))],
    ?_, results, _, _, _, _, rfl, h2, h3⟩
  simp only [runField]
  split <;> next hcall =>
    simp only [emit, callSink, Prod.mk.injEq] at hcall
    rw [← hcall.2]
    simp only [testFieldValidation, h1, List.append_assoc]

/-- The loop over the fields hands the callback one block of events for each
field, in the order of the fields. -/
theorem runFields_events (w : World) (endpoint : String) (body : JSObject)
    (authToken : Option String) (method : Method) (sink : Sink) (fields : List String)
    (acc : Accumulator) (st : RunState) :
    ∃ blocks : List (List Event),
      (runFields w endpoint body authToken method (some sink) fields acc st).2.events =
        st.events ++ blocks.flatten ∧
      List.Forall₂
        (fun fieldName block =>
          ∃ results handledCount totalTests properlyValidated fieldResult,
            block = results ++
              [.fieldComplete fieldName handledCount totalTests properlyValidated
                fieldResult] ∧
            (∀ event ∈ results, isTestResultOf fieldName event = true) ∧
            (results.filterMap testCaseOfEvent).Sublist
              ((testCases (getProp body fieldName)).map
                (fun testCase => (testCase.name, testCase.value))))
        fields blocks := by
  induction fields generalizing acc st with
  | nil => exact ⟨[], by simp [runFields], List.Forall₂.nil⟩
  | cons fieldName rest ih =>
    obtain ⟨block, h1, h2⟩ := runField_events w endpoint body authToken method sink fieldName
      acc st
    obtain ⟨blocks, h3, h4⟩ := ih
      (runField w endpoint body authToken method (some sink) fieldName acc st).1
      (runField w endpoint body authToken method (some sink) fieldName acc st).2
    refine ⟨block :: blocks, ?_, List.Forall₂.cons h2 h4⟩
    simp only [runFields]
    rw [h3, h1, List.flatten_cons, List.append_assoc]

/-- The baseline probe hands no event to the callback. -/
theorem runBaseline_events (w : World) (endpoint : String) (body : JSObject)
    (authToken : Option String) (method : Method) (summary : Summary) (st : RunState) :
    (runBaseline w endpoint body authToken method summary st).2.events = st.events := by
  have hev := makeHttpRequest_events w endpoint body authToken method st
  simp only [runBaseline]
  split <;> next heq => rw [heq] at hev; exact hev

/-- The events of a run over a parsed body whose callback never throws: `start`,
one block for each key of the body, `summary` with the accumulators the run
resolves with. -/
theorem runParsed_events (w : World) (endpoint : String) (body : JSObject)
    (authToken : Option String) (method : Method) (sink : Sink)
    (hsink : ∀ n event, sink n event = none) (st : RunState) :
    ∃ (blocks : List (List Event)) (rr : RunResult),
      (runParsed w endpoint body authToken method (some sink) st).1 = .ok rr ∧
      (runParsed w endpoint body authToken method (some sink) st).2.events =
        st.events ++ .start endpoint (keys body).length ::
          (blocks.flatten ++ [.summary rr.summary rr.fieldResults]) ∧
      List.Forall₂
        (fun fieldName block =>
          ∃ results handledCount totalTests properlyValidated fieldResult,
            block = results ++
              [.fieldComplete fieldName handledCount totalTests properlyValidated
                fieldResult] ∧
            (∀ event ∈ results, isTestResultOf fieldName event = true) ∧
            (results.filterMap testCaseOfEvent).Sublist
              ((testCases (getProp body fieldName)).map
                (fun testCase => (testCase.name, testCase.value))))
        (keys body) blocks := by
  obtain ⟨blocks, h1, h2⟩ := runFields_events w endpoint body authToken method sink (keys body)
    ⟨[], (runBaseline w endpoint body authToken method
      { totalFields := (keys body).length, properlyValidated := 0, notValidated := 0,
        errors := [], baseline := none }
      { st with events := st.events ++ [.start endpoint (keys body).length] }).1⟩
    (runBaseline w endpoint body authToken method
      { totalFields := (keys body).length, properlyValidated := 0, notValidated := 0,
        errors := [], baseline := none }
      { st with events := st.events ++ [.start endpoint (keys body).length] }).2
  rw [runBaseline_events] at h1
  refine ⟨blocks,
    { endpoint := endpoint,
      summary := (runFields w endpoint body authToken method (some sink) (keys body)
        ⟨[], (runBaseline w endpoint body authToken method
          { totalFields := (keys body).length, properlyValidated := 0, notValidated := 0,
            errors := [], baseline := none }
          { st with events := st.events ++ [.start endpoint (keys body).length] }).1⟩
        (runBaseline w endpoint body authToken method
          { totalFields := (keys body).length, properlyValidated := 0, notValidated := 0,
            errors := [], baseline := none }
          { st with events := st.events ++ [.start endpoint (keys body).length] }).2).1.summary,
      fieldResults := (runFields w endpoint body authToken method (some sink) (keys body)
        ⟨[], (runBaseline w endpoint body authToken method
          { totalFields := (keys body).length, properlyValidated := 0, notValidated := 0,
            errors := [], baseline := none }
          { st with events := st.events ++ [.start endpoint (keys body).length] }).1⟩
        (runBaseline w endpoint body authToken method
          { totalFields := (keys body).length, properlyValidated := 0, notValidated := 0,
            errors := [], baseline := none }
          { st with events := st.events ++ [.start endpoint (keys body).length] }).2).1.fieldResults,
      timestamp := w.timestamp }, ?_, ?_, h2⟩
  · simp only [runParsed, emit, callSink, hsink]
  · simp only [runParsed, emit, callSink, hsink, h1]
    simp

/-- C21: the stream of the standalone host for a body that parses to an object
is exactly one `start` event carrying the number of keys; then one block for
each key of the body, in key order, made of `test-result` events that all carry
the name of the key and report cases of its catalog in catalog order, followed
by one `field-complete` event of the key; then one `summary`, one
`final-summary` with the same content, and one `complete`. -/
theorem stream_is_start_blocks_summary_complete (w : World) (endpoint : String)
    (requestBody : RequestBody) (authToken : Option String) (method : Method)
    (body : JSObject) (hbody : parseRequestBody w requestBody = .ok body) :
    ∃ (blocks : List (List Event)) (rr : RunResult),
      (testEndpointValidation w endpoint requestBody authToken method (some sendProgress)
        RunState.initial).1 = .ok rr ∧
      streamTestValidation w endpoint requestBody authToken method =
        .start endpoint (keys body).length ::
          (blocks.flatten ++ [.summary rr.summary rr.fieldResults,
            .finalSummary rr.summary rr.fieldResults, .complete]) ∧
      List.Forall₂
        (fun fieldName block =>
          ∃ results handledCount totalTests properlyValidated fieldResult,
            block = results ++
              [.fieldComplete fieldName handledCount totalTests properlyValidated
                fieldResult] ∧
            (∀ event ∈ results, isTestResultOf fieldName event = true) ∧
            (results.filterMap testCaseOfEvent).Sublist
              ((testCases (getProp body fieldName)).map
                (fun testCase => (testCase.name, testCase.value))))
        (keys body) blocks := by
  obtain ⟨blocks, rr, h1, h2, h3⟩ := runParsed_events w endpoint body authToken method
    sendProgress (fun _ _ => rfl) RunState.initial
  have hrun : testEndpointValidation w endpoint requestBody authToken method
      (some sendProgress) RunState.initial =
      runParsed w endpoint body authToken method (some sendProgress) RunState.initial := by
    simp only [testEndpointValidation, hbody]
  refine ⟨blocks, rr, by rw [hrun]; exact h1, ?_, h3⟩
  simp only [streamTestValidation, hrun]
  rcases hp : runParsed w endpoint body authToken method (some sendProgress)
    RunState.initial with ⟨result, st1⟩
  rw [hp] at h1 h2
  simp only at h1 h2
  subst h1
  simp only [h2, RunState.initial, List.nil_append, List.cons_append, List.append_assoc,
    List.singleton_append]

/-- The stream of the run over the body with the one field `age` against a
target that always answers 400. -/
theorem stream_is_start_blocks_summary_complete_witness :
    parseRequestBody (worldAlways 400 (.obj [("error", .str "invalid age")]))
      (.object ageBody) = .ok ageBody ∧
    ∃ (blocks : List (List Event)) (rr : RunResult),
      (testEndpointValidation (worldAlways 400 (.obj [("error", .str "invalid age")]))
        "http://localhost/api" (.object ageBody) none (.str "POST") (some sendProgress)
        RunState.initial).1 = .ok rr ∧
      streamTestValidation (worldAlways 400 (.obj [("error", .str "invalid age")]))
        "http://localhost/api" (.object ageBody) none (.str "POST") =
        .start "http://localhost/api" (keys ageBody).length ::
          (blocks.flatten ++ [.summary rr.summary rr.fieldResults,
            .finalSummary rr.summary rr.fieldResults, .complete]) ∧
      List.Forall₂
        (fun fieldName block =>
          ∃ results handledCount totalTests properlyValidated fieldResult,
            block = results ++
              [.fieldComplete fieldName handledCount totalTests properlyValidated
                fieldResult] ∧
            (∀ event ∈ results, isTestResultOf fieldName event = true) ∧
            (results.filterMap testCaseOfEvent).Sublist
              ((testCases (getProp ageBody fieldName)).map
                (fun testCase => (testCase.name, testCase.value))))
        (keys ageBody) blocks :=
  ⟨rfl, stream_is_start_blocks_summary_complete
    (worldAlways 400 (.obj [("error", .str "invalid age")])) "http://localhost/api"
    (.object ageBody) none (.str "POST") ageBody rfl⟩

/-! ## A callback that never throws does not change the result (C22) -/

/-- The record of one test case does not depend on which callback is given, as
long as none of them throws, nor on the events already handed out. -/
theorem runTestCase_result_congr (w : World) (endpoint : String) (baseBody : JSObject)
    (fieldName : String) (authToken : Option String) (method : Method)
    (callback1 callback2 : Option Sink)
    (h1 : ∀ sink, callback1 = some sink → ∀ n event, sink n event = none)
    (h2 : ∀ sink, callback2 = some sink → ∀ n event, sink n event = none)
    (testCase : TestCase) (st1 st2 : RunState) (hsent : st1.sent = st2.sent) :
    (runTestCase w endpoint baseBody fieldName authToken method callback1 testCase st1).1 =
      (runTestCase w endpoint baseBody fieldName authToken method callback2 testCase st2).1 := by
  have hout := makeHttpRequest_outcome_congr w endpoint
    (testBody baseBody fieldName testCase.value) authToken method st2 st1 hsent
  rcases hm1 : makeHttpRequest w endpoint (testBody baseBody fieldName testCase.value)
    authToken method st1 with ⟨outcome1, s1⟩
  rcases hm2 : makeHttpRequest w endpoint (testBody baseBody fieldName testCase.value)
    authToken method st2 with ⟨outcome2, s2⟩
  rw [hm1, hm2] at hout
  simp only at hout
  subst hout
  cases outcome1 with
  | transportError message =>
    rw [runTestCase_of_transportError _ _ _ _ _ _ _ _ _ _ _ hm1,
      runTestCase_of_transportError _ _ _ _ _ _ _ _ _ _ _ hm2]
  | completed statusCode responseBody =>
    rw [runTestCase_of_completed _ _ _ _ _ _ _ _ _ _ _ _ hm1,
      runTestCase_of_completed _ _ _ _ _ _ _ _ _ _ _ _ hm2,
      emit_of_neverThrows callback1 h1, emit_of_neverThrows callback2 h2]

/-- The records of a field do not depend on which callback is given, as long
as none of them throws. -/
theorem runTestCases_result_congr (w : World) (endpoint : String) (baseBody : JSObject)
    (fieldName : String) (authToken : Option String) (method : Method)
    (callback1 callback2 : Option Sink)
    (h1 : ∀ sink, callback1 = some sink → ∀ n event, sink n event = none)
    (h2 : ∀ sink, callback2 = some sink → ∀ n event, sink n event = none)
    (cases : List TestCase) (st1 st2 : RunState) (hsent : st1.sent = st2.sent) :
    (runTestCases w endpoint baseBody fieldName authToken method callback1 cases st1).1 =
      (runTestCases w endpoint baseBody fieldName authToken method callback2 cases st2).1 := by
  induction cases generalizing st1 st2 with
  | nil => rfl
  | cons testCase rest ih =>
    simp only [runTestCases]
    rw [runTestCase_result_congr w endpoint baseBody fieldName authToken method callback1
      callback2 h1 h2 testCase st1 st2 hsent]
    rw [ih (runTestCase w endpoint baseBody fieldName authToken method callback1 testCase
        st1).2
      (runTestCase w endpoint baseBody fieldName authToken method callback2 testCase st2).2
      (by rw [runTestCase_sent_eq, runTestCase_sent_eq, hsent])]

/-- What one turn of the loop over the fields leaves in the accumulators when
the callback does not throw. -/
theorem runField_of_neverThrows (w : World) (endpoint : String) (body : JSObject)
    (authToken : Option String) (method : Method) (progressCallback : Option Sink)
    (hsink : ∀ sink, progressCallback = some sink → ∀ n event, sink n event = none)
    (fieldName : String) (acc : Accumulator) (st : RunState) :
    (runField w endpoint body authToken method progressCallback fieldName acc st).1 =
      ⟨setProp acc.fieldResults fieldName (.full (fieldReport (getProp body fieldName)
          (testFieldValidation w endpoint body fieldName (getProp body fieldName) authToken
            method progressCallback st).1)),
        if (fieldReport (getProp body fieldName)
          (testFieldValidation w endpoint body fieldName (getProp body fieldName) authToken
            method progressCallback st).1).properlyValidated = true then
          { acc.summary with properlyValidated := acc.summary.properlyValidated + 1 }
        else { acc.summary with notValidated := acc.summary.notValidated + 1 }⟩ := by
  simp only [runField]
  split
  · rfl
  · next message st2 hcall =>
    have hnone := emit_of_neverThrows progressCallback hsink
      (.fieldComplete fieldName
        (fieldReport (getProp body fieldName) (testFieldValidation w endpoint body fieldName
          (getProp body fieldName) authToken method progressCallback st).1).handledCount
        (fieldReport (getProp body fieldName) (testFieldValidation w endpoint body fieldName
          (getProp body fieldName) authToken method progressCallback st).1).totalTests
        (fieldReport (getProp body fieldName) (testFieldValidation w endpoint body fieldName
          (getProp body fieldName) authToken method progressCallback st).1).properlyValidated
        (.full (fieldReport (getProp body fieldName) (testFieldValidation w endpoint body
          fieldName (getProp body fieldName) authToken method progressCallback st).1)))
      (testFieldValidation w endpoint body fieldName (getProp body fieldName) authToken method
        progressCallback st).2
    rw [hcall] at hnone
    simp at hnone

/-- The accumulators after the loop over the fields do not depend on which
callback is given, as long as none of them throws. -/
theorem runFields_result_congr (w : World) (endpoint : String) (body : JSObject)
    (authToken : Option String) (method : Method) (callback1 callback2 : Option Sink)
    (h1 : ∀ sink, callback1 = some sink → ∀ n event, sink n event = none)
    (h2 : ∀ sink, callback2 = some sink → ∀ n event, sink n event = none)
    (fields : List String) (acc : Accumulator) (st1 st2 : RunState)
    (hsent : st1.sent = st2.sent) :
    (runFields w endpoint body authToken method callback1 fields acc st1).1 =
      (runFields w endpoint body authToken method callback2 fields acc st2).1 := by
  induction fields generalizing acc st1 st2 with
  | nil => rfl
  | cons fieldName rest ih =>
    simp only [runFields]
    have hresults := runTestCases_result_congr w endpoint body fieldName authToken method
      callback1 callback2 h1 h2 (testCases (getProp body fieldName)) st1 st2 hsent
    have hacc : (runField w endpoint body authToken method callback1 fieldName acc st1).1 =
        (runField w endpoint body authToken method callback2 fieldName acc st2).1 := by
      rw [runField_of_neverThrows _ _ _ _ _ _ h1, runField_of_neverThrows _ _ _ _ _ _ h2]
      simp only [testFieldValidation, hresults]
    rw [hacc]
    exact ih _ _ _ (by
      rw [runField_sent, runField_sent, testFieldValidation, testFieldValidation,
        runTestCases_sent_eq, runTestCases_sent_eq, hsent])

/-- The baseline probe depends on the state only through the requests sent. -/
theorem runBaseline_congr (w : World) (endpoint : String) (body : JSObject)
    (authToken : Option String) (method : Method) (summary : Summary) (st1 st2 : RunState)
    (hsent : st1.sent = st2.sent) :
    (runBaseline w endpoint body authToken method summary st1).1 =
      (runBaseline w endpoint body authToken method summary st2).1 ∧
    (runBaseline w endpoint body authToken method summary st1).2.sent =
      (runBaseline w endpoint body authToken method summary st2).2.sent := by
  refine ⟨?_, by rw [runBaseline_sent, runBaseline_sent, makeHttpRequest_sent_eq,
    makeHttpRequest_sent_eq, hsent]⟩
  have hout := makeHttpRequest_outcome_congr w endpoint body authToken method st2 st1 hsent
  simp only [runBaseline]
  rcases hm1 : makeHttpRequest w endpoint body authToken method st1 with ⟨outcome1, s1⟩
  rcases hm2 : makeHttpRequest w endpoint body authToken method st2 with ⟨outcome2, s2⟩
  rw [hm1, hm2] at hout
  simp only at hout
  subst hout
  cases outcome1 <;> rfl

/-- A run over a parsed body with a callback that never throws resolves, with
the accumulators the loop over the fields leaves. -/
theorem runParsed_of_neverThrows (w : World) (endpoint : String) (body : JSObject)
    (authToken : Option String) (method : Method) (progressCallback : Option Sink)
    (hsink : ∀ sink, progressCallback = some sink → ∀ n event, sink n event = none)
    (st : RunState) :
    (runParsed w endpoint body authToken method progressCallback st).1 =
      .ok { endpoint := endpoint,
            summary := (runFields w endpoint body authToken method progressCallback (keys body)
              ⟨[], (runBaseline w endpoint body authToken method
                { totalFields := (keys body).length, properlyValidated := 0, notValidated := 0,
                  errors := [], baseline := none }
                (emit progressCallback (.start endpoint (keys body).length) st).2).1⟩
              (runBaseline w endpoint body authToken method
                { totalFields := (keys body).length, properlyValidated := 0, notValidated := 0,
                  errors := [], baseline := none }
                (emit progressCallback (.start endpoint (keys body).length) st).2).2).1.summary,
            fieldResults := (runFields w endpoint body authToken method progressCallback
              (keys body)
              ⟨[], (runBaseline w endpoint body authToken method
                { totalFields := (keys body).length, properlyValidated := 0, notValidated := 0,
                  errors := [], baseline := none }
                (emit progressCallback (.start endpoint (keys body).length) st).2).1⟩
              (runBaseline w endpoint body authToken method
                { totalFields := (keys body).length, properlyValidated := 0, notValidated := 0,
                  errors := [], baseline := none }
                (emit progressCallback (.start endpoint (keys body).length) st).2).2).1.fieldResults,
            timestamp := w.timestamp } := by
  simp only [runParsed]
  split
  · next message st1 hstart =>
    have hnone := emit_of_neverThrows progressCallback hsink
      (.start endpoint (keys body).length) st
    rw [hstart] at hnone
    simp at hnone
  · next st1 hstart =>
    rw [hstart]
    split
    · next message st4 hsummary =>
      have hnone := emit_of_neverThrows progressCallback hsink
        (.summary
          (runFields w endpoint body authToken method progressCallback (keys body)
            ⟨[], (runBaseline w endpoint body authToken method
              { totalFields := (keys body).length, properlyValidated := 0, notValidated := 0,
                errors := [], baseline := none } st1).1⟩
            (runBaseline w endpoint body authToken method
              { totalFields := (keys body).length, properlyValidated := 0, notValidated := 0,
                errors := [], baseline := none } st1).2).1.summary
          (runFields w endpoint body authToken method progressCallback (keys body)
            ⟨[], (runBaseline w endpoint body authToken method
              { totalFields := (keys body).length, properlyValidated := 0, notValidated := 0,
                errors := [], baseline := none } st1).1⟩
            (runBaseline w endpoint body authToken method
              { totalFields := (keys body).length, properlyValidated := 0, notValidated := 0,
                errors := [], baseline := none } st1).2).1.fieldResults)
        (runFields w endpoint body authToken method progressCallback (keys body)
            ⟨[], (runBaseline w endpoint body authToken method
              { totalFields := (keys body).length, properlyValidated := 0, notValidated := 0,
                errors := [], baseline := none } st1).1⟩
            (runBaseline w endpoint body authToken method
              { totalFields := (keys body).length, properlyValidated := 0, notValidated := 0,
                errors := [], baseline := none } st1).2).2
      rw [hsummary] at hnone
      simp at hnone
    · rfl

/-- The value a run over a parsed body resolves with does not depend on which
callback is given, as long as none of them throws. -/
theorem runParsed_result_congr (w : World) (endpoint : String) (body : JSObject)
    (authToken : Option String) (method : Method) (callback1 callback2 : Option Sink)
    (h1 : ∀ sink, callback1 = some sink → ∀ n event, sink n event = none)
    (h2 : ∀ sink, callback2 = some sink → ∀ n event, sink n event = none)
    (st1 st2 : RunState) (hsent : st1.sent = st2.sent) :
    (runParsed w endpoint body authToken method callback1 st1).1 =
      (runParsed w endpoint body authToken method callback2 st2).1 := by
  rw [runParsed_of_neverThrows _ _ _ _ _ _ h1, runParsed_of_neverThrows _ _ _ _ _ _ h2]
  have hstart : (emit callback1 (.start endpoint (keys body).length) st1).2.sent =
      (emit callback2 (.start endpoint (keys body).length) st2).2.sent := by
    rw [emit_sent, emit_sent, hsent]
  obtain ⟨hb1, hb2⟩ := runBaseline_congr w endpoint body authToken method
    { totalFields := (keys body).length, properlyValidated := 0, notValidated := 0,
      errors := [], baseline := none } _ _ hstart
  rw [hb1, runFields_result_congr w endpoint body authToken method callback1 callback2 h1 h2
    (keys body) _ _ _ hb2]

/-- Without a callback the loop over the test cases hands out no event. -/
theorem runTestCases_events_of_none (w : World) (endpoint : String) (baseBody : JSObject)
    (fieldName : String) (authToken : Option String) (method : Method)
    (cases : List TestCase) (st : RunState) :
    (runTestCases w endpoint baseBody fieldName authToken method none cases st).2.events =
      st.events := by
  induction cases generalizing st with
  | nil => rfl
  | cons testCase rest ih =>
    simp only [runTestCases]
    rw [ih]
    have hev := makeHttpRequest_events w endpoint (testBody baseBody fieldName testCase.value)
      authToken method st
    simp only [runTestCase]
    split
    · next heq => rw [heq] at hev; exact hev
    · next heq => rw [heq] at hev; exact hev

/-- Without a callback the loop over the fields hands out no event. -/
theorem runFields_events_of_none (w : World) (endpoint : String) (body : JSObject)
    (authToken : Option String) (method : Method) (fields : List String)
    (acc : Accumulator) (st : RunState) :
    (runFields w endpoint body authToken method none fields acc st).2.events = st.events := by
  induction fields generalizing acc st with
  | nil => rfl
  | cons fieldName rest ih =>
    simp only [runFields]
    rw [ih]
    simp only [runField, emit, testFieldValidation]
    exact runTestCases_events_of_none w endpoint body fieldName authToken method _ st

/-- Without a callback a run hands out no event. -/
theorem testEndpointValidation_events_of_none (w : World) (endpoint : String)
    (requestBody : RequestBody) (authToken : Option String) (method : Method)
    (st : RunState) :
    (testEndpointValidation w endpoint requestBody authToken method none st).2.events =
      st.events := by
  simp only [testEndpointValidation]
  split
  · rfl
  · simp only [runParsed, emit]
    rw [runFields_events_of_none, runBaseline_events]

/-- C22: for every world, body, token and method, a run with a progress
callback that never throws settles with the same value (the same summary and
field results, or the same failure) as the run without a callback, and sends
the same requests; the run without a callback hands out no event. -/
theorem sink_does_not_change_result (w : World) (endpoint : String)
    (requestBody : RequestBody) (authToken : Option String) (method : Method) (sink : Sink)
    (st : RunState) (hsink : ∀ n event, sink n event = none) :
    (testEndpointValidation w endpoint requestBody authToken method (some sink) st).1 =
      (testEndpointValidation w endpoint requestBody authToken method none st).1 ∧
    (testEndpointValidation w endpoint requestBody authToken method (some sink) st).2.sent =
      (testEndpointValidation w endpoint requestBody authToken method none st).2.sent ∧
    (testEndpointValidation w endpoint requestBody authToken method none st).2.events =
      st.events := by
  refine ⟨?_, ?_, testEndpointValidation_events_of_none w endpoint requestBody authToken
    method st⟩
  · simp only [testEndpointValidation]
    split
    · rfl
    · exact runParsed_result_congr w endpoint _ authToken method (some sink) none
        (fun s hs n event => by cases hs; exact hsink n event) (fun s hs => by cases hs)
        st st rfl
  · simp only [testEndpointValidation]
    split
    · rfl
    · rw [runParsed_sent_eq _ _ _ _ _ _ _ (emit_of_neverThrows (some sink)
          (fun s hs n event => by cases hs; exact hsink n event) _ _),
        runParsed_sent_eq _ _ _ _ _ _ _ (emit_of_neverThrows none (fun s hs => by cases hs) _ _)]

/-- The run over the body with the one field `age` against a target that always
answers 400, with the callback of the standalone host and without one. -/
theorem sink_does_not_change_result_witness :
    (∀ n event, sendProgress n event = none) ∧
    (testEndpointValidation (worldAlways 400 (.obj [("error", .str "invalid age")]))
      "http://localhost/api" (.object ageBody) none (.str "POST") (some sendProgress)
      RunState.initial).1 =
    (testEndpointValidation (worldAlways 400 (.obj [("error", .str "invalid age")]))
      "http://localhost/api" (.object ageBody) none (.str "POST") none RunState.initial).1 :=
  ⟨fun _ _ => rfl,
    (sink_does_not_change_result (worldAlways 400 (.obj [("error", .str "invalid age")]))
      "http://localhost/api" (.object ageBody) none (.str "POST") sendProgress
      RunState.initial (fun _ _ => rfl)).1⟩

/-! ## A target that rejects every mutated request (C23) -/

/-- The score of a field all of whose cases are handled. -/
theorem validationScore_all (totalTests : Nat) (h : 0 < totalTests) :
    validationScore totalTests totalTests = "100.0%" := by
  have htenths : (2000 * totalTests + totalTests) / (2 * totalTests) = 1000 := by
    apply Nat.div_eq_of_lt_le <;> omega
  simp only [validationScore, h.ne', if_false, htenths]
  decide

/-- The score of a field none of whose cases is handled. -/
theorem validationScore_none (totalTests : Nat) (h : 0 < totalTests) :
    validationScore 0 totalTests = "0.0%" := by
  have htenths : (2000 * 0 + totalTests) / (2 * totalTests) = 0 := by
    apply Nat.div_eq_of_lt; omega
  simp only [validationScore, h.ne', if_false, htenths]
  decide

/-- The record of a field all of whose test results are handled. -/
theorem fieldReport_of_all_handled (originalValue : Option JSONValue)
    (results : List TestResult) (hpos : 0 < results.length)
    (hall : ∀ r ∈ results, r.handled = true) :
    (fieldReport originalValue results).handledCount =
      (fieldReport originalValue results).totalTests ∧
    (fieldReport originalValue results).properlyValidated = true ∧
    (fieldReport originalValue results).validationScore = "100.0%" := by
  have hfilter : results.filter (fun r => r.handled) = results :=
    List.filter_eq_self.2 hall
  simp only [fieldReport, hfilter, validationScore_all _ hpos, isProperlyValidated,
    decide_eq_true_eq, true_and, and_true]
  omega

/-- The record of a field none of whose test results is handled. -/
theorem fieldReport_of_none_handled (originalValue : Option JSONValue)
    (results : List TestResult) (hpos : 0 < results.length)
    (hall : ∀ r ∈ results, r.handled = false) :
    (fieldReport originalValue results).handledCount = 0 ∧
    (fieldReport originalValue results).properlyValidated = false ∧
    (fieldReport originalValue results).validationScore = "0.0%" := by
  have hfilter : results.filter (fun r => r.handled) = [] :=
    List.filter_eq_nil_iff.2 (fun r hr => by simp [hall r hr])
  simp [fieldReport, hfilter, validationScore_none _ hpos, isProperlyValidated]

/-- The requests sent only grow in one turn of the loop over the fields. -/
theorem runField_sent_length (w : World) (endpoint : String) (body : JSObject)
    (authToken : Option String) (method : Method) (progressCallback : Option Sink)
    (fieldName : String) (acc : Accumulator) (st : RunState) :
    st.sent.length ≤
      (runField w endpoint body authToken method progressCallback fieldName acc
        st).2.sent.length := by
  rw [runField_sent, testFieldValidation, runTestCases_sent_eq, List.length_append]
  omega

/-- The requests sent only grow in one turn of the loop over the test cases. -/
theorem runTestCase_sent_length (w : World) (endpoint : String) (baseBody : JSObject)
    (fieldName : String) (authToken : Option String) (method : Method)
    (progressCallback : Option Sink) (testCase : TestCase) (st : RunState) :
    st.sent.length ≤
      (runTestCase w endpoint baseBody fieldName authToken method progressCallback testCase
        st).2.sent.length := by
  rw [runTestCase_sent_eq, List.length_append]
  omega

/-- When every probe made from some point on that completes is classified the
same way, and completes unless the flag is `false`, every record of the loop
over the test cases carries that flag. -/
theorem runTestCases_handled_const (w : World) (endpoint : String) (baseBody : JSObject)
    (fieldName : String) (authToken : Option String) (method : Method)
    (progressCallback : Option Sink) (b : Bool) (N : Nat)
    (hsink : b = true → ∀ sink, progressCallback = some sink → ∀ n event, sink n event = none)
    (hcompletes : b = true → ∀ body1 st1, N ≤ st1.sent.length →
      ∃ statusCode response,
        (makeHttpRequest w endpoint body1 authToken method st1).1 =
          .completed statusCode response)
    (hflag : ∀ body1 st1 statusCode response, N ≤ st1.sent.length →
      (makeHttpRequest w endpoint body1 authToken method st1).1 =
        .completed statusCode response → handled statusCode response = b)
    (cases : List TestCase) (st : RunState) (hN : N ≤ st.sent.length) :
    ∀ r ∈ (runTestCases w endpoint baseBody fieldName authToken method progressCallback
      cases st).1, r.handled = b := by
  induction cases generalizing st with
  | nil => intro r hr; simp [runTestCases] at hr
  | cons testCase rest ih =>
    intro r hr
    simp only [runTestCases, List.mem_cons] at hr
    rcases hr with hr | hr
    · subst hr
      rcases hm : makeHttpRequest w endpoint (testBody baseBody fieldName testCase.value)
        authToken method st with ⟨outcome, st1⟩
      cases outcome with
      | transportError message =>
        rw [runTestCase_of_transportError _ _ _ _ _ _ _ _ _ _ _ hm]
        cases b with
        | false => rfl
        | true =>
          obtain ⟨statusCode, response, h⟩ := hcompletes rfl _ st hN
          rw [hm] at h
          simp at h
      | completed statusCode response =>
        have hh := hflag _ st statusCode response hN (by rw [hm])
        rw [runTestCase_of_completed _ _ _ _ _ _ _ _ _ _ _ _ hm]
        cases b with
        | false =>
          split
          · exact hh
          · rfl
        | true =>
          rw [emit_of_neverThrows progressCallback (hsink rfl)]
          exact hh
    · exact ih _ (le_trans hN (runTestCase_sent_length w endpoint baseBody fieldName authToken
        method progressCallback testCase st)) r hr

/-- The counters after one turn of the loop over the fields. -/
theorem runField_counters (w : World) (endpoint : String) (body : JSObject)
    (authToken : Option String) (method : Method) (progressCallback : Option Sink)
    (fieldName : String) (acc : Accumulator) (st : RunState) :
    (runField w endpoint body authToken method progressCallback fieldName acc
      st).1.summary.properlyValidated = acc.summary.properlyValidated +
        (if (fieldReport (getProp body fieldName) (testFieldValidation w endpoint body
          fieldName (getProp body fieldName) authToken method progressCallback
          st).1).properlyValidated = true then 1 else 0) ∧
    (runField w endpoint body authToken method progressCallback fieldName acc
      st).1.summary.notValidated = acc.summary.notValidated +
        (if (fieldReport (getProp body fieldName) (testFieldValidation w endpoint body
          fieldName (getProp body fieldName) authToken method progressCallback
          st).1).properlyValidated = true then 0 else 1) := by
  simp only [runField]
  split <;> (split <;> simp)

/-- When every probe made from some point on that completes is classified the
same way, the loop over the fields leaves, for each field, a record all of
whose results carry that flag, and counts every field on the same side. -/
theorem runFields_handled_const (w : World) (endpoint : String) (body : JSObject)
    (authToken : Option String) (method : Method) (progressCallback : Option Sink)
    (b : Bool) (N : Nat)
    (hsink : b = true → ∀ sink, progressCallback = some sink → ∀ n event, sink n event = none)
    (hcompletes : b = true → ∀ body1 st1, N ≤ st1.sent.length →
      ∃ statusCode response,
        (makeHttpRequest w endpoint body1 authToken method st1).1 =
          .completed statusCode response)
    (hflag : ∀ body1 st1 statusCode response, N ≤ st1.sent.length →
      (makeHttpRequest w endpoint body1 authToken method st1).1 =
        .completed statusCode response → handled statusCode response = b)
    (fields : List String) (acc : Accumulator) (st : RunState) (hN : N ≤ st.sent.length) :
    (∀ entry ∈ (runFields w endpoint body authToken method progressCallback fields acc
        st).1.fieldResults,
      entry ∈ acc.fieldResults ∨ ∃ fieldName ∈ fields,
        (b = false ∧ ∃ message, entry = (fieldName, FieldResult.failed message)) ∨
        ∃ results : List TestResult, 0 < results.length ∧ (∀ r ∈ results, r.handled = b) ∧
          entry = (fieldName, FieldResult.full (fieldReport (getProp body fieldName)
            results))) ∧
    (runFields w endpoint body authToken method progressCallback fields acc
      st).1.summary.properlyValidated =
        acc.summary.properlyValidated + (if b = true then fields.length else 0) ∧
    (runFields w endpoint body authToken method progressCallback fields acc
      st).1.summary.notValidated =
        acc.summary.notValidated + (if b = true then 0 else fields.length) := by
  induction fields generalizing acc st with
  | nil => exact ⟨fun entry hentry => Or.inl hentry, by simp [runFields], by simp [runFields]⟩
  | cons fieldName rest ih =>
    have hresults := runTestCases_handled_const w endpoint body fieldName authToken method
      progressCallback b N hsink hcompletes hflag (testCases (getProp body fieldName)) st hN
    have hpos : 0 < (testFieldValidation w endpoint body fieldName (getProp body fieldName)
        authToken method progressCallback st).1.length := by
      rw [testFieldValidation, runTestCases_length]
      exact testCases_length_pos _
    have hpv : (fieldReport (getProp body fieldName) (testFieldValidation w endpoint body
        fieldName (getProp body fieldName) authToken method progressCallback
        st).1).properlyValidated = b := by
      cases b with
      | true => exact (fieldReport_of_all_handled _ _ hpos hresults).2.1
      | false => exact (fieldReport_of_none_handled _ _ hpos hresults).2.1
    obtain ⟨hc1, hc2⟩ := runField_counters w endpoint body authToken method progressCallback
      fieldName acc st
    obtain ⟨i1, i2, i3⟩ := ih
      (runField w endpoint body authToken method progressCallback fieldName acc st).1
      (runField w endpoint body authToken method progressCallback fieldName acc st).2
      (le_trans hN (runField_sent_length w endpoint body authToken method progressCallback
        fieldName acc st))
    simp only [runFields]
    refine ⟨?_, ?_, ?_⟩
    · intro entry hentry
      rcases i1 entry hentry with h | ⟨f, hf, h⟩
      · have hfull : entry ∈ acc.fieldResults ∨
            (b = false ∧ ∃ message, entry = (fieldName, FieldResult.failed message)) ∨
            entry = (fieldName, FieldResult.full (fieldReport (getProp body fieldName)
              (testFieldValidation w endpoint body fieldName (getProp body fieldName)
                authToken method progressCallback st).1)) := by
          cases b with
          | false =>
            rcases runField_fieldResults w endpoint body authToken method progressCallback
              fieldName acc st entry h with h | h | h
            · exact Or.inl h
            · exact Or.inr (Or.inl ⟨rfl, h⟩)
            · exact Or.inr (Or.inr h)
          | true =>
            rw [runField_of_neverThrows _ _ _ _ _ _ (hsink rfl)] at h
            rcases mem_setProp _ _ _ _ h with h | h
            · exact Or.inl h
            · exact Or.inr (Or.inr h)
        rcases hfull with h | h | h
        · exact Or.inl h
        · exact Or.inr ⟨fieldName, List.mem_cons_self _ _, Or.inl h⟩
        · exact Or.inr ⟨fieldName, List.mem_cons_self _ _, Or.inr ⟨_, hpos, hresults, h⟩⟩
      · exact Or.inr ⟨f, List.mem_cons_of_mem _ hf, h⟩
    · rw [i2, hc1, hpv]
      cases b with
      | false => simp
      | true => simp; omega
    · rw [i3, hc2, hpv]
      cases b with
      | false => simp; omega
      | true => simp

/-- What a probe written to the network settles with. -/
theorem makeHttpRequest_of_sendable (w : World) (endpoint : String) (body : JSObject)
    (authToken : Option String) (m : String) (st : RunState)
    (hcan : canSend w endpoint authToken (.str m) = true) :
    makeHttpRequest w endpoint body authToken (.str m) st =
      (w.respond st.sent.length
        ⟨endpoint, requestMethod w m, authorizationHeader authToken, body⟩,
        { st with sent := st.sent ++
          [⟨endpoint, requestMethod w m, authorizationHeader authToken, body⟩] }) := by
  simp only [canSend, Bool.and_eq_true, Option.isNone_iff_eq_none] at hcan
  simp only [makeHttpRequest, hcan.1, hcan.2]

/-- A probe that cannot be written to the network never completes. -/
theorem makeHttpRequest_of_unsendable (w : World) (endpoint : String) (body : JSObject)
    (authToken : Option String) (method : Method) (st : RunState)
    (hcan : canSend w endpoint authToken method = false) :
    ∃ message, makeHttpRequest w endpoint body authToken method st =
      (.transportError message, st) := by
  cases hurl : w.urlError endpoint with
  | some message => exact ⟨_, by simp only [makeHttpRequest, hurl]; rfl⟩
  | none =>
    cases method with
    | other typeError => exact ⟨_, by simp only [makeHttpRequest, hurl]; rfl⟩
    | str m =>
      cases hreq : w.requestError endpoint (requestMethod w m) (authorizationHeader authToken)
        with
      | some message => exact ⟨_, by simp only [makeHttpRequest, hurl, hreq]; rfl⟩
      | none => simp [canSend, hurl, hreq] at hcan

/-- The flag of a completed probe with a 2xx status code whose body contains no
validation phrase. -/
theorem handled_of_success_without_phrase (s : Int) (response : JSONValue)
    (hlo : 200 ≤ s) (hhi : s < 300)
    (hnone : ∀ phrase ∈ ["validation", "invalid", "required", "bad request", "unprocessable",
      "constraint", "format", "pattern", "type error", "must be", "should be", "expected"],
      ¬ String.data phrase <:+: responseStr response) :
    handled (some s) response = false := by
  have h1 : ¬ 400 ≤ s := by omega
  have hany : validationKeywords.any
      (fun keyword => includes (responseStr response) keyword.data) = false := by
    rw [Bool.eq_false_iff]
    intro h
    obtain ⟨phrase, hp, hin⟩ := (any_includes_iff _ _).1 h
    exact hnone phrase hp hin
  simp only [handled, h1, hlo, hhi, isValidationError, hany, false_and, and_self, ite_true,
    ite_false, ge_iff_le]
  split
  · rfl
  · split <;> rfl

/-- When every probe after the baseline that completes is classified the same
way, the value the run resolves with has, for each entry, a record all of whose
results carry that flag, and counts every field on the same side. -/
theorem runParsed_handled_const (w : World) (endpoint : String) (body : JSObject)
    (authToken : Option String) (method : Method) (progressCallback : Option Sink)
    (b : Bool) (N : Nat)
    (hsink : b = true → ∀ sink, progressCallback = some sink → ∀ n event, sink n event = none)
    (hcompletes : b = true → ∀ body1 st1, N ≤ st1.sent.length →
      ∃ statusCode response,
        (makeHttpRequest w endpoint body1 authToken method st1).1 =
          .completed statusCode response)
    (hflag : ∀ body1 st1 statusCode response, N ≤ st1.sent.length →
      (makeHttpRequest w endpoint body1 authToken method st1).1 =
        .completed statusCode response → handled statusCode response = b)
    (st : RunState) (rr : RunResult)
    (hN : ∀ st1, st1.sent = st.sent →
      N ≤ (makeHttpRequest w endpoint body authToken method st1).2.sent.length)
    (hrun : (runParsed w endpoint body authToken method progressCallback st).1 = .ok rr) :
    (∀ entry ∈ rr.fieldResults, ∃ fieldName ∈ keys body,
      (b = false ∧ ∃ message, entry = (fieldName, FieldResult.failed message)) ∨
      ∃ results : List TestResult, 0 < results.length ∧ (∀ r ∈ results, r.handled = b) ∧
        entry = (fieldName, FieldResult.full (fieldReport (getProp body fieldName) results))) ∧
    rr.summary.totalFields = (keys body).length ∧
    rr.summary.properlyValidated = (if b = true then (keys body).length else 0) ∧
    rr.summary.notValidated = (if b = true then 0 else (keys body).length) := by
  obtain ⟨st1, hstart, hsummary, hfields⟩ := runParsed_ok w endpoint body authToken method
    progressCallback st rr hrun
  have hst1 : st1.sent = st.sent := emit_sent_of_eq hstart
  obtain ⟨h1, h2, h3⟩ := runFields_handled_const w endpoint body authToken method
    progressCallback b N hsink hcompletes hflag (keys body)
    ⟨[], (runBaseline w endpoint body authToken method
      { totalFields := (keys body).length, properlyValidated := 0, notValidated := 0,
        errors := [], baseline := none } st1).1⟩
    (runBaseline w endpoint body authToken method
      { totalFields := (keys body).length, properlyValidated := 0, notValidated := 0,
        errors := [], baseline := none } st1).2
    (by rw [runBaseline_sent]; exact hN st1 hst1)
  obtain ⟨b1, b2, b3⟩ := runBaseline_summary w endpoint body authToken method
    { totalFields := (keys body).length, properlyValidated := 0, notValidated := 0,
      errors := [], baseline := none } st1
  obtain ⟨t1, -, -⟩ := runFields_summary w endpoint body authToken method progressCallback
    (keys body)
    ⟨[], (runBaseline w endpoint body authToken method
      { totalFields := (keys body).length, properlyValidated := 0, notValidated := 0,
        errors := [], baseline := none } st1).1⟩
    (runBaseline w endpoint body authToken method
      { totalFields := (keys body).length, properlyValidated := 0, notValidated := 0,
        errors := [], baseline := none } st1).2
  rw [hsummary, hfields]
  refine ⟨?_, by rw [t1]; exact b1, by rw [h2, b2]; simp, by rw [h3, b3]; simp⟩
  intro entry hentry
  rcases h1 entry hentry with h | h
  · simp at h
  · exact h

/-- C23, as stated, fails: the target answers every request with 400, the
callback throws on every `test-result` event, and no test case of the field
`age` is recorded as handled; the field counts as not validated. -/
theorem client_errors_unhandled_when_sink_throws :
    (∀ n request, (worldAlways 400 (.obj [("error", .str "invalid age")])).respond n request =
      .completed (some 400) (.obj [("error", .str "invalid age")])) ∧
    ∃ rr report,
      (testEndpointValidation (worldAlways 400 (.obj [("error", .str "invalid age")]))
        "http://localhost/api" (.object ageBody) none (.str "POST")
        (some sinkFailingOnTestResult) RunState.initial).1 = .ok rr ∧
      rr.fieldResults = [("age", FieldResult.full report)] ∧
      report.testResults.map (fun r => r.handled) = List.replicate 14 false ∧
      report.testResults.map (fun r => r.error) = List.replicate 14 (some "sink failed") ∧
      report.handledCount = 0 ∧ report.totalTests = 14 ∧
      report.properlyValidated = false ∧ report.validationScore = "0.0%" ∧
      rr.summary.totalFields = 1 ∧ rr.summary.properlyValidated = 0 ∧
      rr.summary.notValidated = 1 :=
  ⟨fun _ _ => rfl, _, _, rfl, rfl, rfl, rfl, rfl, rfl, rfl, by decide, rfl, rfl, rfl⟩

/-- Reading a property that is there finds one of the members. -/
theorem mem_of_getProp {α : Type} (o : List (String × α)) (k : String) (v : α)
    (h : getProp o k = some v) : (k, v) ∈ o := by
  induction o with
  | nil => simp [getProp] at h
  | cons m rest ih =>
    obtain ⟨k1, v1⟩ := m
    by_cases hk : k1 = k
    · simp only [getProp, hk, if_true, Option.some.injEq] at h
      rw [hk, h]
      exact List.mem_cons_self _ _
    · simp only [getProp, hk, if_false] at h
      exact List.mem_cons_of_mem _ (ih h)

/-- C23, amended: in a run without a progress callback, or with one that never
throws, in which requests can be written, if the target answers every request
after the baseline with a status code from 400 to 499, then the run resolves;
every key of the body other than `__proto__` has a full record in
`fieldResults`, with one test result per case of its catalog, all with
`handled = true`, with `handledCount = totalTests`, `properlyValidated = true`
and the score `100.0%`; every entry of `fieldResults` is such a record; and
`summary.properlyValidated = summary.totalFields`, `summary.notValidated = 0`. -/
theorem client_errors_make_every_field_validated (w : World) (endpoint : String)
    (requestBody : RequestBody) (body : JSObject) (authToken : Option String)
    (method : Method) (progressCallback : Option Sink) (st : RunState)
    (hbody : parseRequestBody w requestBody = .ok body)
    (hsink : ∀ sink, progressCallback = some sink → ∀ n event, sink n event = none)
    (hcan : canSend w endpoint authToken method = true)
    (hresp : ∀ n request, st.sent.length < n →
      ∃ s response, w.respond n request = .completed (some s) response ∧ 400 ≤ s ∧ s < 500) :
    ∃ rr : RunResult,
      (testEndpointValidation w endpoint requestBody authToken method progressCallback
        st).1 = .ok rr ∧
      (∀ fieldName ∈ keys body, fieldName ≠ "__proto__" →
        ∃ report, getProp rr.fieldResults fieldName = some (.full report) ∧
          report.testResults.map (fun r => (r.testCase, r.value)) =
            (testCases (getProp body fieldName)).map (fun testCase =>
              (testCase.name, testCase.value)) ∧
          (∀ r ∈ report.testResults, r.handled = true) ∧
          report.handledCount = report.totalTests ∧ report.properlyValidated = true ∧
          report.validationScore = "100.0%") ∧
      (∀ fieldName fieldResult, (fieldName, fieldResult) ∈ rr.fieldResults →
        ∃ report, fieldResult = .full report ∧
          (∀ r ∈ report.testResults, r.handled = true) ∧
          report.handledCount = report.totalTests ∧ report.properlyValidated = true ∧
          report.validationScore = "100.0%") ∧
      rr.summary.properlyValidated = rr.summary.totalFields ∧
      rr.summary.notValidated = 0 := by
  obtain ⟨m, rfl⟩ : ∃ m, method = .str m := by
    cases method with
    | str m => exact ⟨m, rfl⟩
    | other typeError => simp [canSend] at hcan
  have hok := runParsed_of_neverThrows w endpoint body authToken (.str m) progressCallback
    hsink st
  have hrun : (testEndpointValidation w endpoint requestBody authToken (.str m)
      progressCallback st).1 =
      (runParsed w endpoint body authToken (.str m) progressCallback st).1 := by
    simp only [testEndpointValidation, hbody]
  rw [hrun]
  refine ⟨_, hok, ?_⟩
  obtain ⟨h1, h2, h3, h4⟩ := runParsed_handled_const w endpoint body authToken (.str m)
    progressCallback true (st.sent.length + 1) (fun _ => hsink)
    (fun _ body1 st1 hN => by
      obtain ⟨s, response, h, -, -⟩ := hresp st1.sent.length
        ⟨endpoint, requestMethod w m, authorizationHeader authToken, body1⟩ (by omega)
      exact ⟨some s, response, by rw [makeHttpRequest_of_sendable _ _ _ _ _ _ hcan]; exact h⟩)
    (fun body1 st1 statusCode response hN hout => by
      obtain ⟨s, response1, h, hlo, hhi⟩ := hresp st1.sent.length
        ⟨endpoint, requestMethod w m, authorizationHeader authToken, body1⟩ (by omega)
      rw [makeHttpRequest_of_sendable _ _ _ _ _ _ hcan] at hout
      simp only at hout
      rw [h] at hout
      simp only [ProbeOutcome.completed.injEq] at hout
      rw [← hout.1]
      simp [handled, hlo, hhi])
    st _
    (fun st1 hst1 => by
      rw [makeHttpRequest_of_sendable _ _ _ _ _ _ hcan]
      simp [hst1])
    hok
  have hentries : ∀ fieldName fieldResult, (fieldName, fieldResult) ∈
      (runFields w endpoint body authToken (.str m) progressCallback (keys body)
        ⟨[], (runBaseline w endpoint body authToken (.str m)
          { totalFields := (keys body).length, properlyValidated := 0, notValidated := 0,
            errors := [], baseline := none }
          (emit progressCallback (.start endpoint (keys body).length) st).2).1⟩
        (runBaseline w endpoint body authToken (.str m)
          { totalFields := (keys body).length, properlyValidated := 0, notValidated := 0,
            errors := [], baseline := none }
          (emit progressCallback (.start endpoint (keys body).length) st).2).2).1.fieldResults →
      ∃ report, fieldResult = .full report ∧
        (∀ r ∈ report.testResults, r.handled = true) ∧
        report.handledCount = report.totalTests ∧ report.properlyValidated = true ∧
        report.validationScore = "100.0%" := by
    intro fieldName fieldResult hentry
    obtain ⟨f, -, h | ⟨results, hpos, hall, h⟩⟩ := h1 _ hentry
    · exact absurd h.1 (by simp)
    · simp only [Prod.mk.injEq] at h
      obtain ⟨ha, hb, hc⟩ := fieldReport_of_all_handled (getProp body f) results hpos hall
      exact ⟨_, h.2, hall, ha, hb, hc⟩
  refine ⟨?_, hentries, by rw [h3, h2]; rfl, by rw [h4]; rfl⟩
  intro fieldName hkey hproto
  obtain ⟨st1, hget⟩ := (runFields_of_neverThrows w endpoint body authToken (.str m)
    progressCallback hsink (keys body)
    ⟨[], (runBaseline w endpoint body authToken (.str m)
      { totalFields := (keys body).length, properlyValidated := 0, notValidated := 0,
        errors := [], baseline := none }
      (emit progressCallback (.start endpoint (keys body).length) st).2).1⟩
    (runBaseline w endpoint body authToken (.str m)
      { totalFields := (keys body).length, properlyValidated := 0, notValidated := 0,
        errors := [], baseline := none }
      (emit progressCallback (.start endpoint (keys body).length) st).2).2).2 fieldName
    (Or.inl ⟨hkey, hproto⟩)
  obtain ⟨report, hreport, hall, hcount, hpv, hscore⟩ :=
    hentries fieldName _ (mem_of_getProp _ _ _ hget)
  refine ⟨report, by rw [hget, hreport], ?_, hall, hcount, hpv, hscore⟩
  simp only [FieldResult.full.injEq] at hreport
  rw [← hreport]
  exact runTestCases_names_values w endpoint body fieldName authToken (.str m)
    progressCallback _ st1

/-- The run over the body with the one field `age`, without a callback,
against a target that always answers 400. -/
theorem client_errors_make_every_field_validated_witness :
    canSend (worldAlways 400 (.obj [("error", .str "invalid age")])) "http://localhost/api"
      none (.str "POST") = true ∧
    (∀ n request, RunState.initial.sent.length < n →
      ∃ s response, (worldAlways 400 (.obj [("error", .str "invalid age")])).respond n request =
        .completed (some s) response ∧ 400 ≤ s ∧ s < 500) ∧
    ∃ rr : RunResult,
      (testEndpointValidation (worldAlways 400 (.obj [("error", .str "invalid age")]))
        "http://localhost/api" (.object ageBody) none (.str "POST") none
        RunState.initial).1 = .ok rr ∧
      (∀ fieldName ∈ keys ageBody, fieldName ≠ "__proto__" →
        ∃ report, getProp rr.fieldResults fieldName = some (.full report) ∧
          report.testResults.map (fun r => (r.testCase, r.value)) =
            (testCases (getProp ageBody fieldName)).map (fun testCase =>
              (testCase.name, testCase.value)) ∧
          (∀ r ∈ report.testResults, r.handled = true) ∧
          report.handledCount = report.totalTests ∧ report.properlyValidated = true ∧
          report.validationScore = "100.0%") ∧
      (∀ fieldName fieldResult, (fieldName, fieldResult) ∈ rr.fieldResults →
        ∃ report, fieldResult = .full report ∧
          (∀ r ∈ report.testResults, r.handled = true) ∧
          report.handledCount = report.totalTests ∧ report.properlyValidated = true ∧
          report.validationScore = "100.0%") ∧
      rr.summary.properlyValidated = rr.summary.totalFields ∧
      rr.summary.notValidated = 0 :=
  ⟨rfl, fun _ _ _ => ⟨400, _, rfl, by decide, by decide⟩,
    client_errors_make_every_field_validated
      (worldAlways 400 (.obj [("error", .str "invalid age")])) "http://localhost/api"
      (.object ageBody) ageBody none (.str "POST") none RunState.initial rfl
      (fun _ h => by cases h) rfl (fun _ _ _ => ⟨400, _, rfl, by decide, by decide⟩)⟩

/-! ## A target that handles no mutated request (C24) -/

/-- C24: if every probe after the baseline ends in a transport error or returns
a status code from 200 to 299 with a body that contains no validation phrase,
then in the value the run resolves with every full record has only test results
with `handled = false`, `handledCount = 0`, `properlyValidated = false` and the
score `0.0%`; no entry is properly validated; and
`summary.notValidated = summary.totalFields`, `summary.properlyValidated = 0`. -/
theorem unhandled_probes_make_no_field_validated (w : World) (endpoint : String)
    (requestBody : RequestBody) (authToken : Option String) (method : Method)
    (progressCallback : Option Sink) (st : RunState) (rr : RunResult)
    (hresp : ∀ n request, st.sent.length < n →
      (∃ message, w.respond n request = .transportError message) ∨
      ∃ s response, w.respond n request = .completed (some s) response ∧ 200 ≤ s ∧ s < 300 ∧
        ∀ phrase ∈ ["validation", "invalid", "required", "bad request", "unprocessable",
          "constraint", "format", "pattern", "type error", "must be", "should be", "expected"],
          ¬ String.data phrase <:+: responseStr response)
    (hrun : (testEndpointValidation w endpoint requestBody authToken method
      progressCallback st).1 = .ok rr) :
    (∀ fieldName report, (fieldName, FieldResult.full report) ∈ rr.fieldResults →
      (∀ r ∈ report.testResults, r.handled = false) ∧
      report.handledCount = 0 ∧ report.properlyValidated = false ∧
      report.validationScore = "0.0%") ∧
    (∀ fieldName fieldResult, (fieldName, fieldResult) ∈ rr.fieldResults →
      fieldResult.properlyValidated = false) ∧
    rr.summary.notValidated = rr.summary.totalFields ∧
    rr.summary.properlyValidated = 0 := by
  simp only [testEndpointValidation] at hrun
  split at hrun
  · simp at hrun
  · next body hbody =>
    have hmain : ∃ N,
        (∀ body1 st1 statusCode response, N ≤ st1.sent.length →
          (makeHttpRequest w endpoint body1 authToken method st1).1 =
            .completed statusCode response → handled statusCode response = false) ∧
        (∀ st1, st1.sent = st.sent →
          N ≤ (makeHttpRequest w endpoint body authToken method st1).2.sent.length) := by
      cases hsend : canSend w endpoint authToken method with
      | false =>
        refine ⟨0, ?_, fun _ _ => Nat.zero_le _⟩
        intro body1 st1 statusCode response _ hout
        obtain ⟨message, h⟩ := makeHttpRequest_of_unsendable w endpoint body1 authToken method
          st1 hsend
        rw [h] at hout
        simp at hout
      | true =>
        obtain ⟨m, hm⟩ : ∃ m, method = .str m := by
          cases method with
          | str m => exact ⟨m, rfl⟩
          | other typeError => simp [canSend] at hsend
        subst hm
        refine ⟨st.sent.length + 1, ?_, ?_⟩
        · intro body1 st1 statusCode response hN hout
          rw [makeHttpRequest_of_sendable _ _ _ _ _ _ hsend] at hout
          simp only at hout
          rcases hresp st1.sent.length
            ⟨endpoint, requestMethod w m, authorizationHeader authToken, body1⟩ (by omega) with
            ⟨message, h⟩ | ⟨s, response1, h, hlo, hhi, hnone⟩
          · rw [h] at hout
            simp at hout
          · rw [h] at hout
            simp only [ProbeOutcome.completed.injEq] at hout
            rw [← hout.1, ← hout.2]
            exact handled_of_success_without_phrase s response1 hlo hhi hnone
        · intro st1 hst1
          rw [makeHttpRequest_of_sendable _ _ _ _ _ _ hsend]
          simp [hst1]
    obtain ⟨N, hflag, hN⟩ := hmain
    obtain ⟨h1, h2, h3, h4⟩ := runParsed_handled_const w endpoint body authToken method
      progressCallback false N (fun h => by simp at h) (fun h => by simp at h) hflag st rr hN
      hrun
    refine ⟨?_, ?_, by rw [h4, h2]; rfl, by rw [h3]; rfl⟩
    · intro fieldName report hentry
      obtain ⟨f, -, ⟨-, message, h⟩ | ⟨results, hpos, hall, h⟩⟩ := h1 _ hentry
      · simp at h
      · simp only [Prod.mk.injEq, FieldResult.full.injEq] at h
        obtain ⟨ha, hb, hc⟩ := fieldReport_of_none_handled (getProp body f) results hpos hall
        rw [h.2]
        exact ⟨hall, ha, hb, hc⟩
    · intro fieldName fieldResult hentry
      obtain ⟨f, -, ⟨-, message, h⟩ | ⟨results, hpos, hall, h⟩⟩ := h1 _ hentry
      · simp only [Prod.mk.injEq] at h
        rw [h.2]
        rfl
      · simp only [Prod.mk.injEq] at h
        rw [h.2]
        exact (fieldReport_of_none_handled (getProp body f) results hpos hall).2.1

/-- The run over the body with the one field `age` against a target that
always answers 200 with a body that holds no validation phrase. -/
theorem unhandled_probes_make_no_field_validated_witness :
    (∀ n request, RunState.initial.sent.length < n →
      (∃ message, (worldAlways 200 (.obj [("ok", .bool true)])).respond n request =
        .transportError message) ∨
      ∃ s response, (worldAlways 200 (.obj [("ok", .bool true)])).respond n request =
          .completed (some s) response ∧ 200 ≤ s ∧ s < 300 ∧
        ∀ phrase ∈ ["validation", "invalid", "required", "bad request", "unprocessable",
          "constraint", "format", "pattern", "type error", "must be", "should be", "expected"],
          ¬ String.data phrase <:+: responseStr response) ∧
    ∃ rr,
      (testEndpointValidation (worldAlways 200 (.obj [("ok", .bool true)]))
        "http://localhost/api" (.object ageBody) none (.str "POST") none
        RunState.initial).1 = .ok rr ∧
      (∀ fieldName report, (fieldName, FieldResult.full report) ∈ rr.fieldResults →
        (∀ r ∈ report.testResults, r.handled = false) ∧
        report.handledCount = 0 ∧ report.properlyValidated = false ∧
        report.validationScore = "0.0%") ∧
      (∀ fieldName fieldResult, (fieldName, fieldResult) ∈ rr.fieldResults →
        fieldResult.properlyValidated = false) ∧
      rr.summary.notValidated = rr.summary.totalFields ∧
      rr.summary.properlyValidated = 0 :=
  ⟨fun _ _ _ => Or.inr ⟨200, _, rfl, by decide, by decide, by decide⟩, _, rfl,
    unhandled_probes_make_no_field_validated (worldAlways 200 (.obj [("ok", .bool true)]))
      "http://localhost/api" (.object ageBody) none (.str "POST") none RunState.initial _
      (fun _ _ _ => Or.inr ⟨200, _, rfl, by decide, by decide, by decide⟩) rfl⟩

/-! ## The Electron host against the standalone host (C25) -/

/-- The stream of the Electron host for a body that is an object holds the two
events the host writes itself, and no request reaches the network; the stream
of the standalone host starts with the `start` event of the engine. -/
theorem electronStream_of_object (w : World) (endpoint : String) (body : JSObject)
    (authToken : Option String) (method : Method) :
    (∃ summary fieldResults,
      electronStreamTestValidation w endpoint (.object body) authToken =
        [.finalSummary summary fieldResults, .complete]) ∧
    (testEndpointValidation w endpoint (.object body) authToken
      (.other "method.toUpperCase is not a function") none RunState.initial).2.sent = [] ∧
    (∃ rest, streamTestValidation w endpoint (.object body) authToken method =
      .start endpoint (keys body).length :: rest) := by
  refine ⟨?_, ?_, ?_⟩
  · have hev := testEndpointValidation_events_of_none w endpoint (.object body) authToken
      (.other "method.toUpperCase is not a function") RunState.initial
    have hok := runParsed_of_neverThrows w endpoint body authToken
      (.other "method.toUpperCase is not a function") none (fun s hs => by cases hs)
      RunState.initial
    simp only [electronStreamTestValidation]
    simp only [testEndpointValidation, parseRequestBody] at hev ⊢
    rcases hp : runParsed w endpoint body authToken
      (.other "method.toUpperCase is not a function") none RunState.initial with ⟨result, st1⟩
    rw [hp] at hev hok
    simp only at hev hok
    subst hok
    simp only
    rw [hev]
    exact ⟨_, _, rfl⟩
  · simp only [testEndpointValidation, parseRequestBody]
    rw [runParsed_sent_eq _ _ _ _ _ _ _ (by rfl)]
    simp only [requestsSent, RunState.initial, List.append_nil]
  · obtain ⟨blocks, rr, h1, h2, -⟩ := runParsed_events w endpoint body authToken method
      sendProgress (fun _ _ => rfl) RunState.initial
    simp only [streamTestValidation, testEndpointValidation, parseRequestBody]
    rcases hp : runParsed w endpoint body authToken method (some sendProgress)
      RunState.initial with ⟨result, st1⟩
    rw [hp] at h1 h2
    simp only at h1 h2
    subst h1
    simp only
    rw [h2]
    exact ⟨_, rfl⟩

/-- C25 fails in the code: for the body with the one field `age` and a target
that answers every request with 400, the stream of the standalone host has 19
events and its final summary counts the field as properly validated, while the
stream of the Electron host has the two events the host writes itself, no
request is sent, every test case is recorded with the error of the call
`method.toUpperCase()`, and the field counts as not validated. -/
theorem electron_stream_differs_from_server_stream :
    (streamTestValidation (worldAlways 400 (.obj [("error", .str "invalid age")]))
      "http://localhost/api" (.object ageBody) none (.str "POST")).length = 19 ∧
    (streamTestValidation (worldAlways 400 (.obj [("error", .str "invalid age")]))
      "http://localhost/api" (.object ageBody) none (.str "POST")).head? =
        some (.start "http://localhost/api" 1) ∧
    (∃ summary fieldResults,
      (streamTestValidation (worldAlways 400 (.obj [("error", .str "invalid age")]))
        "http://localhost/api" (.object ageBody) none (.str "POST"))[17]? =
          some (.finalSummary summary fieldResults) ∧
      summary.properlyValidated = 1 ∧ summary.notValidated = 0 ∧ summary.errors = []) ∧
    (∃ summary report,
      electronStreamTestValidation (worldAlways 400 (.obj [("error", .str "invalid age")]))
        "http://localhost/api" (.object ageBody) none =
        [.finalSummary summary [("age", .full report)], .complete] ∧
      summary.properlyValidated = 0 ∧ summary.notValidated = 1 ∧
      summary.errors = ["Baseline test failed: Invalid endpoint URL: " ++
        "method.toUpperCase is not a function"] ∧
      report.testResults.map (fun r => r.error) = List.replicate 14
        (some "Invalid endpoint URL: method.toUpperCase is not a function") ∧
      report.handledCount = 0 ∧ report.properlyValidated = false) ∧
    (testEndpointValidation (worldAlways 400 (.obj [("error", .str "invalid age")]))
      "http://localhost/api" (.object ageBody) none
      (.other "method.toUpperCase is not a function") none RunState.initial).2.sent = [] ∧
    electronHandleTestValidation (worldAlways 400 (.obj [("error", .str "invalid age")]))
      "http://localhost/api" (.object ageBody) none true ≠
    handleTestValidation (worldAlways 400 (.obj [("error", .str "invalid age")]))
      "http://localhost/api" (.object ageBody) none (.str "POST") true := by
  refine ⟨rfl, rfl, ⟨_, _, rfl, rfl, rfl, rfl⟩, ⟨_, _, rfl, rfl, rfl, by decide, rfl, rfl, rfl⟩,
    rfl, ?_⟩
  intro h
  have he : electronHandleTestValidation
      (worldAlways 400 (.obj [("error", .str "invalid age")])) "http://localhost/api"
      (.object ageBody) none true =
      .stream (electronStreamTestValidation
        (worldAlways 400 (.obj [("error", .str "invalid age")])) "http://localhost/api"
        (.object ageBody) none) := by
    simp [electronHandleTestValidation, requestBodyMissing]
  have hs : handleTestValidation (worldAlways 400 (.obj [("error", .str "invalid age")]))
      "http://localhost/api" (.object ageBody) none (.str "POST") true =
      .stream (streamTestValidation
        (worldAlways 400 (.obj [("error", .str "invalid age")])) "http://localhost/api"
        (.object ageBody) none (.str "POST")) := by
    simp [handleTestValidation, requestBodyMissing]
  rw [he, hs] at h
  injection h with h
  have hlen := congrArg List.length h
  have h2 : (electronStreamTestValidation
      (worldAlways 400 (.obj [("error", .str "invalid age")])) "http://localhost/api"
      (.object ageBody) none).length = 2 := rfl
  have h19 : (streamTestValidation
      (worldAlways 400 (.obj [("error", .str "invalid age")])) "http://localhost/api"
      (.object ageBody) none (.str "POST")).length = 19 := rfl
  omega

/-! ## The entries of fieldResults and the keys of the body (C28) -/

/-- Assigning to a name that is neither an own property nor `__proto__` adds
the property at the end. -/
theorem setProp_of_not_mem {α : Type} (o : List (String × α)) (f : String) (v : α)
    (hf : f ∉ keys o) (hproto : f ≠ "__proto__") : setProp o f v = o ++ [(f, v)] := by
  induction o with
  | nil => simp [setProp, hproto]
  | cons m rest ih =>
    obtain ⟨k1, v1⟩ := m
    simp only [keys, List.map_cons, List.mem_cons, not_or] at hf
    have hk : ¬ k1 = f := fun h => hf.1 h.symm
    simp only [setProp, hk, if_false, List.cons_append, List.cons.injEq, true_and]
    exact ih hf.2

/-- With a callback that never throws, the loop over distinct fields, none of
them named `__proto__` or present already, appends one full record for each
field, in order, adds no error, and counts the records that are properly
validated. -/
theorem runFields_entries_of_neverThrows (w : World) (endpoint : String) (body : JSObject)
    (authToken : Option String) (method : Method) (progressCallback : Option Sink)
    (hsink : ∀ sink, progressCallback = some sink → ∀ n event, sink n event = none)
    (fields : List String) (acc : Accumulator) (st : RunState)
    (hnodup : fields.Nodup) (hnew : ∀ f ∈ fields, f ∉ keys acc.fieldResults)
    (hproto : "__proto__" ∉ fields) :
    ∃ entries : List (String × FieldResult),
      (runFields w endpoint body authToken method progressCallback fields acc
        st).1.fieldResults = acc.fieldResults ++ entries ∧
      keys entries = fields ∧
      (∀ entry ∈ entries, ∃ report, entry.2 = FieldResult.full report) ∧
      (runFields w endpoint body authToken method progressCallback fields acc
        st).1.summary.properlyValidated =
        acc.summary.properlyValidated +
          entries.countP (fun entry => entry.2.properlyValidated) ∧
      (runFields w endpoint body authToken method progressCallback fields acc
        st).1.summary.errors = acc.summary.errors := by
  induction fields generalizing acc st with
  | nil => exact ⟨[], by simp [runFields], rfl, by simp, by simp [runFields], by simp [runFields]⟩
  | cons fieldName rest ih =>
    have hne : fieldName ≠ "__proto__" := fun h => hproto (h ▸ List.mem_cons_self _ _)
    have hstep := runField_of_neverThrows w endpoint body authToken method progressCallback
      hsink fieldName acc st
    rw [setProp_of_not_mem _ _ _ (hnew fieldName (List.mem_cons_self _ _)) hne] at hstep
    obtain ⟨hc1, -⟩ := runField_counters w endpoint body authToken method progressCallback
      fieldName acc st
    have herr : (runField w endpoint body authToken method progressCallback fieldName acc
        st).1.summary.errors = acc.summary.errors := by
      rw [hstep]; split <;> rfl
    have hfr : (runField w endpoint body authToken method progressCallback fieldName acc
        st).1.fieldResults = acc.fieldResults ++ [(fieldName, FieldResult.full
          (fieldReport (getProp body fieldName) (testFieldValidation w endpoint body fieldName
            (getProp body fieldName) authToken method progressCallback st).1))] := by
      rw [hstep]
    obtain ⟨entries, h1, h2, h3, h4, h5⟩ := ih
      (runField w endpoint body authToken method progressCallback fieldName acc st).1
      (runField w endpoint body authToken method progressCallback fieldName acc st).2
      (List.nodup_cons.1 hnodup).2
      (by
        intro f hf hmem
        rw [hfr] at hmem
        simp only [keys, List.map_append, List.map_cons, List.map_nil, List.mem_append,
          List.mem_singleton] at hmem
        rcases hmem with hmem | hmem
        · exact hnew f (List.mem_cons_of_mem _ hf) hmem
        · exact (List.nodup_cons.1 hnodup).1 (hmem ▸ hf))
      (fun h => hproto (List.mem_cons_of_mem _ h))
    refine ⟨(fieldName, FieldResult.full (fieldReport (getProp body fieldName)
      (testFieldValidation w endpoint body fieldName (getProp body fieldName) authToken method
        progressCallback st).1)) :: entries, ?_, ?_, ?_, ?_, ?_⟩
    · simp only [runFields]
      rw [h1, hfr, List.append_assoc]
      rfl
    · simp only [keys, List.map_cons] at h2 ⊢
      rw [h2]
    · intro entry hentry
      rcases List.mem_cons.1 hentry with h | h
      · exact ⟨_, by rw [h]⟩
      · exact h3 entry h
    · simp only [runFields]
      rw [h4, hc1, List.countP_cons]
      simp only [FieldResult.properlyValidated]
      omega
    · simp only [runFields]
      rw [h5, herr]

/-- The baseline probe adds at most one entry to `summary.errors`. -/
theorem runBaseline_errors (w : World) (endpoint : String) (body : JSObject)
    (authToken : Option String) (method : Method) (summary : Summary) (st : RunState) :
    (runBaseline w endpoint body authToken method summary st).1.errors.length ≤
      summary.errors.length + 1 := by
  simp only [runBaseline]
  split <;> simp

/-- What C28 says holds for a body whose keys are distinct and none of which is
`__proto__`: with a callback that never throws, or with none, the run
resolves, `fieldResults` has a full record for exactly the keys of the body, in
order, `summary.errors` has at most one entry, and `summary.properlyValidated`
counts the entries that are properly validated. -/
theorem fieldResults_of_neverThrows (w : World) (endpoint : String)
    (requestBody : RequestBody) (authToken : Option String) (method : Method)
    (progressCallback : Option Sink) (st : RunState) (body : JSObject)
    (hsink : ∀ sink, progressCallback = some sink → ∀ n event, sink n event = none)
    (hbody : parseRequestBody w requestBody = .ok body)
    (hnodup : (keys body).Nodup) (hproto : "__proto__" ∉ keys body) :
    ∃ rr, (testEndpointValidation w endpoint requestBody authToken method progressCallback
        st).1 = .ok rr ∧
      keys rr.fieldResults = keys body ∧
      (∀ entry ∈ rr.fieldResults, ∃ report, entry.2 = FieldResult.full report) ∧
      rr.summary.errors.length ≤ 1 ∧
      rr.summary.properlyValidated =
        rr.fieldResults.countP (fun entry => entry.2.properlyValidated) := by
  obtain ⟨entries, h1, h2, h3, h4, h5⟩ := runFields_entries_of_neverThrows w endpoint body
    authToken method progressCallback hsink (keys body)
    ⟨[], (runBaseline w endpoint body authToken method
      { totalFields := (keys body).length, properlyValidated := 0, notValidated := 0,
        errors := [], baseline := none }
      (emit progressCallback (.start endpoint (keys body).length) st).2).1⟩
    (runBaseline w endpoint body authToken method
      { totalFields := (keys body).length, properlyValidated := 0, notValidated := 0,
        errors := [], baseline := none }
      (emit progressCallback (.start endpoint (keys body).length) st).2).2
    hnodup (by intro f _ h; simp [keys] at h) hproto
  have hb := runBaseline_errors w endpoint body authToken method
    { totalFields := (keys body).length, properlyValidated := 0, notValidated := 0,
      errors := [], baseline := none }
    (emit progressCallback (.start endpoint (keys body).length) st).2
  obtain ⟨-, b2, -⟩ := runBaseline_summary w endpoint body authToken method
    { totalFields := (keys body).length, properlyValidated := 0, notValidated := 0,
      errors := [], baseline := none }
    (emit progressCallback (.start endpoint (keys body).length) st).2
  refine ⟨_, by
    simp only [testEndpointValidation, hbody]
    exact runParsed_of_neverThrows w endpoint body authToken method progressCallback hsink st,
    ?_, ?_, ?_, ?_⟩
  · simp only [h1, List.nil_append, h2]
  · simp only [h1, List.nil_append]
    exact h3
  · simp only [h5]
    simpa using hb
  · simp only [h4, h1, List.nil_append, b2, Nat.zero_add]

/-- C28 fails in the code: for the body that `JSON.parse` makes of a text whose
only member is named `__proto__`, run without a callback against a target that
answers every request with 400, `fieldResults` has no entry although the body
has one key, and `summary.properlyValidated` is 1 although no entry is properly
validated. -/
theorem field_named_proto_has_no_entry :
    keys protoBody = ["__proto__"] ∧
    ∃ rr,
      (testEndpointValidation (worldAlways 400 (.obj [("error", .str "invalid")]))
        "http://localhost/api" (.object protoBody) none (.str "POST") none
        RunState.initial).1 = .ok rr ∧
      rr.fieldResults = [] ∧
      rr.summary.totalFields = 1 ∧ rr.summary.properlyValidated = 1 ∧
      rr.summary.notValidated = 0 ∧ rr.summary.errors = [] ∧
      rr.fieldResults.countP (fun entry => entry.2.properlyValidated) = 0 ∧
      (testEndpointValidation (worldAlways 400 (.obj [("error", .str "invalid")]))
        "http://localhost/api" (.object protoBody) none (.str "POST") none
        RunState.initial).2.sent.length = 15 :=
  ⟨rfl, _, rfl, rfl, rfl, rfl, rfl, rfl, rfl, rfl⟩

/-! ## A client-error status, on the probes of a run (C1) -/

/-- The loop over the test cases of a list in two parts runs the first part,
then the second from the state the first part leaves. -/
theorem runTestCases_append (w : World) (endpoint : String) (baseBody : JSObject)
    (fieldName : String) (authToken : Option String) (method : Method)
    (progressCallback : Option Sink) (pre post : List TestCase) (st : RunState) :
    runTestCases w endpoint baseBody fieldName authToken method progressCallback (pre ++ post)
      st =
      ((runTestCases w endpoint baseBody fieldName authToken method progressCallback pre
          st).1 ++
        (runTestCases w endpoint baseBody fieldName authToken method progressCallback post
          (runTestCases w endpoint baseBody fieldName authToken method progressCallback pre
            st).2).1,
       (runTestCases w endpoint baseBody fieldName authToken method progressCallback post
          (runTestCases w endpoint baseBody fieldName authToken method progressCallback pre
            st).2).2) := by
  induction pre generalizing st with
  | nil => simp [runTestCases]
  | cons testCase rest ih => simp [runTestCases, ih]

/-- The record of the test case at a position of the catalog is the record of
one turn of the loop, run from the state the earlier cases leave. -/
theorem testFieldValidation_getElem (w : World) (endpoint : String) (baseBody : JSObject)
    (fieldName : String) (originalValue : Option JSONValue) (authToken : Option String)
    (method : Method) (progressCallback : Option Sink) (st : RunState)
    (pre post : List TestCase) (testCase : TestCase)
    (hcatalog : testCases originalValue = pre ++ testCase :: post) :
    (testFieldValidation w endpoint baseBody fieldName originalValue authToken method
      progressCallback st).1[pre.length]? =
      some (runTestCase w endpoint baseBody fieldName authToken method progressCallback
        testCase
        (runTestCases w endpoint baseBody fieldName authToken method progressCallback pre
          st).2).1 := by
  rw [testFieldValidation, hcatalog, runTestCases_append]
  simp only [runTestCases]
  rw [List.getElem?_append_right (by rw [runTestCases_length])]
  simp [runTestCases_length]

/-- What one turn of the loop records for a probe that completes, when the
callback, if there is one, returns normally from the `test-result` event. -/
theorem runTestCase_of_accepted (w : World) (endpoint : String) (baseBody : JSObject)
    (fieldName : String) (authToken : Option String) (method : Method)
    (progressCallback : Option Sink) (testCase : TestCase) (st st1 : RunState)
    (statusCode : Option Int) (response : JSONValue)
    (hprobe : makeHttpRequest w endpoint (testBody baseBody fieldName testCase.value)
      authToken method st = (.completed statusCode response, st1))
    (haccept : (emit progressCallback (.testResult fieldName testCase.name testCase.value
      statusCode (eventHandled statusCode) (testBody baseBody fieldName testCase.value)
      response) st1).1 = none) :
    (runTestCase w endpoint baseBody fieldName authToken method progressCallback testCase
      st).1 =
      completedResult testCase (testBody baseBody fieldName testCase.value) statusCode
        response := by
  rw [runTestCase_of_completed _ _ _ _ _ _ _ _ _ _ _ _ hprobe, haccept]

/-- C1, as stated, fails: the probe of the `null` case of the field `age`
completes with 404 and an empty body, the callback throws on the `test-result`
event, and the case is recorded with `handled = false`. -/
theorem client_error_probe_unhandled_when_sink_throws :
    (makeHttpRequest (worldAlways 404 (.str "")) "http://localhost/api"
      (testBody ageBody "age" (some .null)) none (.str "POST") RunState.initial).1 =
      .completed (some 404) (.str "") ∧
    ∃ r, (testFieldValidation (worldAlways 404 (.str "")) "http://localhost/api" ageBody "age"
        (some (.num "30")) none (.str "POST") (some sinkFailingOnTestResult)
        RunState.initial).1[0]? = some r ∧
      r.testCase = "null" ∧ r.handled = false ∧ r.statusCode = none ∧
      r.error = some "sink failed" :=
  ⟨rfl, _, rfl, rfl, rfl, rfl, rfl⟩

/-- C1, amended: for the test case at any position of the catalog of a field,
if its probe, made in the state the earlier cases leave, completes with a
status code from 400 to 499, and the progress callback, if there is one,
returns normally from the `test-result` event of the case, then the record at
that position is the record of the case, with that status code and body and
`handled = true`, whatever the body is. -/
theorem client_error_probe_is_handled (w : World) (endpoint : String) (baseBody : JSObject)
    (fieldName : String) (originalValue : Option JSONValue) (authToken : Option String)
    (method : Method) (progressCallback : Option Sink) (st st1 : RunState)
    (pre post : List TestCase) (testCase : TestCase) (s : Int) (response : JSONValue)
    (hcatalog : testCases originalValue = pre ++ testCase :: post)
    (hprobe : makeHttpRequest w endpoint (testBody baseBody fieldName testCase.value)
      authToken method
      (runTestCases w endpoint baseBody fieldName authToken method progressCallback pre
        st).2 = (.completed (some s) response, st1))
    (haccept : (emit progressCallback (.testResult fieldName testCase.name testCase.value
      (some s) (eventHandled (some s)) (testBody baseBody fieldName testCase.value)
      response) st1).1 = none)
    (hlo : 400 ≤ s) (hhi : s < 500) :
    ∃ r, (testFieldValidation w endpoint baseBody fieldName originalValue authToken method
        progressCallback st).1[pre.length]? = some r ∧
      r.testCase = testCase.name ∧ r.value = testCase.value ∧
      r.statusCode = some s ∧ r.response = response ∧ r.error = none ∧
      r.handled = true := by
  refine ⟨_, testFieldValidation_getElem w endpoint baseBody fieldName originalValue authToken
    method progressCallback st pre post testCase hcatalog, ?_⟩
  rw [runTestCase_of_accepted _ _ _ _ _ _ _ _ _ _ _ _ hprobe haccept]
  refine ⟨rfl, rfl, rfl, rfl, rfl, ?_⟩
  simp [completedResult, handled, hlo, hhi]

/-- The second case of the field `age`, the removed field, against a target
that answers every request with 404 and the text `Internal Server Error`,
with the callback of the standalone host. -/
theorem client_error_probe_is_handled_witness :
    testCases (some (.num "30")) =
      [⟨"null", some .null⟩] ++ ⟨"undefined", none⟩ ::
        (testCases (some (.num "30"))).drop 2 ∧
    (makeHttpRequest (worldAlways 404 (.str "Internal Server Error")) "http://localhost/api"
      (testBody ageBody "age" none) none (.str "POST")
      (runTestCases (worldAlways 404 (.str "Internal Server Error")) "http://localhost/api"
        ageBody "age" none (.str "POST") (some sendProgress) [⟨"null", some .null⟩]
        RunState.initial).2).1 = .completed (some 404) (.str "Internal Server Error") ∧
    "internal server error".data <:+: responseStr (.str "Internal Server Error") ∧
    ∃ r, (testFieldValidation (worldAlways 404 (.str "Internal Server Error"))
        "http://localhost/api" ageBody "age" (some (.num "30")) none (.str "POST")
        (some sendProgress) RunState.initial).1[1]? = some r ∧
      r.testCase = "undefined" ∧ r.value = none ∧
      r.statusCode = some 404 ∧ r.response = .str "Internal Server Error" ∧ r.error = none ∧
      r.handled = true :=
  ⟨rfl, rfl, by decide,
    client_error_probe_is_handled (worldAlways 404 (.str "Internal Server Error"))
      "http://localhost/api" ageBody "age" (some (.num "30")) none (.str "POST")
      (some sendProgress) RunState.initial _ [⟨"null", some .null⟩]
      ((testCases (some (.num "30"))).drop 2) ⟨"undefined", none⟩ 404
      (.str "Internal Server Error") rfl rfl rfl (by decide) (by decide)⟩

/-! ## Validation phrases in a 2xx body, on the probes of a run (C4) -/

/-- C4, as stated, fails in one direction: the probe of the `null` case of the
field `age` completes with 200 and the text `Invalid input`, which holds the
validation phrase `invalid` and no fault phrase; the callback throws on the
`test-result` event, and the case is recorded with `handled = false`. -/
theorem validation_phrase_unhandled_when_sink_throws :
    (makeHttpRequest (worldAlways 200 (.str "Invalid input")) "http://localhost/api"
      (testBody ageBody "age" (some .null)) none (.str "POST") RunState.initial).1 =
      .completed (some 200) (.str "Invalid input") ∧
    "invalid".data <:+: responseStr (.str "Invalid input") ∧
    (∀ phrase ∈ ["internal server error", "server error", "database error",
      "connection error", "timeout", "service unavailable"],
      ¬ String.data phrase <:+: responseStr (.str "Invalid input")) ∧
    ∃ r, (testFieldValidation (worldAlways 200 (.str "Invalid input")) "http://localhost/api"
        ageBody "age" (some (.num "30")) none (.str "POST") (some sinkFailingOnTestResult)
        RunState.initial).1[0]? = some r ∧
      r.testCase = "null" ∧ r.handled = false ∧ r.statusCode = none ∧
      r.error = some "sink failed" :=
  ⟨rfl, by decide, by decide, _, rfl, rfl, rfl, rfl, rfl⟩

/-- C4, amended: for the test case at any position of the catalog of a field,
if its probe, made in the state the earlier cases leave, completes with a
status code from 200 to 299 and a body whose text holds none of the six fault
phrases, and the progress callback, if there is one, returns normally from the
`test-result` event of the case, then the record at that position has
`handled = true` exactly when the text holds one of the twelve validation
phrases.  The text is the body itself when the body is a string and its
serialisation otherwise, with every letter lowered; a phrase counts wherever
it occurs in the text. -/
theorem validation_phrase_in_success_probe_iff_handled (w : World) (endpoint : String)
    (baseBody : JSObject) (fieldName : String) (originalValue : Option JSONValue)
    (authToken : Option String) (method : Method) (progressCallback : Option Sink)
    (st st1 : RunState) (pre post : List TestCase) (testCase : TestCase) (s : Int)
    (response : JSONValue)
    (hcatalog : testCases originalValue = pre ++ testCase :: post)
    (hprobe : makeHttpRequest w endpoint (testBody baseBody fieldName testCase.value)
      authToken method
      (runTestCases w endpoint baseBody fieldName authToken method progressCallback pre
        st).2 = (.completed (some s) response, st1))
    (haccept : (emit progressCallback (.testResult fieldName testCase.name testCase.value
      (some s) (eventHandled (some s)) (testBody baseBody fieldName testCase.value)
      response) st1).1 = none)
    (hlo : 200 ≤ s) (hhi : s < 300)
    (hnofault : ∀ phrase ∈ ["internal server error", "server error", "database error",
      "connection error", "timeout", "service unavailable"],
      ¬ String.data phrase <:+: responseStr response) :
    responseStr response =
      (match response with
        | .str text => text.data
        | value => (stringify value).data).map Char.toLower ∧
    ∃ r, (testFieldValidation w endpoint baseBody fieldName originalValue authToken method
        progressCallback st).1[pre.length]? = some r ∧
      r.testCase = testCase.name ∧ r.statusCode = some s ∧ r.response = response ∧
      (r.handled = true ↔
        ∃ phrase ∈ ["validation", "invalid", "required", "bad request", "unprocessable",
          "constraint", "format", "pattern", "type error", "must be", "should be", "expected"],
          String.data phrase <:+: responseStr response) := by
  refine ⟨by cases response <;> rfl, _, testFieldValidation_getElem w endpoint baseBody
    fieldName originalValue authToken method progressCallback st pre post testCase hcatalog,
    ?_⟩
  rw [runTestCase_of_accepted _ _ _ _ _ _ _ _ _ _ _ _ hprobe haccept]
  refine ⟨rfl, rfl, rfl, ?_⟩
  have h1 : ¬ 400 ≤ s := by omega
  have hany : serverErrorKeywords.any
      (fun keyword => includes (responseStr response) keyword.data) = false := by
    rw [Bool.eq_false_iff]
    intro h
    obtain ⟨phrase, hp, hin⟩ := (any_includes_iff _ _).1 h
    exact hnofault phrase hp hin
  by_cases ht : truthy response = true
  · simp only [completedResult, handled, h1, hlo, hhi, isValidationError, ht, hany, false_and,
      and_self, ite_true, ite_false, Bool.not_true, Bool.false_eq_true, ge_iff_le]
    exact any_includes_iff validationKeywords (responseStr response)
  · have hf : truthy response = false := by simpa using ht
    have hnone := responseStr_of_falsy response hf
    simp only [completedResult, handled, h1, hlo, hhi, isValidationError, hf, false_and,
      and_self, ite_true, ite_false, Bool.not_false, Bool.false_eq_true, ge_iff_le, false_iff]
    rintro ⟨phrase, hp, hin⟩
    exact hnone phrase hp hin

/-- The first case of the field `age` against a target that answers every
request with 200 and an object whose only key is `Format`: the lowered
serialisation holds `format`, and not `Format`, and the case is handled. -/
theorem validation_phrase_in_success_probe_iff_handled_witness :
    testCases (some (.num "30")) =
      [] ++ ⟨"null", some .null⟩ :: (testCases (some (.num "30"))).drop 1 ∧
    (makeHttpRequest (worldAlways 200 (.obj [("Format", .str "json")])) "http://localhost/api"
      (testBody ageBody "age" (some .null)) none (.str "POST") RunState.initial).1 =
      .completed (some 200) (.obj [("Format", .str "json")]) ∧
    (∀ phrase ∈ ["internal server error", "server error", "database error",
      "connection error", "timeout", "service unavailable"],
      ¬ String.data phrase <:+: responseStr (.obj [("Format", .str "json")])) ∧
    "format".data <:+: responseStr (.obj [("Format", .str "json")]) ∧
    ¬ "Format".data <:+: responseStr (.obj [("Format", .str "json")]) ∧
    (responseStr (.obj [("Format", .str "json")])).length = 17 ∧
    ∃ r, (testFieldValidation (worldAlways 200 (.obj [("Format", .str "json")]))
        "http://localhost/api" ageBody "age" (some (.num "30")) none (.str "POST")
        (some sendProgress) RunState.initial).1[0]? = some r ∧
      r.testCase = "null" ∧ r.statusCode = some 200 ∧
      r.response = .obj [("Format", .str "json")] ∧ r.handled = true := by
  obtain ⟨-, r, h1, h2, h3, h4, h5⟩ := validation_phrase_in_success_probe_iff_handled
    (worldAlways 200 (.obj [("Format", .str "json")])) "http://localhost/api" ageBody "age"
    (some (.num "30")) none (.str "POST") (some sendProgress) RunState.initial _ []
    ((testCases (some (.num "30"))).drop 1) ⟨"null", some .null⟩ 200
    (.obj [("Format", .str "json")]) rfl rfl rfl (by decide) (by decide) (by decide)
  exact ⟨rfl, rfl, by decide, by decide, by decide, by decide, r, h1, h2, h3, h4,
    h5.2 ⟨"format", by decide, by decide⟩⟩

/-! ## Methods that are not written as given -/

/-- A method holding a blank is refused by `client.request`: every probe of
the run is rejected inside the `try` block of `makeHttpRequest`, nothing is
sent, and every test case of the field `age` is recorded with the error,
although the target would answer 400. -/
theorem unwritable_method_sends_nothing :
    canSend worldRefusingBlankInMethod "http://localhost/api" none (.str "po st") = false ∧
    ∃ rr report,
      testEndpointValidation worldRefusingBlankInMethod "http://localhost/api"
        (.object ageBody) none (.str "po st") none RunState.initial =
        (.ok rr, RunState.initial) ∧
      rr.fieldResults = [("age", FieldResult.full report)] ∧
      report.testResults.map (fun r => r.error) = List.replicate 14
        (some ("Invalid endpoint URL: Method must be a valid HTTP token [" ++
          String.singleton (Char.ofNat 34) ++ "PO ST" ++ String.singleton (Char.ofNat 34) ++
          "]")) ∧
      report.handledCount = 0 ∧ report.properlyValidated = false ∧
      rr.summary.properlyValidated = 0 ∧ rr.summary.notValidated = 1 :=
  ⟨rfl, _, _, rfl, rfl, by decide, rfl, rfl, rfl, rfl⟩

/-- An empty method goes out as `GET`. -/
theorem empty_method_goes_out_as_get :
    requestMethod (worldAlways 400 (.str "invalid")) "" = "GET" ∧
    (testFieldValidation (worldAlways 400 (.str "invalid")) "http://localhost/api" ageBody
      "age" (some (.num "30")) none (.str "") none RunState.initial).2.sent.map
        (fun request => request.method) = List.replicate 14 "GET" :=
  ⟨rfl, rfl⟩

end ValidationTester
